import Mathlib

/-!
# Agent chain performer (`backend/pkg/providers/performer.go`)

A shallow embedding of the agent loop of `performer.go` and theorems about it.

Modelling conventions

* Go strings are Lean strings (sequences of Unicode characters).
* A Go `error` is a value of `GoError`; a nil error is `none`.
* Every call to an external collaborator (LLM client, tools executor, argument
  repair, repetition detector, stream sink, chain repository, summarizer,
  prompter, retry timer) is answered by a field of `Env`.  A collaborator is a
  function of the history of collaborator calls made so far (the log, oldest
  first) and of its arguments, and every call is appended to the log together
  with the answer it got.  The log is thus the state that is passed explicitly
  through the code.
* Logging, tracing spans and the knowledge graph side channel never influence
  the data or the control flow of the functions embedded here and are left out.
* A runtime fault of Go (index out of range, nil dereference) is the result
  `none` of the function in which it happens.
-/

set_option linter.unusedVariables false

namespace Performer

/-! ## Constants (performer.go, lines 27-33) -/

def maxRetriesToCallSimpleChain : Nat := 3

def maxRetriesToCallAgentChain : Nat := 3

def maxRetriesToCallFunction : Nat := 3

def maxReflectorCallsPerChain : Nat := 3

/-! ## Errors -/

/-- Go error values as this file builds and inspects them. `Wrap pre e` is
`fmt.Errorf(pre + "%w", e)`: the text `pre` is what the format string puts in
front of the wrapped error. `JoinNil` and `JoinCons` spell the list held by the
result of `errors.Join`. -/
inductive GoError where
  | Canceled : GoError
  | New (msg : String) : GoError
  | Wrap (pre : String) (inner : GoError) : GoError
  | JoinNil : GoError
  | JoinCons (head : GoError) (tail : GoError) : GoError
  deriving DecidableEq, Repr

namespace GoError

/-- Result of `errors.Join(errs...)` for a list of non-nil errors. -/
def Join : List GoError → GoError
  | [] => JoinNil
  | e :: es => JoinCons e (Join es)

/-- Behaviour of `errors.Is(err, context.Canceled)`: follows `%w` wrapping and looks into
every member of a joined error. -/
def IsCanceled : GoError → Bool
  | Canceled => true
  | New _ => false
  | Wrap _ inner => IsCanceled inner
  | JoinNil => false
  | JoinCons head tail => IsCanceled head || IsCanceled tail

/-- Text of `err.Error()`. -/
def Error : GoError → String
  | Canceled => "context canceled"
  | New msg => msg
  | Wrap pre inner => pre ++ Error inner
  | JoinNil => ""
  | JoinCons head JoinNil => Error head
  | JoinCons head tail => Error head ++ "\n" ++ Error tail

end GoError

/-! ## Strings (Go package `strings`, `unicode`) -/

/-- Go `unicode.IsSpace`: the code points with the Unicode White_Space property. -/
def unicodeIsSpace (c : Char) : Bool :=
  let n := c.toNat
  (9 ≤ n && n ≤ 13) || n == 32 || n == 133 || n == 160 || n == 5760 ||
  (8192 ≤ n && n ≤ 8202) || n == 8232 || n == 8233 || n == 8239 || n == 8287 || n == 12288

/-- Go `strings.TrimFunc`: drop the leading and the trailing characters that satisfy `f`. -/
def TrimFunc (f : Char → Bool) (s : String) : String :=
  ⟨((s.data.dropWhile f).reverse.dropWhile f).reverse⟩

/-- Go `strings.TrimSpace`. -/
def TrimSpace (s : String) : String := TrimFunc unicodeIsSpace s

/-- Go `strings.Trim(s, cutset)`. -/
def Trim (s : String) (cutset : String) : String := TrimFunc (fun c => cutset.data.contains c) s

/-- The characters of `strings.Join`: the parts with `sep` between neighbours. -/
def joinChars (sep : List Char) : List (List Char) → List Char
  | [] => []
  | [p] => p
  | p :: q :: rest => p ++ sep ++ joinChars sep (q :: rest)

/-- Go `strings.Join(parts, sep)`. -/
def Join (parts : List String) (sep : String) : String :=
  ⟨joinChars sep.data (parts.map String.data)⟩

/-- The cutset of line 344: apostrophe, space, double quote, newline, carriage return, tab. -/
def contentCutset : String := "\x27 \"\n\r\t"

/-! ## Data model (langchaingo `llms`, `streaming`; local types) -/

/-- Go `llms.FunctionCall`. -/
structure FunctionCall where
  Name : String
  Arguments : String
  deriving DecidableEq, Repr

/-- Go `llms.ToolCall`; `FunctionCall` is a pointer and may be nil. The field `Type` of the
source is `CallType` here. -/
structure ToolCall where
  ID : String
  CallType : String
  FunctionCall : Option FunctionCall
  deriving DecidableEq, Repr

/-- Go `llms.ToolCallResponse`. -/
structure ToolCallResponse where
  ToolCallID : String
  Name : String
  Content : String
  deriving DecidableEq, Repr

/-- Go `llms.ContentPart`: the kinds of part this code creates. -/
inductive ContentPart where
  | TextContent (Text : String) : ContentPart
  | ToolCall (call : ToolCall) : ContentPart
  | ToolCallResponse (response : ToolCallResponse) : ContentPart
  deriving DecidableEq, Repr

/-- Go `llms.ChatMessageType`. -/
inductive ChatMessageType where
  | ChatMessageTypeSystem
  | ChatMessageTypeHuman
  | ChatMessageTypeAI
  | ChatMessageTypeTool
  deriving DecidableEq, Repr

/-- Go `llms.MessageContent`. -/
structure MessageContent where
  Role : ChatMessageType
  Parts : List ContentPart
  deriving DecidableEq, Repr

/-- A conversation: `[]llms.MessageContent`. -/
abbrev Chain := List MessageContent

/-- Go `llms.TextParts(role, text)` with one text. -/
def TextParts (role : ChatMessageType) (text : String) : MessageContent :=
  { Role := role, Parts := [ContentPart.TextContent text] }

/-- Go `map[string]any` as used for generation info; the values are kept as text. -/
abbrev GenerationInfo := List (String × String)

/-- Go `llms.ContentChoice`: the fields read by `fillResult`. A nil map is `none`. -/
structure ContentChoice where
  Content : String
  StopReason : String
  GenerationInfo : Option GenerationInfo
  ToolCalls : List ToolCall
  ReasoningContent : String
  deriving DecidableEq, Repr

/-- Go `llms.ContentResponse`. -/
structure ContentResponse where
  Choices : List ContentChoice
  deriving DecidableEq, Repr

/-- The struct `callResult` (lines 35-41). -/
structure callResult where
  streamID : Int
  funcCalls : List ToolCall
  info : Option GenerationInfo
  thinking : String
  content : String
  deriving DecidableEq, Repr

/-- The zero value of `callResult` (`var result callResult`). -/
def callResult.zero : callResult :=
  { streamID := 0, funcCalls := [], info := none, thinking := "", content := "" }

/-! ## fillResult (lines 310-349) -/

/-- Local variables of `fillResult` together with the captured `result`. -/
structure fillState where
  stopReason : String
  parts : List String
  result : callResult
  deriving DecidableEq, Repr

/-- Lines 331-336: append the tool calls of a choice that carry a function call. -/
def appendToolCalls (acc : List ToolCall) (calls : List ToolCall) : List ToolCall :=
  calls.foldl (fun a toolCall => if toolCall.FunctionCall.isNone then a else a ++ [toolCall]) acc

/-- Body of the loop over the choices (lines 319-340). -/
def fillChoice (s : fillState) (choice : ContentChoice) : fillState :=
  let stopReason := if s.stopReason = "" then choice.StopReason else s.stopReason
  let parts := if TrimSpace choice.Content ≠ "" then s.parts ++ [choice.Content] else s.parts
  let info := if choice.GenerationInfo.isSome then choice.GenerationInfo else s.result.info
  let funcCalls := appendToolCalls s.result.funcCalls choice.ToolCalls
  let thinking := if choice.ReasoningContent ≠ "" then choice.ReasoningContent else s.result.thinking
  { stopReason := stopReason
    parts := parts
    result := { s.result with info := info, funcCalls := funcCalls, thinking := thinking } }

/-- The closure `fillResult` applied to the captured `result`: the error it returns and the
value of `result` afterwards. -/
def fillResult (result : callResult) (resp : Option ContentResponse) :
    Option GoError × callResult :=
  match resp with
  | none => (some (GoError.New "no choices in response"), result)
  | some r =>
    if r.Choices.length = 0 then
      (some (GoError.New "no choices in response"), result)
    else
      let s : fillState :=
        r.Choices.foldl fillChoice { stopReason := "", parts := [], result := result }
      let result1 : callResult := { s.result with content := Join s.parts "\n" }
      if Trim result1.content contentCutset = "" ∧ result1.funcCalls.length = 0 then
        (some (GoError.New
          ("no content and tool calls in response: stop reason \x27" ++ s.stopReason ++ "\x27")),
          result1)
      else
        (none, result1)

/-! ## Collaborators -/

/-- Go `pconfig.ProviderOptionsType`: the agent kinds this code tells apart, and the rest. -/
inductive ProviderOptionsType where
  | OptionsTypeAssistant
  | OptionsTypeReflector
  | Other (name : String)
  deriving DecidableEq, Repr

/-- Go `streaming.ChunkType`. -/
inductive ChunkType where
  | ChunkTypeReasoning
  | ChunkTypeText
  | ChunkTypeToolCall
  | ChunkTypeDone
  | ChunkTypeNone
  deriving DecidableEq, Repr

/-- Go `streaming.Chunk`: the fields read by the stream callback (`Kind` is the field `Type`). -/
structure Chunk where
  Kind : ChunkType
  Content : String
  ReasoningContent : String
  deriving DecidableEq, Repr

/-- The kinds of `StreamMessageChunk` this code sends. -/
inductive StreamMessageChunkType where
  | StreamMessageChunkTypeThinking
  | StreamMessageChunkTypeContent
  | StreamMessageChunkTypeFlush
  | StreamMessageChunkTypeUpdate
  deriving DecidableEq, Repr

/-- Go `database.MsglogType`: the one value this code uses. -/
inductive MsglogType where
  | MsglogTypeAnswer
  deriving DecidableEq, Repr

/-- The struct `StreamMessageChunk` (`Kind` is the field `Type`). -/
structure StreamMessageChunk where
  Kind : StreamMessageChunkType
  MsgType : MsglogType
  Content : String
  Thinking : String
  StreamID : Int
  deriving DecidableEq, Repr

/-- Go `templates.PromptType`: the two templates rendered by the reflector. -/
inductive PromptType where
  | PromptTypeQuestionReflector
  | PromptTypeReflector
  deriving DecidableEq, Repr

/-- The two variable maps built at lines 477-491. -/
inductive TemplateVars where
  | user (Message : String) (BarrierToolNames : List String) : TemplateVars
  | system (BarrierTools : List String) (CurrentTime : String) (ExecutionContext : String)
      (Request : Option String) : TemplateVars
  deriving DecidableEq, Repr

/-- One section of `cast.ChainAST`: `section.Header.HumanMessage`, a pointer. -/
structure ChainSection where
  HumanMessage : Option MessageContent
  deriving DecidableEq, Repr

/-- A value returned together with an error, as Go functions do: `ok v` is `(v, nil)` and
`err e` is a non-nil error `e` (the value returned beside it is not used by this code). -/
inductive Res (α : Type) where
  | ok (v : α) : Res α
  | err (e : GoError) : Res α
  deriving DecidableEq, Repr

/-- A call to a collaborator and the answer it got. -/
inductive Event where
  | GetExecutionContext (taskID subtaskID : Option Int) (res : Res String) : Event
  | CallCounterAdd (res : Int) : Event
  | CallWithTools (agent : ProviderOptionsType) (chain : Chain) (streaming : Bool)
      (chunks : List Chunk) (res : Res (Option ContentResponse)) : Event
  | StreamCb (chunk : StreamMessageChunk) (res : Option GoError) : Event
  | RetryWait (res : Option GoError) : Event
  | UpdateMsgChainUsage (chainID : Int) (usageIn usageOut : Int) (res : Option GoError) : Event
  | UpdateMsgChain (chainID : Int) (blob : String) (res : Option GoError) : Event
  | Detect (toolCall : ToolCall) (res : Bool) : Event
  | Execute (streamID : Int) (toolCallID funcName thinking funcArgs : String)
      (res : Res String) : Event
  | GetToolSchema (funcName : String) (res : Res String) : Event
  | FixToolCallArgs (funcName funcArgs funcSchema : String) (funcExecErr : GoError)
      (res : Res String) : Event
  | SummarizeChain (chain : Chain) (resChain : Chain) (resErr : Option GoError) : Event
  | GetCurrentTime (res : String) : Event
  | RenderTemplate (promptType : PromptType) (vars : TemplateVars) (res : Res String) : Event
  | PerformSimpleChain (taskID subtaskID : Option Int) (systemTmpl userTmpl : String)
      (res : Res String) : Event
  deriving DecidableEq, Repr

/-- The history of collaborator calls, oldest first. -/
abbrev Log := List Event

/-- The collaborators of the performer. Every field that takes a `Log` is a call whose answer
may depend on everything that happened before; the other fields are pure lookups.

* `streamCb`: the field `fp.streamCb` (nil when no stream sink is installed);
* `callCounterAdd`: `fp.callCounter.Add(1)`;
* `CallWithTools`: the LLM client; it answers with the chunks it hands to the stream callback
  (used only when a callback is passed) and with the response or the error;
* `retryWait`: the `select` of lines 400-404; `none` when the ticker fires, `some e` when the
  context is done first, `e` being `ctx.Err()`;
* `GetUsage`, `dbUpdateMsgChainUsage`, `jsonMarshal`, `dbUpdateMsgChain`: the calls made by
  `updateMsgChainUsage` and `updateMsgChain`;
* `detect`: `repeatingDetector.detect`; the detector is created empty by `performAgentChain`
  and its answer may depend on the tool calls it has been shown so far (oldest first);
* `Execute`, `GetToolSchema`, `IsBarrierFunction`, `GetBarrierToolNames`, `GetBarrierTools`:
  the tools executor;
* `fixToolCallArgs`: the argument repair;
* `summarizer`: `SummarizeChain` of the summarizer (nil when there is none);
* `getExecutionContext`, `getCurrentTime`, `RenderTemplate`, `performSimpleChain`,
  `NewChainAST`, `ToolPlaceholder`, `wrapErrorEndSpan`: what the reflector uses. -/
structure Env where
  streamCb : Option (Log → StreamMessageChunk → Option GoError)
  callCounterAdd : Log → Int
  CallWithTools : Log → ProviderOptionsType → Chain → Bool →
    List Chunk × Res (Option ContentResponse)
  retryWait : Log → Option GoError
  GetUsage : GenerationInfo → Int × Int
  dbUpdateMsgChainUsage : Log → Int → Int → Int → Option GoError
  jsonMarshal : Chain → Res String
  dbUpdateMsgChain : Log → Int → String → Option GoError
  detect : List ToolCall → ToolCall → Bool
  Execute : Log → Int → String → String → String → String → Res String
  GetToolSchema : Log → String → Res String
  IsBarrierFunction : String → Bool
  GetBarrierToolNames : List String
  GetBarrierTools : List String
  fixToolCallArgs : Log → String → String → String → GoError → Res String
  summarizer : Option (Log → Chain → Chain × Option GoError)
  getExecutionContext : Log → Option Int → Option Int → Res String
  getCurrentTime : Log → String
  RenderTemplate : Log → PromptType → TemplateVars → Res String
  performSimpleChain : Log → Option Int → Option Int → String → String → Res String
  NewChainAST : Chain → Bool → Res (List ChainSection)
  ToolPlaceholder : String
  wrapErrorEndSpan : String → GoError → GoError

/-! ## callWithRetries (lines 293-424) -/

/-- The stream callback of lines 360-386 applied to one chunk: the message it passes to
`fp.streamCb`, or `none` when the chunk is skipped. -/
def streamChunk (streamID : Int) (chunk : Chunk) : Option StreamMessageChunk :=
  match chunk.Kind with
  | ChunkType.ChunkTypeReasoning =>
    some { Kind := StreamMessageChunkType.StreamMessageChunkTypeThinking
           MsgType := MsglogType.MsglogTypeAnswer
           Content := ""
           Thinking := chunk.ReasoningContent
           StreamID := streamID }
  | ChunkType.ChunkTypeText =>
    some { Kind := StreamMessageChunkType.StreamMessageChunkTypeContent
           MsgType := MsglogType.MsglogTypeAnswer
           Content := chunk.Content
           Thinking := ""
           StreamID := streamID }
  | ChunkType.ChunkTypeToolCall => none
  | ChunkType.ChunkTypeDone =>
    some { Kind := StreamMessageChunkType.StreamMessageChunkTypeFlush
           MsgType := MsglogType.MsglogTypeAnswer
           Content := ""
           Thinking := ""
           StreamID := streamID }
  | ChunkType.ChunkTypeNone => none

/-- The chunks of one LLM call run through the stream callback, in order. -/
def deliverChunks (cb : Log → StreamMessageChunk → Option GoError) (streamID : Int) :
    List Chunk → Log → Log
  | [], log => log
  | chunk :: rest, log =>
    match streamChunk streamID chunk with
    | none => deliverChunks cb streamID rest log
    | some m => deliverChunks cb streamID rest (log ++ [Event.StreamCb m (cb log m)])

/-- Lines 357-389: assign a stream id when a sink is installed, call the LLM client and
stream its chunks. Gives the response or error of the client, `result` and the log. -/
def callLLM (env : Env) (chain : Chain) (optAgentType : ProviderOptionsType)
    (result : callResult) (log : Log) : Res (Option ContentResponse) × callResult × Log :=
  match env.streamCb with
  | none =>
    let out := env.CallWithTools log optAgentType chain false
    (out.2, result, log ++ [Event.CallWithTools optAgentType chain false out.1 out.2])
  | some cb =>
    let id := env.callCounterAdd log
    let result1 : callResult := { result with streamID := id }
    let log1 := log ++ [Event.CallCounterAdd id]
    let out := env.CallWithTools log1 optAgentType chain true
    let log2 := log1 ++ [Event.CallWithTools optAgentType chain true out.1 out.2]
    (out.2, result1, deliverChunks cb id out.1 log2)

/-- Lines 389-392: the error of one attempt and `result` after it; `fillResult` runs only when
the LLM client returned no error. -/
def attemptFill (res : Res (Option ContentResponse)) (result : callResult) :
    Option GoError × callResult :=
  match res with
  | Res.err e => (some e, result)
  | Res.ok resp => fillResult result resp

/-- The retry loop of lines 351-405. `remaining` is `maxRetriesToCallAgentChain - idx`; the
result `Res.ok result` stands for the `break` of line 394 with the value of `result`, and
`Res.err e` for a `return nil, e`. -/
def callAttempts (env : Env) (chain : Chain) (optAgentType : ProviderOptionsType) :
    (remaining : Nat) → List GoError → callResult → Log → Res callResult × Log
  | 0, errs, _, log =>
    (Res.err (GoError.Wrap
      ("failed to call agent chain: max retries reached, " ++
        Nat.repr maxRetriesToCallAgentChain ++ ": ")
      (GoError.Join errs)), log)
  | remaining + 1, errs, result, log =>
    let called := callLLM env chain optAgentType result log
    let filled := attemptFill called.1 called.2.1
    match filled.1 with
    | none => (Res.ok filled.2, called.2.2)
    | some e =>
      match env.retryWait called.2.2 with
      | none =>
        callAttempts env chain optAgentType remaining (errs ++ [e]) filled.2
          (called.2.2 ++ [Event.RetryWait none])
      | some ce =>
        (Res.err (GoError.Wrap "context canceled while waiting for retry: " ce),
          called.2.2 ++ [Event.RetryWait (some ce)])

/-- Lines 407-421: the final update chunk and the clearing of stream id and reasoning. -/
def finishCall (env : Env) (result : callResult) (log : Log) : callResult × Log :=
  match env.streamCb with
  | none => (result, log)
  | some cb =>
    if result.streamID ≠ 0 then
      let chunk : StreamMessageChunk :=
        { Kind := StreamMessageChunkType.StreamMessageChunkTypeUpdate
          MsgType := MsglogType.MsglogTypeAnswer
          Content := result.content
          Thinking := result.thinking
          StreamID := result.streamID }
      let log1 := log ++ [Event.StreamCb chunk (cb log chunk)]
      if result.funcCalls.length > 0 ∧ result.content ≠ "" then
        ({ result with streamID := 0, thinking := "" }, log1)
      else
        (result, log1)
    else
      (result, log)

/-- The function `callWithRetries`: `Res.ok r` is the return `&result, nil` and `Res.err e`
is `nil, e`. -/
def callWithRetries (env : Env) (chain : Chain) (optAgentType : ProviderOptionsType)
    (log : Log) : Res callResult × Log :=
  match callAttempts env chain optAgentType maxRetriesToCallAgentChain [] callResult.zero log with
  | (Res.err e, log1) => (Res.err e, log1)
  | (Res.ok result, log1) =>
    match finishCall env result log1 with
    | (result1, log2) => (Res.ok result1, log2)

/-! ## execToolCall (lines 189-291) -/

/-- Lines 250-254: the error built when the retries are used up; `err` is the variable `err`
of line 245, which holds the error of the last `Execute` (the `err` of lines 269-279 is a new
variable of the inner block). -/
def retriesError (funcName : String) (err : Option GoError) : GoError :=
  let err1 : GoError :=
    match err with
    | some e => GoError.Wrap "reached max retries to call function: " e
    | none => GoError.New "reached max retries to call function: %!w(<nil>)"
  GoError.Wrap ("failed to exec function \x27" ++ funcName ++ "\x27: ") err1

/-- The retry loop of lines 249-283. `remaining` is `maxRetriesToCallFunction - idx`, `err` is
the variable `err` of line 245 and `funcArgs` the current argument blob. Gives the pair
returned by `execToolCall` and the log. -/
def execAttempts (env : Env) (streamID : Int) (toolCallID funcName thinking : String) :
    (remaining : Nat) → (err : Option GoError) → (funcArgs : String) → Log →
      (String × Option GoError) × Log
  | 0, err, _, log => (("", some (retriesError funcName err)), log)
  | remaining + 1, _, funcArgs, log =>
    let res := env.Execute log streamID toolCallID funcName thinking funcArgs
    let log1 := log ++ [Event.Execute streamID toolCallID funcName thinking funcArgs res]
    match res with
    | Res.ok response => ((response, none), log1)
    | Res.err execErr =>
      if execErr.IsCanceled then
        (("", some execErr), log1)
      else
        let schema := env.GetToolSchema log1 funcName
        let log2 := log1 ++ [Event.GetToolSchema funcName schema]
        match schema with
        | Res.err e => (("", some (GoError.Wrap "failed to get tool schema: " e)), log2)
        | Res.ok funcSchema =>
          let fixed := env.fixToolCallArgs log2 funcName funcArgs funcSchema execErr
          let log3 := log2 ++ [Event.FixToolCallArgs funcName funcArgs funcSchema execErr fixed]
          match fixed with
          | Res.err e => (("", some (GoError.Wrap "failed to fix tool call args: " e)), log3)
          | Res.ok funcArgs1 =>
            execAttempts env streamID toolCallID funcName thinking remaining (some execErr)
              funcArgs1 log3

/-- The function `execToolCall`. `seen` is the state of the detector: the tool calls it has
been shown so far. The result is `none` when the index is out of range or the tool call has
no function call (a runtime fault in Go); otherwise the returned pair, the detector state and
the log. -/
def execToolCall (env : Env) (chainID : Int) (toolCallIDx : Nat) (result : callResult)
    (seen : List ToolCall) (log : Log) :
    Option ((String × Option GoError) × List ToolCall × Log) :=
  let streamID : Int := if toolCallIDx = 0 then result.streamID else 0
  let thinking : String := if toolCallIDx = 0 then result.thinking else ""
  match result.funcCalls.get? toolCallIDx with
  | none => none
  | some toolCall =>
    match toolCall.FunctionCall with
    | none => none
    | some fc =>
      let funcName := fc.Name
      let funcArgs := fc.Arguments
      let repeating := env.detect seen toolCall
      let seen1 := seen ++ [toolCall]
      let log1 := log ++ [Event.Detect toolCall repeating]
      if repeating then
        some ((("tool call \x27" ++ funcName ++ "\x27 is repeating, please try another tool"),
          none), seen1, log1)
      else
        match execAttempts env streamID toolCall.ID funcName thinking maxRetriesToCallFunction
            none funcArgs log1 with
        | (out, log2) => some (out, seen1, log2)

/-! ## Chain store (lines 615-648) -/

/-- The function `updateMsgChain`: the error it returns and the log. -/
def updateMsgChain (env : Env) (chainID : Int) (chain : Chain) (log : Log) :
    Option GoError × Log :=
  match env.jsonMarshal chain with
  | Res.err e => (some (GoError.Wrap "failed to marshal msg chain: " e), log)
  | Res.ok chainBlob =>
    let res := env.dbUpdateMsgChain log chainID chainBlob
    let log1 := log ++ [Event.UpdateMsgChain chainID chainBlob res]
    match res with
    | some e => (some (GoError.Wrap "failed to update msg chain in DB: " e), log1)
    | none => (none, log1)

/-- The function `updateMsgChainUsage`: the error it returns and the log. -/
def updateMsgChainUsage (env : Env) (chainID : Int) (info : Option GenerationInfo) (log : Log) :
    Option GoError × Log :=
  let usage : Int × Int :=
    match info with
    | none => (0, 0)
    | some i => env.GetUsage i
  let res := env.dbUpdateMsgChainUsage log chainID usage.1 usage.2
  let log1 := log ++ [Event.UpdateMsgChainUsage chainID usage.1 usage.2 res]
  match res with
  | some e => (some (GoError.Wrap "failed to update msg chain usage in DB: " e), log1)
  | none => (none, log1)

/-! ## performReflector (lines 426-548) and getLastHumanMessage (lines 550-570) -/

/-- Lines 559-565: the texts of the text parts of a message. -/
def textsOf (parts : List ContentPart) : List String :=
  parts.filterMap (fun part =>
    match part with
    | ContentPart.TextContent text => some text
    | _ => none)

/-- Lines 557-569: the first section, in the order given, that has a human message. -/
def firstHumanMessage : List ChainSection → String
  | [] => ""
  | sec :: rest =>
    match sec.HumanMessage with
    | some m => Join (textsOf m.Parts) "\n"
    | none => firstHumanMessage rest

/-- The function `getLastHumanMessage`. -/
def getLastHumanMessage (env : Env) (chain : Chain) : String :=
  match env.NewChainAST chain true with
  | Res.err _ => ""
  | Res.ok sections => firstHumanMessage sections.reverse

/-- The function `performReflector` with a bound `fuel` on the depth of its recursion; the
result is `none` when the bound is too small. -/
def performReflectorFuel (env : Env) (optOriginType : ProviderOptionsType) (chainID : Int)
    (taskID subtaskID : Option Int) (humanMessage executionContext : String) :
    (fuel : Nat) → (chain : Chain) → (content : String) → (iteration : Nat) → Log →
      Option (Res callResult × Log)
  | fuel, chain, content, iteration, log =>
    if iteration > maxReflectorCallsPerChain then
      some (Res.err (GoError.New "reflector called too many times"), log)
    else
      let time := env.getCurrentTime log
      let log1 := log ++ [Event.GetCurrentTime time]
      let userVars := TemplateVars.user content env.GetBarrierToolNames
      let systemVars := TemplateVars.system env.GetBarrierTools time executionContext
        (if humanMessage ≠ "" then some humanMessage else none)
      let userRes := env.RenderTemplate log1 PromptType.PromptTypeQuestionReflector userVars
      let log2 := log1 ++
        [Event.RenderTemplate PromptType.PromptTypeQuestionReflector userVars userRes]
      match userRes with
      | Res.err e =>
        some (Res.err (env.wrapErrorEndSpan "failed to get user reflector template" e), log2)
      | Res.ok userReflectorTmpl =>
        let systemRes := env.RenderTemplate log2 PromptType.PromptTypeReflector systemVars
        let log3 := log2 ++ [Event.RenderTemplate PromptType.PromptTypeReflector systemVars systemRes]
        match systemRes with
        | Res.err e =>
          some (Res.err (env.wrapErrorEndSpan "failed to get system reflector template" e), log3)
        | Res.ok systemReflectorTmpl =>
          let adviceRes :=
            env.performSimpleChain log3 taskID subtaskID systemReflectorTmpl userReflectorTmpl
          let log4 := log3 ++
            [Event.PerformSimpleChain taskID subtaskID systemReflectorTmpl userReflectorTmpl
              adviceRes]
          let advice : String :=
            match adviceRes with
            | Res.ok a => a
            | Res.err _ => env.ToolPlaceholder
          let chain1 := chain ++ [TextParts ChatMessageType.ChatMessageTypeHuman advice]
          match callWithRetries env chain1 optOriginType log4 with
          | (Res.err e, log5) => some (Res.err e, log5)
          | (Res.ok result, log5) =>
            match updateMsgChainUsage env chainID result.info log5 with
            | (some e, log6) => some (Res.err e, log6)
            | (none, log6) =>
              let chain2 := chain1 ++ [TextParts ChatMessageType.ChatMessageTypeAI result.content]
              if result.funcCalls.length = 0 then
                match fuel with
                | 0 => none
                | fuel1 + 1 =>
                  performReflectorFuel env optOriginType chainID taskID subtaskID humanMessage
                    executionContext fuel1 chain2 result.content (iteration + 1) log6
              else
                some (Res.ok result, log6)

/-- The function `performReflector`: the recursion is at most
`maxReflectorCallsPerChain + 1 - iteration` deep. -/
def performReflector (env : Env) (optOriginType : ProviderOptionsType) (chainID : Int)
    (taskID subtaskID : Option Int) (chain : Chain)
    (humanMessage content executionContext : String) (iteration : Nat) (log : Log) :
    Option (Res callResult × Log) :=
  performReflectorFuel env optOriginType chainID taskID subtaskID humanMessage executionContext
    (maxReflectorCallsPerChain + 1 - iteration) chain content iteration log

/-! ## processAssistantResult (lines 572-613) -/

/-- The function `processAssistantResult`: the error it returns, the value of its local
`chain` when it returns, and the log. -/
def processAssistantResult (env : Env) (chainID : Int) (chain : Chain) (result : callResult)
    (log : Log) : Option GoError × Chain × Log :=
  let streamed : Option GoError × Log :=
    match env.streamCb with
    | none => (none, log)
    | some cb =>
      let assigned : Int × Log :=
        if result.streamID = 0 then
          let id := env.callCounterAdd log
          (id, log ++ [Event.CallCounterAdd id])
        else
          (result.streamID, log)
      let chunk : StreamMessageChunk :=
        { Kind := StreamMessageChunkType.StreamMessageChunkTypeUpdate
          MsgType := MsglogType.MsglogTypeAnswer
          Content := result.content
          Thinking := result.thinking
          StreamID := assigned.1 }
      let res := cb assigned.2 chunk
      (res, assigned.2 ++ [Event.StreamCb chunk res])
  match streamed with
  | (some e, log1) => (some (GoError.Wrap "failed to stream assistant result: " e), chain, log1)
  | (none, log1) =>
    let summarized : Chain × Log :=
      match env.summarizer with
      | none => (chain, log1)
      | some summarize =>
        let out := summarize log1 chain
        (out.1, log1 ++ [Event.SummarizeChain chain out.1 out.2])
    let chain1 := summarized.1 ++ [TextParts ChatMessageType.ChatMessageTypeAI result.content]
    match updateMsgChain env chainID chain1 summarized.2 with
    | (some e, log2) => (some (GoError.Wrap "failed to update msg chain: " e), chain1, log2)
    | (none, log2) => (none, chain1, log2)

/-! ## performAgentChain (lines 43-187) -/

/-- The state of the loop over the tool calls (lines 132-170): the chain, the detector, the
flag `wantToStop` and the log. -/
structure toolState where
  chain : Chain
  seen : List ToolCall
  wantToStop : Bool
  log : Log
  deriving DecidableEq, Repr

/-- The tool message appended at lines 152-161. -/
def toolMessage (toolCall : ToolCall) (funcName response : String) : MessageContent :=
  { Role := ChatMessageType.ChatMessageTypeTool
    Parts := [ContentPart.ToolCallResponse
      { ToolCallID := toolCall.ID, Name := funcName, Content := response }] }

/-- The loop of lines 132-170 over the tool calls from index `idx` on. Gives the error that
makes `performAgentChain` return, if any, and the state reached; `none` is a runtime fault. -/
def toolLoop (env : Env) (chainID : Int) (result : callResult) :
    (idx : Nat) → List ToolCall → toolState → Option (Option GoError × toolState)
  | _, [], st => some (none, st)
  | idx, toolCall :: rest, st =>
    match toolCall.FunctionCall with
    | none => toolLoop env chainID result (idx + 1) rest st
    | some fc =>
      let funcName := fc.Name
      match execToolCall env chainID idx result st.seen st.log with
      | none => none
      | some ((_, some e), seen1, log1) => some (some e, { st with seen := seen1, log := log1 })
      | some ((response, none), seen1, log1) =>
        let chain1 := st.chain ++ [toolMessage toolCall funcName response]
        match updateMsgChain env chainID chain1 log1 with
        | (some e, log2) =>
          some (some e, { st with chain := chain1, seen := seen1, log := log2 })
        | (none, log2) =>
          toolLoop env chainID result (idx + 1) rest
            { chain := chain1
              seen := seen1
              wantToStop := if env.IsBarrierFunction funcName then true else st.wantToStop
              log := log2 }

/-- The ai message built at lines 121-124. -/
def toolCallsMessage (funcCalls : List ToolCall) : MessageContent :=
  { Role := ChatMessageType.ChatMessageTypeAI
    Parts := funcCalls.map ContentPart.ToolCall }

/-- What one pass through the body of the loop of line 85 does: it makes `performAgentChain`
return an error or nil, with the chain in memory as it then is, or it goes on to the next pass
with a chain and a detector state. -/
inductive iterOutcome where
  | ret (err : Option GoError) (chain : Chain) : iterOutcome
  | next (chain : Chain) (seen : List ToolCall) : iterOutcome
  deriving DecidableEq, Repr

/-- Lines 119-170: the ai message with the tool calls is appended and written, then the tool
calls are run. Gives the error that makes `performAgentChain` return, if any, and the state
reached; `none` is a runtime fault. -/
def toolPhase (env : Env) (chainID : Int) (chain : Chain) (result : callResult)
    (seen : List ToolCall) (wantToStop : Bool) (log : Log) :
    Option (Option GoError × toolState) :=
  let chain1 := chain ++ [toolCallsMessage result.funcCalls]
  match updateMsgChain env chainID chain1 log with
  | (some e, log1) =>
    some (some e, { chain := chain1, seen := seen, wantToStop := wantToStop, log := log1 })
  | (none, log1) =>
    toolLoop env chainID result 0 result.funcCalls
      { chain := chain1, seen := seen, wantToStop := wantToStop, log := log1 }

/-- Lines 172-185: return when a barrier tool was seen, otherwise summarize. -/
def afterTools (env : Env) (chainID : Int) (st : toolState) : iterOutcome × Log :=
  if st.wantToStop then
    (iterOutcome.ret none st.chain, st.log)
  else
    match env.summarizer with
    | none => (iterOutcome.next st.chain st.seen, st.log)
    | some summarize =>
      let out := summarize st.log st.chain
      let log2 := st.log ++ [Event.SummarizeChain st.chain out.1 out.2]
      match out.2 with
      | some _ => (iterOutcome.next out.1 st.seen, log2)
      | none =>
        match updateMsgChain env chainID out.1 log2 with
        | (some e, log3) => (iterOutcome.ret (some e) out.1, log3)
        | (none, log3) => (iterOutcome.next out.1 st.seen, log3)

/-- Lines 119-185: what follows once `result` carries the tool calls to run. -/
def runTools (env : Env) (chainID : Int) (chain : Chain) (result : callResult)
    (seen : List ToolCall) (wantToStop : Bool) (log : Log) : Option (iterOutcome × Log) :=
  match toolPhase env chainID chain result seen wantToStop log with
  | none => none
  | some (some e, st) => some (iterOutcome.ret (some e) st.chain, st.log)
  | some (none, st) => some (afterTools env chainID st)

/-- Lines 86-117: the LLM call, the usage update and, without tool calls, either the final
step of the assistant (`Sum.inl`, what `performAgentChain` then returns) or the reflector;
`Sum.inr` is the `result` with which line 119 is reached. The chain given with a return is
the chain in memory at that point: the variable `chain` of `performAgentChain`, and at the
return of line 100 the `chain` of `processAssistantResult`, which holds the final ai message
(the variable of `performAgentChain` is not assigned there). -/
def callPhase (env : Env) (optAgentType : ProviderOptionsType) (chainID : Int)
    (taskID subtaskID : Option Int) (executionContext : String) (chain : Chain) (log : Log) :
    Option (((Option GoError × Chain) ⊕ callResult) × Log) :=
  match callWithRetries env chain optAgentType log with
  | (Res.err e, log1) => some (Sum.inl (some e, chain), log1)
  | (Res.ok result, log1) =>
    match updateMsgChainUsage env chainID result.info log1 with
    | (some e, log2) => some (Sum.inl (some e, chain), log2)
    | (none, log2) =>
      if result.funcCalls.length = 0 then
        if optAgentType = ProviderOptionsType.OptionsTypeAssistant then
          match processAssistantResult env chainID chain result log2 with
          | (err, chain1, log3) => some (Sum.inl (err, chain1), log3)
        else
          match performReflector env optAgentType chainID taskID subtaskID
              (chain ++ [TextParts ChatMessageType.ChatMessageTypeAI result.content])
              (getLastHumanMessage env chain) result.content executionContext 1 log2 with
          | none => none
          | some (Res.err e, log3) => some (Sum.inl (some e, chain), log3)
          | some (Res.ok result1, log3) => some (Sum.inr result1, log3)
      else
        some (Sum.inr result, log2)

/-- One pass through the body of the loop of line 85. The flag `wantToStop` is false whenever
a pass starts, because line 173 returns as soon as it is true. -/
def iteration (env : Env) (optAgentType : ProviderOptionsType) (chainID : Int)
    (taskID subtaskID : Option Int) (executionContext : String) (chain : Chain)
    (seen : List ToolCall) (log : Log) : Option (iterOutcome × Log) :=
  match callPhase env optAgentType chainID taskID subtaskID executionContext chain log with
  | none => none
  | some (Sum.inl (err, chain1), log1) => some (iterOutcome.ret err chain1, log1)
  | some (Sum.inr result, log1) => runTools env chainID chain result seen false log1

/-- The loop of line 85, run for at most `fuel` passes: what `performAgentChain` returns, the
chain in memory at that point (see `callPhase`) and the log; `none` when the loop has not
returned after `fuel` passes (or on a runtime fault). -/
def agentLoop (env : Env) (optAgentType : ProviderOptionsType) (chainID : Int)
    (taskID subtaskID : Option Int) (executionContext : String) :
    (fuel : Nat) → Chain → List ToolCall → Log → Option (Option GoError × Chain × Log)
  | 0, _, _, _ => none
  | fuel + 1, chain, seen, log =>
    match iteration env optAgentType chainID taskID subtaskID executionContext chain seen log with
    | none => none
    | some (iterOutcome.ret err chain1, log1) => some (err, chain1, log1)
    | some (iterOutcome.next chain1 seen1, log1) =>
      agentLoop env optAgentType chainID taskID subtaskID executionContext fuel chain1 seen1 log1

/-- The function `performAgentChain`, its loop bounded by `fuel` passes. -/
def performAgentChain (env : Env) (fuel : Nat) (optAgentType : ProviderOptionsType)
    (chainID : Int) (taskID subtaskID : Option Int) (chain : Chain) (log : Log) :
    Option (Option GoError × Chain × Log) :=
  let res := env.getExecutionContext log taskID subtaskID
  let log1 := log ++ [Event.GetExecutionContext taskID subtaskID res]
  match res with
  | Res.err e => some (some (GoError.Wrap "failed to get execution context: " e), chain, log1)
  | Res.ok executionContext =>
    agentLoop env optAgentType chainID taskID subtaskID executionContext fuel chain [] log1

/-! ## Reading the log -/

/-- The tool calls shown to the detector, in order: one per run of `execToolCall`. -/
def detectedCalls (log : Log) : List ToolCall :=
  log.filterMap (fun e =>
    match e with
    | Event.Detect toolCall _ => some toolCall
    | _ => none)

/-- The answers of the LLM client, in order. -/
def llmResults (log : Log) : List (Res (Option ContentResponse)) :=
  log.filterMap (fun e =>
    match e with
    | Event.CallWithTools _ _ _ _ res => some res
    | _ => none)

/-- The answers of the retry timer, in order. -/
def retryWaits (log : Log) : List (Option GoError) :=
  log.filterMap (fun e =>
    match e with
    | Event.RetryWait res => some res
    | _ => none)

/-- The answers of `executor.Execute`, in order. -/
def executeResults (log : Log) : List (Res String) :=
  log.filterMap (fun e =>
    match e with
    | Event.Execute _ _ _ _ _ res => some res
    | _ => none)

/-- The answers of `executor.GetToolSchema`, in order. -/
def schemaResults (log : Log) : List (Res String) :=
  log.filterMap (fun e =>
    match e with
    | Event.GetToolSchema _ res => some res
    | _ => none)

/-- The answers of `fixToolCallArgs`, in order. -/
def fixResults (log : Log) : List (Res String) :=
  log.filterMap (fun e =>
    match e with
    | Event.FixToolCallArgs _ _ _ _ res => some res
    | _ => none)

/-- The writes of the chain to the repository, in order: chain id, blob and answer. -/
def chainWrites (log : Log) : List (Int × String × Option GoError) :=
  log.filterMap (fun e =>
    match e with
    | Event.UpdateMsgChain chainID blob res => some (chainID, blob, res)
    | _ => none)

/-- The ids handed out by the call counter, in order. -/
def assignedIDs (log : Log) : List Int :=
  log.filterMap (fun e =>
    match e with
    | Event.CallCounterAdd id => some id
    | _ => none)

/-- The messages passed to the stream sink, in order. -/
def streamed (log : Log) : List StreamMessageChunk :=
  log.filterMap (fun e =>
    match e with
    | Event.StreamCb chunk _ => some chunk
    | _ => none)

/-- The events a run of `execToolCall` or a chain write can add to the log. -/
def isToolEvent (e : Event) : Bool :=
  match e with
  | Event.Detect _ _ => true
  | Event.Execute _ _ _ _ _ _ => true
  | Event.GetToolSchema _ _ => true
  | Event.FixToolCallArgs _ _ _ _ _ => true
  | Event.UpdateMsgChain _ _ _ => true
  | _ => false

/-- The advisory text of line 232. -/
def repeatingAdvice (funcName : String) : String :=
  "tool call \x27" ++ funcName ++ "\x27 is repeating, please try another tool"

/-- The observations handed back by the runs of `execToolCall` recorded in a log, in order:
the advisory text for a tool call the detector flagged, and the answer of the executor for an
`Execute` that succeeded. -/
def observations (log : Log) : List String :=
  log.filterMap (fun e =>
    match e with
    | Event.Detect toolCall true =>
      some (match toolCall.FunctionCall with
        | some fc => repeatingAdvice fc.Name
        | none => "")
    | Event.Execute _ _ _ _ _ (Res.ok response) => some response
    | _ => none)

/-- The name of the function of a tool call (`toolCall.FunctionCall.Name`), empty when the tool
call has no function call. -/
def funcNameOf (toolCall : ToolCall) : String :=
  match toolCall.FunctionCall with
  | some fc => fc.Name
  | none => ""

/-! ## Notions used to state the properties -/

/-- The tool calls of the choices that carry a function call, in choice order. -/
def choiceCalls : List ContentChoice → List ToolCall
  | [] => []
  | choice :: rest =>
    choice.ToolCalls.filter (fun t => t.FunctionCall.isSome) ++ choiceCalls rest

/-- The generation info of the first choice, in choice order, whose generation info is not
nil. -/
def firstInfo (choices : List ContentChoice) : Option GenerationInfo :=
  (choices.find? (fun c => c.GenerationInfo.isSome)).bind (fun c => c.GenerationInfo)

/-- The error with which one attempt of `callWithRetries` ends, given the answer of the LLM
client: the error of the client, or what `fillResult` says about the response. `none` is a
successful attempt. -/
def attemptError (res : Res (Option ContentResponse)) : Option GoError :=
  match res with
  | Res.err e => some e
  | Res.ok resp => (fillResult callResult.zero resp).1

/-- The chains obtained from `chain` by appending the messages one at a time: the chain after
the first append, after the second, and so on. -/
def appendSteps : Chain → List MessageContent → List Chain
  | _, [] => []
  | chain, m :: rest => (chain ++ [m]) :: appendSteps (chain ++ [m]) rest

/-- The tool messages for the tool calls and their observations, pairwise. -/
def toolMessages (calls : List ToolCall) (obs : List String) : List MessageContent :=
  List.zipWith (fun c o => toolMessage c (funcNameOf c) o) calls obs

/-- The order of the executor and repair calls of one run of `execToolCall` for the function
`funcName`: `ArgsThreaded funcName args events` says that every `Execute` in `events` gets the
current arguments, `args` at first; that a failed `Execute` is followed, if at all, by the
schema lookup and then by the repair, which is given the current arguments, the schema found
and the error of that `Execute`; and that the arguments the repair returns are the current
ones from then on. -/
inductive ArgsThreaded (funcName : String) : String → List Event → Prop where
  | done (args : String) : ArgsThreaded funcName args []
  | last (args : String) (streamID : Int) (id thinking : String) (res : Res String) :
      ArgsThreaded funcName args [Event.Execute streamID id funcName thinking args res]
  | noSchema (args : String) (streamID : Int) (id thinking : String) (e se : GoError) :
      ArgsThreaded funcName args
        [Event.Execute streamID id funcName thinking args (Res.err e),
         Event.GetToolSchema funcName (Res.err se)]
  | noRepair (args : String) (streamID : Int) (id thinking schema : String)
      (e fe : GoError) :
      ArgsThreaded funcName args
        [Event.Execute streamID id funcName thinking args (Res.err e),
         Event.GetToolSchema funcName (Res.ok schema),
         Event.FixToolCallArgs funcName args schema e (Res.err fe)]
  | again (args : String) (streamID : Int) (id thinking schema repaired : String)
      (e : GoError) (rest : List Event) (h : ArgsThreaded funcName repaired rest) :
      ArgsThreaded funcName args
        (Event.Execute streamID id funcName thinking args (Res.err e) ::
         Event.GetToolSchema funcName (Res.ok schema) ::
         Event.FixToolCallArgs funcName args schema e (Res.ok repaired) :: rest)

/-- The runs of the retry loop of `execToolCall`, apart from the collaborators: with
`remaining` attempts left, `err` the error of the last `Execute` and `args` the current
arguments, the loop can add the events `events` to the log and return `out`. -/
inductive ExecRun (streamID : Int) (toolCallID funcName thinking : String) :
    Nat → Option GoError → String → List Event → String × Option GoError → Prop where
  | exhausted (err : Option GoError) (args : String) :
      ExecRun streamID toolCallID funcName thinking 0 err args []
        ("", some (retriesError funcName err))
  | success (n : Nat) (err : Option GoError) (args response : String) :
      ExecRun streamID toolCallID funcName thinking (n + 1) err args
        [Event.Execute streamID toolCallID funcName thinking args (Res.ok response)]
        (response, none)
  | canceled (n : Nat) (err : Option GoError) (args : String) (e : GoError)
      (hc : e.IsCanceled = true) :
      ExecRun streamID toolCallID funcName thinking (n + 1) err args
        [Event.Execute streamID toolCallID funcName thinking args (Res.err e)]
        ("", some e)
  | noSchema (n : Nat) (err : Option GoError) (args : String) (e se : GoError)
      (hc : e.IsCanceled = false) :
      ExecRun streamID toolCallID funcName thinking (n + 1) err args
        [Event.Execute streamID toolCallID funcName thinking args (Res.err e),
         Event.GetToolSchema funcName (Res.err se)]
        ("", some (GoError.Wrap "failed to get tool schema: " se))
  | noRepair (n : Nat) (err : Option GoError) (args schema : String) (e fe : GoError)
      (hc : e.IsCanceled = false) :
      ExecRun streamID toolCallID funcName thinking (n + 1) err args
        [Event.Execute streamID toolCallID funcName thinking args (Res.err e),
         Event.GetToolSchema funcName (Res.ok schema),
         Event.FixToolCallArgs funcName args schema e (Res.err fe)]
        ("", some (GoError.Wrap "failed to fix tool call args: " fe))
  | again (n : Nat) (err : Option GoError) (args schema repaired : String) (e : GoError)
      (rest : List Event) (out : String × Option GoError) (hc : e.IsCanceled = false)
      (h : ExecRun streamID toolCallID funcName thinking n (some e) repaired rest out) :
      ExecRun streamID toolCallID funcName thinking (n + 1) err args
        (Event.Execute streamID toolCallID funcName thinking args (Res.err e) ::
         Event.GetToolSchema funcName (Res.ok schema) ::
         Event.FixToolCallArgs funcName args schema e (Res.ok repaired) :: rest)
        out

/-- The variable `err` of line 245 after the events `events`, from its value `err` before: the
error returned by the last `Execute`, nil when that call succeeded. -/
def lastExecuteError (err : Option GoError) (events : List Event) : Option GoError :=
  match (executeResults events).getLast? with
  | some (Res.err e) => some e
  | some (Res.ok _) => none
  | none => err

/-- The chains handed to the summarizer, in order. -/
def summarizerCalls (log : Log) : List Chain :=
  log.filterMap (fun e =>
    match e with
    | Event.SummarizeChain chain _ _ => some chain
    | _ => none)

/-! ## Collaborators for the worked runs -/

/-- A rendering of a chain that stands for its JSON form in the worked runs: the roles of the
messages, each followed by the number of its parts. -/
def renderChain (chain : Chain) : String :=
  chain.foldl (fun acc m =>
    acc ++ (match m.Role with
      | ChatMessageType.ChatMessageTypeSystem => "s"
      | ChatMessageType.ChatMessageTypeHuman => "h"
      | ChatMessageType.ChatMessageTypeAI => "a"
      | ChatMessageType.ChatMessageTypeTool => "t") ++ Nat.repr m.Parts.length) ""

/-- Collaborators that never fail: no stream sink, no summarizer, an LLM that answers with no
choices, a detector that never flags, an executor that answers `done` and knows one barrier
tool, `finish`. The worked runs change the fields they are about. -/
def quietEnv : Env where
  streamCb := none
  callCounterAdd := fun log => (assignedIDs log).length + 1
  CallWithTools := fun _ _ _ _ => ([], Res.ok (some { Choices := [] }))
  retryWait := fun _ => none
  GetUsage := fun _ => (0, 0)
  dbUpdateMsgChainUsage := fun _ _ _ _ => none
  jsonMarshal := fun chain => Res.ok (renderChain chain)
  dbUpdateMsgChain := fun _ _ _ => none
  detect := fun _ _ => false
  Execute := fun _ _ _ _ _ _ => Res.ok "done"
  GetToolSchema := fun _ _ => Res.ok "schema"
  IsBarrierFunction := fun name => name == "finish"
  GetBarrierToolNames := ["finish"]
  GetBarrierTools := ["finish"]
  fixToolCallArgs := fun _ _ args _ _ => Res.ok args
  summarizer := none
  getExecutionContext := fun _ _ _ => Res.ok "context"
  getCurrentTime := fun _ => "now"
  RenderTemplate := fun _ _ _ => Res.ok "template"
  performSimpleChain := fun _ _ _ _ _ => Res.ok "advice"
  NewChainAST := fun _ _ => Res.ok []
  ToolPlaceholder := "placeholder"
  wrapErrorEndSpan := fun msg e => GoError.Wrap (msg ++ ": ") e

/-- A tool call with the given id, function name and arguments. -/
def mkCall (id name args : String) : ToolCall :=
  { ID := id, CallType := "function", FunctionCall := some { Name := name, Arguments := args } }

/-- A response with one choice that carries the given text and tool calls. -/
def mkResponse (content : String) (calls : List ToolCall) : Option ContentResponse :=
  some { Choices := [{ Content := content, StopReason := "stop", GenerationInfo := none,
                       ToolCalls := calls, ReasoningContent := "" }] }

/-- Scenario S2: the LLM answers with three tool calls, the second of which is the barrier. -/
def barrierEnv : Env :=
  { quietEnv with
    CallWithTools := fun _ _ _ _ =>
      ([], Res.ok (mkResponse "" [mkCall "c1" "search" "q", mkCall "c2" "finish" "r",
        mkCall "c3" "search" "z"])) }

/-- A response without content and without tool calls: every choice has an empty text and no
tool call. -/
def emptyResponse (r : ContentResponse) : Prop :=
  ∀ c ∈ r.Choices, c.Content = "" ∧ c.ToolCalls = []

/-- A response whose only choice holds blanks and no tool call. -/
def blankResponse : ContentResponse :=
  { Choices := [{ Content := " \n", StopReason := "stop", GenerationInfo := none,
                  ToolCalls := [], ReasoningContent := "" }] }

/-- A response whose only choice holds a text and no tool call. -/
def textResponse : ContentResponse :=
  { Choices := [{ Content := "hello", StopReason := "stop", GenerationInfo := none,
                  ToolCalls := [], ReasoningContent := "" }] }

/-- A response with two choices that both carry generation info. -/
def twoInfoResponse : ContentResponse :=
  { Choices := [{ Content := "a", StopReason := "stop", GenerationInfo := some [("tokens", "1")],
                  ToolCalls := [], ReasoningContent := "" },
                { Content := "b", StopReason := "stop", GenerationInfo := some [("tokens", "2")],
                  ToolCalls := [], ReasoningContent := "" }] }

/-- The LLM answers twice with an empty response and then with one tool call (scenario S4);
the answer depends on the number of earlier LLM calls. -/
def retryEnv : Env :=
  { quietEnv with
    CallWithTools := fun log _ _ _ =>
      if (llmResults log).length < 2 then
        ([], Res.ok (mkResponse "" []))
      else
        ([], Res.ok (mkResponse "" [mkCall "c1" "search" "q"])) }

/-- The LLM client fails on every call. -/
def failingEnv : Env :=
  { quietEnv with
    CallWithTools := fun log _ _ _ =>
      ([], Res.err (GoError.New ("timeout " ++ Nat.repr (llmResults log).length))) }

/-- A stream sink is installed and the LLM answers with reasoning, a text and a tool call. -/
def streamEnv : Env :=
  { quietEnv with
    streamCb := some (fun _ _ => none)
    CallWithTools := fun _ _ _ _ =>
      ([{ Kind := ChunkType.ChunkTypeText, Content := "hi", ReasoningContent := "" }],
        Res.ok (some { Choices := [{ Content := "hi", StopReason := "stop",
                                     GenerationInfo := none,
                                     ToolCalls := [mkCall "c1" "search" "q"],
                                     ReasoningContent := "think" }] })) }

/-- The agent kind of the worked runs that is neither the assistant nor the reflector. -/
def primaryAgent : ProviderOptionsType := ProviderOptionsType.Other "primary"

/-- A response whose only choice is empty. -/
def silentResponse : ContentResponse :=
  { Choices := [{ Content := "", StopReason := "stop", GenerationInfo := none,
                  ToolCalls := [], ReasoningContent := "" }] }

/-- A response whose only choice carries the tool call `c1`. -/
def oneCallResponse : ContentResponse :=
  { Choices := [{ Content := "", StopReason := "stop", GenerationInfo := none,
                  ToolCalls := [mkCall "c1" "search" "q"], ReasoningContent := "" }] }

/-- A result that carries the single tool call `c1`. -/
def oneCallResult : callResult :=
  { streamID := 5, funcCalls := [mkCall "c1" "search" "q"], info := none, thinking := "why",
    content := "" }

/-- The detector flags every tool call. -/
def repeatingEnv : Env :=
  { quietEnv with detect := fun _ _ => true }

/-- The executor refuses every call; the repair works twice and fails the third time. -/
def repairFailsEnv : Env :=
  { quietEnv with
    Execute := fun _ _ _ _ _ args => Res.err (GoError.New ("bad arguments " ++ args))
    fixToolCallArgs := fun log _ args _ _ =>
      if (fixResults log).length < 2 then Res.ok (args ++ "+")
      else Res.err (GoError.New "cannot repair") }

/-- The executor refuses every call and every repair works. -/
def alwaysFailsEnv : Env :=
  { quietEnv with
    Execute := fun _ _ _ _ _ args => Res.err (GoError.New ("bad arguments " ++ args))
    fixToolCallArgs := fun _ _ args _ _ => Res.ok (args ++ "+") }

/-- The executor refuses the original arguments and accepts the repaired ones
(scenario S5). -/
def repairEnv : Env :=
  { quietEnv with
    Execute := fun _ _ _ _ _ args =>
      if args = "q" then Res.err (GoError.New "schema violation") else Res.ok ("found " ++ args)
    fixToolCallArgs := fun _ _ args _ _ => Res.ok (args ++ "+") }

/-- The executor is cancelled on its second call. -/
def cancelEnv : Env :=
  { quietEnv with
    Execute := fun log _ _ _ _ _ =>
      if (executeResults log).length = 0 then Res.err (GoError.New "schema violation")
      else Res.err (GoError.Wrap "execute: " GoError.Canceled)
    fixToolCallArgs := fun _ _ args _ _ => Res.ok (args ++ "+") }

/-- Scenario S3: the LLM answers with the same tool call twice and the detector flags a tool
call whose function call it has been shown before. -/
def duplicateEnv : Env :=
  { quietEnv with
    CallWithTools := fun _ _ _ _ =>
      ([], Res.ok (mkResponse "" [mkCall "c1" "search" "q", mkCall "c2" "search" "q"]))
    detect := fun seen toolCall => seen.any (fun s => s.FunctionCall == toolCall.FunctionCall) }

/-- The result of the LLM call in scenario S3. -/
def duplicateResult : callResult :=
  { streamID := 0, funcCalls := [mkCall "c1" "search" "q", mkCall "c2" "search" "q"],
    info := none, thinking := "", content := "" }

/-- The log of scenario S3 when line 119 is reached. -/
def duplicateCallLog : Log :=
  [Event.CallWithTools primaryAgent [] false []
     (Res.ok (mkResponse "" [mkCall "c1" "search" "q", mkCall "c2" "search" "q"])),
   Event.UpdateMsgChainUsage 7 0 0 none]

/-- The state of scenario S3 after the tool phase. -/
def duplicateState : toolState :=
  { chain := [toolCallsMessage [mkCall "c1" "search" "q", mkCall "c2" "search" "q"],
              toolMessage (mkCall "c1" "search" "q") "search" "done",
              toolMessage (mkCall "c2" "search" "q") "search"
                "tool call \x27search\x27 is repeating, please try another tool"]
    seen := [mkCall "c1" "search" "q", mkCall "c2" "search" "q"]
    wantToStop := false
    log := duplicateCallLog ++
      [Event.UpdateMsgChain 7 "a2" none,
       Event.Detect (mkCall "c1" "search" "q") false,
       Event.Execute 0 "c1" "search" "" "q" (Res.ok "done"),
       Event.UpdateMsgChain 7 "a2t1" none,
       Event.Detect (mkCall "c2" "search" "q") true,
       Event.UpdateMsgChain 7 "a2t1t1" none] }

/-- The result of the LLM call in scenario S2. -/
def barrierResult : callResult :=
  { streamID := 0
    funcCalls := [mkCall "c1" "search" "q", mkCall "c2" "finish" "r", mkCall "c3" "search" "z"]
    info := none, thinking := "", content := "" }

/-- The log of scenario S2 when line 119 is reached. -/
def barrierCallLog : Log :=
  [Event.CallWithTools primaryAgent [] false []
     (Res.ok (mkResponse "" [mkCall "c1" "search" "q", mkCall "c2" "finish" "r",
       mkCall "c3" "search" "z"])),
   Event.UpdateMsgChainUsage 7 0 0 none]

/-- The state of scenario S2 after the tool phase. -/
def barrierState : toolState :=
  { chain := [toolCallsMessage barrierResult.funcCalls,
              toolMessage (mkCall "c1" "search" "q") "search" "done",
              toolMessage (mkCall "c2" "finish" "r") "finish" "done",
              toolMessage (mkCall "c3" "search" "z") "search" "done"]
    seen := barrierResult.funcCalls
    wantToStop := true
    log := barrierCallLog ++
      [Event.UpdateMsgChain 7 "a3" none,
       Event.Detect (mkCall "c1" "search" "q") false,
       Event.Execute 0 "c1" "search" "" "q" (Res.ok "done"),
       Event.UpdateMsgChain 7 "a3t1" none,
       Event.Detect (mkCall "c2" "finish" "r") false,
       Event.Execute 0 "c2" "finish" "" "r" (Res.ok "done"),
       Event.UpdateMsgChain 7 "a3t1t1" none,
       Event.Detect (mkCall "c3" "search" "z") false,
       Event.Execute 0 "c3" "search" "" "z" (Res.ok "done"),
       Event.UpdateMsgChain 7 "a3t1t1t1" none] }

/-! ## Notions used for the reflector, the assistant and the persisted chain -/

/-- Lines 477-518 of `performReflector` on their own: the two prompts are rendered and the
advice sub-chain is run. Gives the advice (the placeholder when the sub-chain fails), or the
error with which `performReflector` returns when a prompt cannot be rendered, and the log. -/
def reflectorAdvice (env : Env) (taskID subtaskID : Option Int)
    (humanMessage executionContext content : String) (log : Log) : Res String × Log :=
  let time := env.getCurrentTime log
  let log1 := log ++ [Event.GetCurrentTime time]
  let userVars := TemplateVars.user content env.GetBarrierToolNames
  let systemVars := TemplateVars.system env.GetBarrierTools time executionContext
    (if humanMessage ≠ "" then some humanMessage else none)
  let userRes := env.RenderTemplate log1 PromptType.PromptTypeQuestionReflector userVars
  let log2 := log1 ++
    [Event.RenderTemplate PromptType.PromptTypeQuestionReflector userVars userRes]
  match userRes with
  | Res.err e =>
    (Res.err (env.wrapErrorEndSpan "failed to get user reflector template" e), log2)
  | Res.ok userReflectorTmpl =>
    let systemRes := env.RenderTemplate log2 PromptType.PromptTypeReflector systemVars
    let log3 := log2 ++ [Event.RenderTemplate PromptType.PromptTypeReflector systemVars systemRes]
    match systemRes with
    | Res.err e =>
      (Res.err (env.wrapErrorEndSpan "failed to get system reflector template" e), log3)
    | Res.ok systemReflectorTmpl =>
      let adviceRes :=
        env.performSimpleChain log3 taskID subtaskID systemReflectorTmpl userReflectorTmpl
      let log4 := log3 ++
        [Event.PerformSimpleChain taskID subtaskID systemReflectorTmpl userReflectorTmpl
          adviceRes]
      (Res.ok (match adviceRes with
        | Res.ok a => a
        | Res.err _ => env.ToolPlaceholder), log4)

/-- Lines 583-597 of `processAssistantResult` on their own: the final update chunk for the
stream sink. Gives the error of the sink, if any, and the log. -/
def assistantStream (env : Env) (result : callResult) (log : Log) : Option GoError × Log :=
  match env.streamCb with
  | none => (none, log)
  | some cb =>
    let assigned : Int × Log :=
      if result.streamID = 0 then
        let id := env.callCounterAdd log
        (id, log ++ [Event.CallCounterAdd id])
      else
        (result.streamID, log)
    let chunk : StreamMessageChunk :=
      { Kind := StreamMessageChunkType.StreamMessageChunkTypeUpdate
        MsgType := MsglogType.MsglogTypeAnswer
        Content := result.content
        Thinking := result.thinking
        StreamID := assigned.1 }
    let res := cb assigned.2 chunk
    (res, assigned.2 ++ [Event.StreamCb chunk res])

/-- The events that are neither a call of the LLM client nor a write of the chain: what the
parts of the loop other than `callWithRetries` and `updateMsgChain` add to the log. -/
def isQuietEvent (e : Event) : Bool :=
  match e with
  | Event.CallWithTools _ _ _ _ _ => false
  | Event.UpdateMsgChain _ _ _ => false
  | _ => true

/-- The events `callWithRetries` can add to the log. -/
def isCallEvent (e : Event) : Bool :=
  match e with
  | Event.CallCounterAdd _ => true
  | Event.CallWithTools _ _ _ _ _ => true
  | Event.StreamCb _ _ => true
  | Event.RetryWait _ => true
  | _ => false

/-- The runs of the advice sub-chain recorded in a log, in order: one per round of the
reflector. -/
def adviceCalls (log : Log) : List (Res String) :=
  log.filterMap (fun e =>
    match e with
    | Event.PerformSimpleChain _ _ _ _ res => some res
    | _ => none)

/-- The prompts rendered, in order. -/
def renderCalls (log : Log) : List PromptType :=
  log.filterMap (fun e =>
    match e with
    | Event.RenderTemplate promptType _ _ => some promptType
    | _ => none)

/-- The blob of the last write of the chain recorded in the log, provided that write
succeeded. -/
def lastWrite (log : Log) : Option String :=
  match (chainWrites log).getLast? with
  | some (_, blob, none) => some blob
  | _ => none

/-- The chain `chain` is the persisted one: the last write of the chain recorded in the log
succeeded and wrote the serialized form of `chain`. -/
def Persisted (env : Env) (chain : Chain) (log : Log) : Prop :=
  ∃ blob, env.jsonMarshal chain = Res.ok blob ∧ lastWrite log = some blob

/-- The return of `performAgentChain` with the error `err`, the local chain `chain` and the
log `log` is caused by a failed chain write: a call of `updateMsgChain` on `chain` failed, the
log ends with it and `err` is its error, as it is or wrapped by `processAssistantResult`. -/
def WriteFailed (env : Env) (chainID : Int) (err : Option GoError) (chain : Chain)
    (log : Log) : Prop :=
  ∃ before e, updateMsgChain env chainID chain before = (some e, log) ∧
    (err = some e ∨ err = some (GoError.Wrap "failed to update msg chain: " e))

/-- The summarizer returns its input chain unchanged when it returns an error. -/
def SummarizerKeepsChainOnError (env : Env) : Prop :=
  ∀ summarize, env.summarizer = some summarize →
    ∀ (log : Log) (chain : Chain), (summarize log chain).2 ≠ none → (summarize log chain).1 = chain

/-- The updates of the token usage recorded in a log, in order: one per LLM call that
`performAgentChain` or `performReflector` got a result from. -/
def usageUpdates (log : Log) : List (Int × Int × Int) :=
  log.filterMap (fun e =>
    match e with
    | Event.UpdateMsgChainUsage chainID usageIn usageOut _ => some (chainID, usageIn, usageOut)
    | _ => none)

/-- The LLM answers every call with prose and no tool call, so that the reflector never gets
a tool call (scenario of the reflector limit). -/
def proseEnv : Env :=
  { quietEnv with
    CallWithTools := fun _ _ _ _ => ([], Res.ok (mkResponse "I would rather talk" [])) }

/-- The LLM answers its first call with prose and every later call with the tool call `c1`
(scenario S1: the reflector is engaged once and gets a tool call). -/
def reflectEnv : Env :=
  { quietEnv with
    CallWithTools := fun log _ _ _ =>
      if (llmResults log).length = 0 then ([], Res.ok (mkResponse "I would rather talk" []))
      else ([], Res.ok (mkResponse "" [mkCall "c1" "search" "q"])) }

/-- The log of scenario S1 when the reflector is engaged: the LLM has answered with prose. -/
def reflectStartLog : Log :=
  [Event.CallWithTools primaryAgent [] false []
    (Res.ok (mkResponse "I would rather talk" []))]

/-- The result the reflector returns in scenario S1. -/
def reflectResult : callResult :=
  { streamID := 0, funcCalls := [mkCall "c1" "search" "q"], info := none, thinking := "",
    content := "" }

/-- The log of scenario S1 when the reflector returns. -/
def reflectEndLog : Log :=
  reflectStartLog ++
    [Event.GetCurrentTime "now",
     Event.RenderTemplate PromptType.PromptTypeQuestionReflector
       (TemplateVars.user "I would rather talk" ["finish"]) (Res.ok "template"),
     Event.RenderTemplate PromptType.PromptTypeReflector
       (TemplateVars.system ["finish"] "now" "context" none) (Res.ok "template"),
     Event.PerformSimpleChain none none "template" "template" (Res.ok "advice"),
     Event.CallWithTools primaryAgent
       [TextParts ChatMessageType.ChatMessageTypeAI "I would rather talk",
        TextParts ChatMessageType.ChatMessageTypeHuman "advice"] false []
       (Res.ok (mkResponse "" [mkCall "c1" "search" "q"])),
     Event.UpdateMsgChainUsage 7 0 0 none]

/-- What the claim on the persisted chain says of the outcome of one pass of the loop: at the
end of the pass, and at a return that is not caused by a failed chain write, the chain in
memory is the persisted one. -/
def PassKeepsPersisted (env : Env) (chainID : Int) (out : iterOutcome) (log : Log) : Prop :=
  match out with
  | iterOutcome.ret err chain => Persisted env chain log ∨ WriteFailed env chainID err chain log
  | iterOutcome.next chain _ => Persisted env chain log

/-- The chains handed to the LLM client, in order. -/
def llmChains (log : Log) : List Chain :=
  log.filterMap (fun e =>
    match e with
    | Event.CallWithTools _ chain _ _ _ => some chain
    | _ => none)

/-- A summarizer that always fails and returns its input chain. -/
def failingSummarizer : Log → Chain → Chain × Option GoError :=
  fun _ chain => (chain, some (GoError.New "summarizer is down"))

/-- The LLM answers with the tool call `c1` and the summarizer always fails. -/
def summaryFailsEnv : Env :=
  { quietEnv with
    CallWithTools := fun _ _ _ _ => ([], Res.ok (mkResponse "" [mkCall "c1" "search" "q"]))
    summarizer := some failingSummarizer }

/-- The log of the run with the failing summarizer when line 119 is reached. -/
def summaryCallLog : Log :=
  [Event.CallWithTools primaryAgent [] false []
     (Res.ok (mkResponse "" [mkCall "c1" "search" "q"])),
   Event.UpdateMsgChainUsage 7 0 0 none]

/-- The state of the run with the failing summarizer after the tool phase. -/
def summaryState : toolState :=
  { chain := [toolCallsMessage [mkCall "c1" "search" "q"],
              toolMessage (mkCall "c1" "search" "q") "search" "done"]
    seen := [mkCall "c1" "search" "q"]
    wantToStop := false
    log := summaryCallLog ++
      [Event.UpdateMsgChain 7 "a1" none,
       Event.Detect (mkCall "c1" "search" "q") false,
       Event.Execute 0 "c1" "search" "" "q" (Res.ok "done"),
       Event.UpdateMsgChain 7 "a1t1" none] }

/-- The LLM answers the assistant with a text and no tool call and the summarizer always
fails. -/
def assistantSummaryFailsEnv : Env :=
  { quietEnv with
    CallWithTools := fun _ _ _ _ => ([], Res.ok (some textResponse))
    summarizer := some failingSummarizer }

/-- The result of the LLM call of the assistant. -/
def helloResult : callResult :=
  { streamID := 0, funcCalls := [], info := none, thinking := "", content := "hello" }

/-- Lines 599-605 of `processAssistantResult` on their own: the chain is summarized when a
summarizer is installed; an error of the summarizer is only logged. Gives the chain that
results and the log. -/
def assistantSummary (env : Env) (chain : Chain) (log : Log) : Chain × Log :=
  match env.summarizer with
  | none => (chain, log)
  | some summarize =>
    ((summarize log chain).1,
      log ++ [Event.SummarizeChain chain (summarize log chain).1 (summarize log chain).2])

/-- The LLM answers with a text and no tool call, and the summarizer replaces every chain by
one human message. -/
def assistantEnv : Env :=
  { quietEnv with
    CallWithTools := fun _ _ _ _ => ([], Res.ok (some textResponse))
    summarizer := some (fun _ _ =>
      ([TextParts ChatMessageType.ChatMessageTypeHuman "summary"], none)) }

/-- The log of the run of the assistant after the LLM call. -/
def assistantCallLog : Log :=
  [Event.CallWithTools ProviderOptionsType.OptionsTypeAssistant [] false []
    (Res.ok (some textResponse))]

/-- The result of the LLM call of the assistant. -/
def assistantResult : callResult :=
  { streamID := 0, funcCalls := [], info := none, thinking := "", content := "hello" }

/-- The result of the LLM call that answers with prose. -/
def proseResult : callResult :=
  { streamID := 0, funcCalls := [], info := none, thinking := "",
    content := "I would rather talk" }

/-- The LLM answers its first call with the tool call `c1` and every later call with the
barrier tool; the summarizer always fails and returns its input chain. -/
def twoPassEnv : Env :=
  { quietEnv with
    CallWithTools := fun log _ _ _ =>
      if (llmResults log).length = 0 then
        ([], Res.ok (mkResponse "" [mkCall "c1" "search" "q"]))
      else
        ([], Res.ok (mkResponse "" [mkCall "c2" "finish" "r"]))
    summarizer := some failingSummarizer }

/-- A log in which the empty chain has just been written. -/
def emptyChainLog : Log :=
  [Event.UpdateMsgChain 7 "" none]

/-- The answers of the detector recorded in a log, in order, each with the tool call the
detector was shown. -/
def detections (log : Log) : List (ToolCall × Bool) :=
  log.filterMap (fun e =>
    match e with
    | Event.Detect toolCall res => some (toolCall, res)
    | _ => none)

/-- The runs of `executor.Execute` that succeeded, in order: the id of the tool call and the
name of the function executed. -/
def executedCalls (log : Log) : List (String × String) :=
  log.filterMap (fun e =>
    match e with
    | Event.Execute _ toolCallID funcName _ _ (Res.ok _) => some (toolCallID, funcName)
    | _ => none)

/-- What the detector answers when it is shown the tool calls `calls` one after the other,
after the tool calls `seen`. -/
def flagsOf (env : Env) : List ToolCall → List ToolCall → List (ToolCall × Bool)
  | _, [] => []
  | seen, c :: rest => (c, env.detect seen c) :: flagsOf env (seen ++ [c]) rest

/-- The tool calls the detector did not flag, as the executor is given them: the id of the
tool call and the name of the function. -/
def unflagged (ds : List (ToolCall × Bool)) : List (String × String) :=
  (ds.filter (fun d => !d.2)).map (fun d => (d.1.ID, funcNameOf d.1))

/-- The contract of the repetition detector: it flags a tool call only when it has been shown
a tool call of the same function before (the detector compares a tool call with the ones it
has seen since `performAgentChain` created it at line 57). -/
def DetectorFlagsRepeats (env : Env) : Prop :=
  ∀ (seen : List ToolCall) (c : ToolCall), env.detect seen c = true →
    ∃ p ∈ seen, funcNameOf p = funcNameOf c

/-- The executor has run a barrier tool with success in this stretch of the log. -/
def BarrierExecuted (env : Env) (log : Log) : Prop :=
  ∃ e ∈ executedCalls log, env.IsBarrierFunction e.2 = true

/-- The LLM answers with the same call of the barrier tool twice, and the detector flags a
tool call whose function call it has been shown before. -/
def repeatedBarrierEnv : Env :=
  { quietEnv with
    CallWithTools := fun _ _ _ _ =>
      ([], Res.ok (mkResponse "" [mkCall "c1" "finish" "r", mkCall "c2" "finish" "r"]))
    detect := fun seen toolCall => seen.any (fun s => s.FunctionCall == toolCall.FunctionCall) }

/-- A response whose only choice has no text and no tool call, but carries generation info
and reasoning: `fillResult` refuses it. -/
def staleResponse : ContentResponse :=
  { Choices := [{ Content := "", StopReason := "length",
                  GenerationInfo := some [("tokens", "9")],
                  ToolCalls := [], ReasoningContent := "old thought" }] }

/-- The LLM answers its first call with `staleResponse` and every later call with
`textResponse`. -/
def staleEnv : Env :=
  { quietEnv with
    CallWithTools := fun log _ _ _ =>
      if (llmResults log).length = 0 then ([], Res.ok (some staleResponse))
      else ([], Res.ok (some textResponse)) }

/-- A response whose only choice carries a text, generation info and reasoning. -/
def freshResponse : ContentResponse :=
  { Choices := [{ Content := "hello", StopReason := "stop",
                  GenerationInfo := some [("tokens", "3")],
                  ToolCalls := [], ReasoningContent := "new thought" }] }

/-- The LLM answers its first call with `staleResponse` and every later call with
`freshResponse`. -/
def freshEnv : Env :=
  { quietEnv with
    CallWithTools := fun log _ _ _ =>
      if (llmResults log).length = 0 then ([], Res.ok (some staleResponse))
      else ([], Res.ok (some freshResponse)) }

/-- The log of scenario S1 when the reflector returns, in a pass of the loop: the LLM call,
the usage update, then the events of the reflector. -/
def reflectPassLog : Log :=
  reflectStartLog ++ Event.UpdateMsgChainUsage 7 0 0 none :: reflectEndLog.drop 1

/-- The state of scenario S1 after the tool phase. -/
def reflectState : toolState :=
  { chain := [toolCallsMessage [mkCall "c1" "search" "q"],
              toolMessage (mkCall "c1" "search" "q") "search" "done"]
    seen := [mkCall "c1" "search" "q"]
    wantToStop := false
    log := reflectPassLog ++
      [Event.UpdateMsgChain 7 "a1" none,
       Event.Detect (mkCall "c1" "search" "q") false,
       Event.Execute 0 "c1" "search" "" "q" (Res.ok "done"),
       Event.UpdateMsgChain 7 "a1t1" none] }

/-! ## Strings -/

theorem TrimFunc_empty (f : Char → Bool) : TrimFunc f "" = "" := rfl

theorem TrimFunc_ne_empty (f : Char → Bool) (s : String) (h : TrimFunc f s ≠ "") :
    ∃ c ∈ s.data, f c = false := by
  by_contra hall
  push_neg at hall
  apply h
  have h1 : s.data.dropWhile f = [] := by
    rw [List.dropWhile_eq_nil_iff]
    intro x hx
    have := hall x hx
    simpa using this
  simp [TrimFunc, h1]

theorem mem_joinChars (sep : List Char) :
    ∀ (parts : List (List Char)) (p : List Char), p ∈ parts → ∀ c ∈ p, c ∈ joinChars sep parts
  | [], _, hp, _, _ => by simp at hp
  | [q], p, hp, c, hc => by
    simp at hp
    subst hp
    simpa [joinChars] using hc
  | q :: r :: rest, p, hp, c, hc => by
    simp only [joinChars, List.mem_append]
    rcases List.mem_cons.1 hp with h | h
    · subst h
      exact Or.inl (Or.inl hc)
    · exact Or.inr (mem_joinChars sep (r :: rest) p h c hc)

theorem mem_Join (parts : List String) (sep : String) (p : String) (hp : p ∈ parts) (c : Char)
    (hc : c ∈ p.data) : c ∈ (Join parts sep).data := by
  unfold Join
  exact mem_joinChars sep.data (parts.map String.data) p.data (List.mem_map_of_mem _ hp) c hc

/-! ## fillResult -/

theorem appendToolCalls_eq (calls : List ToolCall) :
    ∀ acc, appendToolCalls acc calls = acc ++ calls.filter (fun t => t.FunctionCall.isSome) := by
  induction calls with
  | nil => intro acc; simp [appendToolCalls]
  | cons t rest ih =>
    intro acc
    have ih1 := ih (if t.FunctionCall.isNone then acc else acc ++ [t])
    simp only [appendToolCalls, List.foldl_cons] at ih1 ⊢
    rw [ih1]
    cases h : t.FunctionCall <;> simp [h, List.filter_cons]

/-- The parts collected from the choices: the contents that are not blank. -/
theorem foldl_fillChoice_parts (choices : List ContentChoice) :
    ∀ s, ∀ p ∈ (choices.foldl fillChoice s).parts, p ∈ s.parts ∨ TrimSpace p ≠ "" := by
  induction choices with
  | nil => intro s p hp; exact Or.inl hp
  | cons c rest ih =>
    intro s p hp
    rw [List.foldl_cons] at hp
    rcases ih _ p hp with h | h
    · by_cases hc : TrimSpace c.Content ≠ ""
      · simp only [fillChoice, hc, if_true, List.mem_append, List.mem_singleton, ne_eq,
          not_false_eq_true] at h
        rcases h with h | h
        · exact Or.inl h
        · subst h
          exact Or.inr hc
      · simp only [fillChoice, hc, if_false] at h
        exact Or.inl h
    · exact Or.inr h

theorem foldl_fillChoice_funcCalls (choices : List ContentChoice) :
    ∀ s, (choices.foldl fillChoice s).result.funcCalls =
      s.result.funcCalls ++ choiceCalls choices := by
  induction choices with
  | nil => intro s; simp [choiceCalls]
  | cons c rest ih =>
    intro s
    rw [List.foldl_cons, ih]
    simp [fillChoice, choiceCalls, appendToolCalls_eq]

theorem foldl_fillChoice_streamID (choices : List ContentChoice) :
    ∀ s, (choices.foldl fillChoice s).result.streamID = s.result.streamID := by
  induction choices with
  | nil => intro s; rfl
  | cons c rest ih =>
    intro s
    rw [List.foldl_cons, ih]
    rfl

theorem choiceCalls_isSome (choices : List ContentChoice) :
    ∀ t ∈ choiceCalls choices, t.FunctionCall.isSome = true := by
  induction choices with
  | nil => intro t ht; simp [choiceCalls] at ht
  | cons c rest ih =>
    intro t ht
    simp only [choiceCalls, List.mem_append, List.mem_filter] at ht
    rcases ht with h | h
    · exact h.2
    · exact ih t h

theorem choiceCalls_eq_nil (choices : List ContentChoice)
    (h : ∀ choice ∈ choices, ∀ t ∈ choice.ToolCalls, t.FunctionCall = none) :
    choiceCalls choices = [] := by
  induction choices with
  | nil => rfl
  | cons c rest ih =>
    simp only [choiceCalls, List.append_eq_nil, List.filter_eq_nil_iff]
    refine ⟨?_, ih (fun choice hc => h choice (List.mem_cons_of_mem _ hc))⟩
    intro t ht
    simp [h c (List.mem_cons_self _ _) t ht]

/-- The info after the loop over the choices: that of the last choice that has one, else the
info held before. -/
theorem foldl_fillChoice_info_none (choices : List ContentChoice) :
    ∀ s, (∀ c ∈ choices, c.GenerationInfo = none) →
      (choices.foldl fillChoice s).result.info = s.result.info := by
  induction choices with
  | nil => intro s _; rfl
  | cons c rest ih =>
    intro s h
    rw [List.foldl_cons, ih _ (fun d hd => h d (List.mem_cons_of_mem _ hd))]
    simp [fillChoice, h c (List.mem_cons_self _ _)]

theorem foldl_fillChoice_info_last (pre post : List ContentChoice) (c : ContentChoice)
    (i : GenerationInfo) (hc : c.GenerationInfo = some i)
    (hpost : ∀ d ∈ post, d.GenerationInfo = none) (s : fillState) :
    ((pre ++ c :: post).foldl fillChoice s).result.info = some i := by
  rw [List.foldl_append, List.foldl_cons, foldl_fillChoice_info_none post _ hpost]
  simp [fillChoice, hc]

/-- What `fillResult` does to a response that has choices. -/
theorem fillResult_some (result : callResult) (r : ContentResponse) (h : r.Choices ≠ []) :
    fillResult result (some r) =
      if Trim (Join (r.Choices.foldl fillChoice ⟨"", [], result⟩).parts "\n") contentCutset = "" ∧
          (r.Choices.foldl fillChoice ⟨"", [], result⟩).result.funcCalls.length = 0 then
        (some (GoError.New ("no content and tool calls in response: stop reason \x27" ++
          (r.Choices.foldl fillChoice ⟨"", [], result⟩).stopReason ++ "\x27")),
          { (r.Choices.foldl fillChoice ⟨"", [], result⟩).result with
            content := Join (r.Choices.foldl fillChoice ⟨"", [], result⟩).parts "\n" })
      else
        (none, { (r.Choices.foldl fillChoice ⟨"", [], result⟩).result with
            content := Join (r.Choices.foldl fillChoice ⟨"", [], result⟩).parts "\n" }) := by
  have h0 : ¬ r.Choices.length = 0 := by
    intro hl
    exact h (List.length_eq_zero.1 hl)
  simp only [fillResult, h0, if_false]

theorem fillResult_ok_choices (result : callResult) (resp : Option ContentResponse)
    (h : (fillResult result resp).1 = none) : ∃ r, resp = some r ∧ r.Choices ≠ [] := by
  cases resp with
  | none => simp [fillResult] at h
  | some r =>
    refine ⟨r, rfl, ?_⟩
    intro hnil
    simp [fillResult, hnil] at h

/-- The content assembled by `fillResult` is empty or holds a character that is not white
space. -/
theorem fillResult_content (result : callResult) (resp : Option ContentResponse)
    (r : ContentResponse) (hr : resp = some r) (hne : r.Choices ≠ []) :
    (fillResult result resp).2.content = "" ∨
      ∃ c ∈ (fillResult result resp).2.content.data, unicodeIsSpace c = false := by
  subst hr
  have hcontent : (fillResult result (some r)).2.content =
      Join (r.Choices.foldl fillChoice ⟨"", [], result⟩).parts "\n" := by
    rw [fillResult_some result r hne]
    split <;> rfl
  rw [hcontent]
  cases hparts : (r.Choices.foldl fillChoice ⟨"", [], result⟩).parts with
  | nil => exact Or.inl rfl
  | cons p rest =>
    right
    have hp : p ∈ (r.Choices.foldl fillChoice ⟨"", [], result⟩).parts := by
      rw [hparts]; exact List.mem_cons_self _ _
    rcases foldl_fillChoice_parts r.Choices _ p hp with h | h
    · simp at h
    · obtain ⟨c, hc, hsp⟩ := TrimFunc_ne_empty unicodeIsSpace p h
      refine ⟨c, ?_, hsp⟩
      rw [← hparts]
      exact mem_Join _ _ p hp c hc

/-- The tool calls assembled by `fillResult`: those held before followed by those of the
choices. -/
theorem fillResult_funcCalls (result : callResult) (r : ContentResponse) (hne : r.Choices ≠ []) :
    (fillResult result (some r)).2.funcCalls = result.funcCalls ++ choiceCalls r.Choices := by
  rw [fillResult_some result r hne]
  split <;> simp [foldl_fillChoice_funcCalls]

theorem foldl_fillChoice_parts_congr (choices : List ContentChoice) :
    ∀ (s t : fillState), s.parts = t.parts → s.stopReason = t.stopReason →
      (choices.foldl fillChoice s).parts = (choices.foldl fillChoice t).parts ∧
      (choices.foldl fillChoice s).stopReason = (choices.foldl fillChoice t).stopReason := by
  induction choices with
  | nil => intro s t h1 h2; exact ⟨h1, h2⟩
  | cons c rest ih =>
    intro s t h1 h2
    rw [List.foldl_cons, List.foldl_cons]
    apply ih
    · simp [fillChoice, h1]
    · simp [fillChoice, h2]

/-- Whether `fillResult` accepts a response does not depend on the captured `result` as long
as it holds no tool calls. -/
theorem fillResult_error_congr (result : callResult) (resp : Option ContentResponse)
    (h : result.funcCalls = []) :
    (fillResult result resp).1 = attemptError (Res.ok resp) := by
  unfold attemptError
  cases resp with
  | none => rfl
  | some r =>
    by_cases hne : r.Choices = []
    · simp [fillResult, hne]
    · show (fillResult result (some r)).1 = (fillResult callResult.zero (some r)).1
      rw [fillResult_some result r hne, fillResult_some callResult.zero r hne]
      have hp := foldl_fillChoice_parts_congr r.Choices ⟨"", [], result⟩ ⟨"", [], callResult.zero⟩
        rfl rfl
      have hf1 := foldl_fillChoice_funcCalls r.Choices ⟨"", [], result⟩
      have hf2 := foldl_fillChoice_funcCalls r.Choices ⟨"", [], callResult.zero⟩
      simp only [h, List.nil_append] at hf1
      simp only [callResult.zero, List.nil_append] at hf2
      simp only [callResult.zero] at hp
      simp only [callResult.zero]
      rw [hp.1, hp.2, hf1, hf2]
      split <;> rfl

/-- A response that `fillResult` refuses leaves no tool calls in `result`. -/
theorem fillResult_error_funcCalls (result : callResult) (resp : Option ContentResponse)
    (h : result.funcCalls = []) (e : GoError) (he : (fillResult result resp).1 = some e) :
    (fillResult result resp).2.funcCalls = [] := by
  cases resp with
  | none => simpa [fillResult] using h
  | some r =>
    by_cases hne : r.Choices = []
    · simpa [fillResult, hne] using h
    · rw [fillResult_some result r hne] at he ⊢
      split at he
      · rename_i hc
        rw [if_pos hc]
        exact List.length_eq_zero.1 hc.2
      · simp at he

/-! ## callWithRetries -/

theorem deliverChunks_log (cb : Log → StreamMessageChunk → Option GoError) (id : Int) :
    ∀ (chunks : List Chunk) (log : Log), ∃ seg, deliverChunks cb id chunks log = log ++ seg ∧
      ∀ e ∈ seg, ∃ m r, e = Event.StreamCb m r := by
  intro chunks
  induction chunks with
  | nil => intro log; exact ⟨[], by simp [deliverChunks], by simp⟩
  | cons c rest ih =>
    intro log
    cases hc : streamChunk id c with
    | none =>
      obtain ⟨seg, h1, h2⟩ := ih log
      exact ⟨seg, by simp [deliverChunks, hc, h1], h2⟩
    | some m =>
      obtain ⟨seg, h1, h2⟩ := ih (log ++ [Event.StreamCb m (cb log m)])
      refine ⟨Event.StreamCb m (cb log m) :: seg, by simp [deliverChunks, hc, h1], ?_⟩
      intro e he
      rcases List.mem_cons.1 he with h | h
      · exact ⟨m, _, h⟩
      · exact h2 e h

/-- A stretch of the log that holds only messages to the stream sink holds no answer of the
LLM client, of the retry timer or of the call counter. -/
theorem stream_only (seg : Log) (h : ∀ e ∈ seg, ∃ m r, e = Event.StreamCb m r) :
    llmResults seg = [] ∧ retryWaits seg = [] ∧ assignedIDs seg = [] := by
  refine ⟨?_, ?_, ?_⟩ <;>
  · simp only [llmResults, retryWaits, assignedIDs, List.filterMap_eq_nil_iff]
    intro e he
    obtain ⟨m, r, rfl⟩ := h e he
    rfl

/-- One LLM call: what it adds to the log and what it changes in `result`. -/
theorem callLLM_spec (env : Env) (chain : Chain) (agent : ProviderOptionsType)
    (result : callResult) (log : Log) :
    ∃ seg, (callLLM env chain agent result log).2.2 = log ++ seg ∧
      llmResults seg = [(callLLM env chain agent result log).1] ∧
      retryWaits seg = [] ∧
      (callLLM env chain agent result log).2.1.funcCalls = result.funcCalls ∧
      (env.streamCb = none → assignedIDs seg = [] ∧
        (callLLM env chain agent result log).2.1 = result) ∧
      (∀ cb, env.streamCb = some cb →
        assignedIDs seg = [(callLLM env chain agent result log).2.1.streamID] ∧
        (callLLM env chain agent result log).2.1.streamID = env.callCounterAdd log) := by
  cases hcb : env.streamCb with
  | none =>
    refine ⟨[Event.CallWithTools agent chain false (env.CallWithTools log agent chain false).1
      (env.CallWithTools log agent chain false).2], ?_, ?_, ?_, ?_, ?_, ?_⟩ <;>
      simp [callLLM, hcb, llmResults, retryWaits, assignedIDs]
  | some cb =>
    obtain ⟨seg, h1, h2⟩ := deliverChunks_log cb (env.callCounterAdd log)
      (env.CallWithTools (log ++ [Event.CallCounterAdd (env.callCounterAdd log)]) agent chain
        true).1
      (log ++ [Event.CallCounterAdd (env.callCounterAdd log)] ++
        [Event.CallWithTools agent chain true
          (env.CallWithTools (log ++ [Event.CallCounterAdd (env.callCounterAdd log)]) agent
            chain true).1
          (env.CallWithTools (log ++ [Event.CallCounterAdd (env.callCounterAdd log)]) agent
            chain true).2])
    obtain ⟨s1, s2, s3⟩ := stream_only seg h2
    refine ⟨Event.CallCounterAdd (env.callCounterAdd log) ::
      Event.CallWithTools agent chain true
          (env.CallWithTools (log ++ [Event.CallCounterAdd (env.callCounterAdd log)]) agent
            chain true).1
          (env.CallWithTools (log ++ [Event.CallCounterAdd (env.callCounterAdd log)]) agent
            chain true).2 :: seg, ?_, ?_, ?_, ?_, ?_, ?_⟩
    · simp only [callLLM, hcb]
      rw [h1]
      simp
    · have : llmResults (Event.CallCounterAdd (env.callCounterAdd log) ::
          Event.CallWithTools agent chain true
            (env.CallWithTools (log ++ [Event.CallCounterAdd (env.callCounterAdd log)]) agent
              chain true).1
            (env.CallWithTools (log ++ [Event.CallCounterAdd (env.callCounterAdd log)]) agent
              chain true).2 :: seg) =
          (env.CallWithTools (log ++ [Event.CallCounterAdd (env.callCounterAdd log)]) agent
              chain true).2 :: llmResults seg := by
        simp [llmResults]
      rw [this, s1]
      simp [callLLM, hcb]
    · have : retryWaits (Event.CallCounterAdd (env.callCounterAdd log) ::
          Event.CallWithTools agent chain true
            (env.CallWithTools (log ++ [Event.CallCounterAdd (env.callCounterAdd log)]) agent
              chain true).1
            (env.CallWithTools (log ++ [Event.CallCounterAdd (env.callCounterAdd log)]) agent
              chain true).2 :: seg) = retryWaits seg := by
        simp [retryWaits]
      rw [this, s2]
    · simp [callLLM, hcb]
    · intro h; cases h
    · intro cb1 _
      have : assignedIDs (Event.CallCounterAdd (env.callCounterAdd log) ::
          Event.CallWithTools agent chain true
            (env.CallWithTools (log ++ [Event.CallCounterAdd (env.callCounterAdd log)]) agent
              chain true).1
            (env.CallWithTools (log ++ [Event.CallCounterAdd (env.callCounterAdd log)]) agent
              chain true).2 :: seg) = env.callCounterAdd log :: assignedIDs seg := by
        simp [assignedIDs]
      rw [this, s3]
      simp [callLLM, hcb]

theorem fillResult_streamID (result : callResult) (resp : Option ContentResponse) :
    (fillResult result resp).2.streamID = result.streamID := by
  cases resp with
  | none => rfl
  | some r =>
    by_cases hne : r.Choices = []
    · simp [fillResult, hne]
    · rw [fillResult_some result r hne]
      split <;> simp [foldl_fillChoice_streamID]

theorem attemptFill_error (res : Res (Option ContentResponse)) (result : callResult)
    (h : result.funcCalls = []) : (attemptFill res result).1 = attemptError res := by
  cases res with
  | err e => rfl
  | ok resp => exact fillResult_error_congr result resp h

theorem attemptFill_error_funcCalls (res : Res (Option ContentResponse)) (result : callResult)
    (h : result.funcCalls = []) (e : GoError) (he : (attemptFill res result).1 = some e) :
    (attemptFill res result).2.funcCalls = [] := by
  cases res with
  | err e1 => exact h
  | ok resp => exact fillResult_error_funcCalls result resp h e he

theorem attemptFill_streamID (res : Res (Option ContentResponse)) (result : callResult) :
    (attemptFill res result).2.streamID = result.streamID := by
  cases res with
  | err e1 => rfl
  | ok resp => exact fillResult_streamID result resp

theorem attemptFill_ok (res : Res (Option ContentResponse)) (result : callResult)
    (h : (attemptFill res result).1 = none) :
    ∃ resp, res = Res.ok resp ∧ fillResult result resp = (none, (attemptFill res result).2) := by
  cases res with
  | err e1 => simp [attemptFill] at h
  | ok resp =>
    refine ⟨resp, rfl, ?_⟩
    simp only [attemptFill] at h ⊢
    exact Prod.ext h rfl

theorem maxRetries_text :
    "failed to call agent chain: max retries reached, " ++
      Nat.repr maxRetriesToCallAgentChain ++ ": " =
    "failed to call agent chain: max retries reached, 3: " := by decide

theorem callAttempts_succ_ok (env : Env) (chain : Chain) (agent : ProviderOptionsType)
    (n : Nat) (errs : List GoError) (result : callResult) (log : Log)
    (h : (attemptFill (callLLM env chain agent result log).1
      (callLLM env chain agent result log).2.1).1 = none) :
    callAttempts env chain agent (n + 1) errs result log =
      (Res.ok (attemptFill (callLLM env chain agent result log).1
        (callLLM env chain agent result log).2.1).2, (callLLM env chain agent result log).2.2) := by
  simp only [callAttempts, h]

theorem callAttempts_succ_cancel (env : Env) (chain : Chain) (agent : ProviderOptionsType)
    (n : Nat) (errs : List GoError) (result : callResult) (log : Log) (e ce : GoError)
    (h : (attemptFill (callLLM env chain agent result log).1
      (callLLM env chain agent result log).2.1).1 = some e)
    (hw : env.retryWait (callLLM env chain agent result log).2.2 = some ce) :
    callAttempts env chain agent (n + 1) errs result log =
      (Res.err (GoError.Wrap "context canceled while waiting for retry: " ce),
        (callLLM env chain agent result log).2.2 ++ [Event.RetryWait (some ce)]) := by
  simp only [callAttempts, h, hw]

theorem callAttempts_succ_retry (env : Env) (chain : Chain) (agent : ProviderOptionsType)
    (n : Nat) (errs : List GoError) (result : callResult) (log : Log) (e : GoError)
    (h : (attemptFill (callLLM env chain agent result log).1
      (callLLM env chain agent result log).2.1).1 = some e)
    (hw : env.retryWait (callLLM env chain agent result log).2.2 = none) :
    callAttempts env chain agent (n + 1) errs result log =
      callAttempts env chain agent n (errs ++ [e])
        (attemptFill (callLLM env chain agent result log).1
          (callLLM env chain agent result log).2.1).2
        ((callLLM env chain agent result log).2.2 ++ [Event.RetryWait none]) := by
  simp only [callAttempts, h, hw]

/-- The shape of a run of the retry loop of `callWithRetries`: it ends with an accepted
response after some refused ones, or with a cancelled wait, or after `remaining` refused
attempts. -/
theorem callAttempts_trace (env : Env) (chain : Chain) (agent : ProviderOptionsType) :
    ∀ (remaining : Nat) (errs : List GoError) (result : callResult) (log : Log),
      result.funcCalls = [] →
      ∃ seg, (callAttempts env chain agent remaining errs result log).2 = log ++ seg ∧
        (llmResults seg).length ≤ remaining ∧
        ((∃ raw fails last rin,
            (callAttempts env chain agent remaining errs result log).1 = Res.ok raw ∧
            llmResults seg = fails ++ [Res.ok last] ∧
            (∀ a ∈ fails, attemptError a ≠ none) ∧
            rin.funcCalls = [] ∧ fillResult rin last = (none, raw) ∧
            retryWaits seg = fails.map (fun _ => none) ∧
            (∀ cb, env.streamCb = some cb →
              (assignedIDs seg).getLast? = some raw.streamID ∧
              ∃ h, raw.streamID = env.callCounterAdd h) ∧
            (env.streamCb = none → raw.streamID = result.streamID)) ∨
         (∃ ce waits,
            (callAttempts env chain agent remaining errs result log).1 =
              Res.err (GoError.Wrap "context canceled while waiting for retry: " ce) ∧
            retryWaits seg = waits ++ [some ce] ∧
            (∀ a ∈ llmResults seg, attemptError a ≠ none)) ∨
         ((callAttempts env chain agent remaining errs result log).1 =
              Res.err (GoError.Wrap "failed to call agent chain: max retries reached, 3: "
                (GoError.Join (errs ++ (llmResults seg).filterMap attemptError))) ∧
            (llmResults seg).length = remaining ∧
            (∀ a ∈ llmResults seg, attemptError a ≠ none) ∧
            retryWaits seg = (llmResults seg).map (fun _ => none))) := by
  intro remaining
  induction remaining with
  | zero =>
    intro errs result log _
    refine ⟨[], by simp [callAttempts], by simp [llmResults], Or.inr (Or.inr ⟨?_, ?_, ?_, ?_⟩)⟩
    · simp [callAttempts, maxRetries_text, llmResults]
    · simp [llmResults]
    · simp [llmResults]
    · simp [llmResults, retryWaits]
  | succ n ih =>
    intro errs result log hres
    obtain ⟨seg0, hlog0, hllm0, hwait0, hfc0, hnone0, hsome0⟩ :=
      callLLM_spec env chain agent result log
    have hfc1 : (callLLM env chain agent result log).2.1.funcCalls = [] := by rw [hfc0, hres]
    have herr := attemptFill_error (callLLM env chain agent result log).1 _ hfc1
    cases hfill : (attemptFill (callLLM env chain agent result log).1
        (callLLM env chain agent result log).2.1).1 with
    | none =>
      obtain ⟨resp, hresp, hfr⟩ := attemptFill_ok _ _ hfill
      have hrun := callAttempts_succ_ok env chain agent n errs result log hfill
      refine ⟨seg0, by rw [hrun]; exact hlog0, by rw [hllm0]; simp, Or.inl ?_⟩
      refine ⟨_, [], resp, _, by rw [hrun], by simp [hllm0, hresp], by simp,
        hfc1, hfr, by simp [hwait0], ?_, ?_⟩
      · intro cb hcb
        obtain ⟨h1, h2⟩ := hsome0 cb hcb
        rw [attemptFill_streamID]
        exact ⟨by rw [h1]; rfl, log, h2⟩
      · intro hcb
        rw [attemptFill_streamID, (hnone0 hcb).2]
    | some e =>
      rw [hfill] at herr
      cases hwait : env.retryWait (callLLM env chain agent result log).2.2 with
      | some ce =>
        have hrun := callAttempts_succ_cancel env chain agent n errs result log e ce hfill hwait
        refine ⟨seg0 ++ [Event.RetryWait (some ce)], by rw [hrun, hlog0]; simp,
          ?_, Or.inr (Or.inl ⟨ce, [], by rw [hrun], ?_, ?_⟩)⟩
        · have : llmResults (seg0 ++ [Event.RetryWait (some ce)]) = llmResults seg0 := by
            simp [llmResults]
          rw [this, hllm0]; simp
        · have : retryWaits (seg0 ++ [Event.RetryWait (some ce)]) = retryWaits seg0 ++ [some ce] := by
            simp [retryWaits]
          rw [this, hwait0]
        · have : llmResults (seg0 ++ [Event.RetryWait (some ce)]) = llmResults seg0 := by
            simp [llmResults]
          rw [this, hllm0]
          intro a ha
          simp only [List.mem_singleton] at ha
          rw [ha, ← herr]; simp
      | none =>
        have hfc2 := attemptFill_error_funcCalls _ _ hfc1 e hfill
        obtain ⟨seg1, hlog1, hlen1, hcases⟩ := ih (errs ++ [e])
          (attemptFill (callLLM env chain agent result log).1
            (callLLM env chain agent result log).2.1).2
          ((callLLM env chain agent result log).2.2 ++ [Event.RetryWait none]) hfc2
        have hrun := callAttempts_succ_retry env chain agent n errs result log e hfill hwait
        have hllm : llmResults (seg0 ++ Event.RetryWait none :: seg1) =
            (callLLM env chain agent result log).1 :: llmResults seg1 := by
          have : llmResults (seg0 ++ Event.RetryWait none :: seg1) =
              llmResults seg0 ++ llmResults seg1 := by simp [llmResults]
          rw [this, hllm0]; rfl
        have hwaits : retryWaits (seg0 ++ Event.RetryWait none :: seg1) =
            none :: retryWaits seg1 := by
          have : retryWaits (seg0 ++ Event.RetryWait none :: seg1) =
              retryWaits seg0 ++ none :: retryWaits seg1 := by simp [retryWaits]
          rw [this, hwait0]; rfl
        have hids : assignedIDs (seg0 ++ Event.RetryWait none :: seg1) =
            assignedIDs seg0 ++ assignedIDs seg1 := by simp [assignedIDs]
        have hne : attemptError (callLLM env chain agent result log).1 ≠ none := by
          rw [← herr]; simp
        refine ⟨seg0 ++ Event.RetryWait none :: seg1, by rw [hrun, hlog1, hlog0]; simp, ?_, ?_⟩
        · rw [hllm]; simp; omega
        · rw [hrun, hllm, hwaits, hids]
          rcases hcases with ⟨raw, fails, last, rin, h1, h2, h3, h4, h5, h6, h7, h8⟩ |
            ⟨ce, waits, h1, h2, h3⟩ | ⟨h1, h2, h3, h4⟩
          · refine Or.inl ⟨raw, (callLLM env chain agent result log).1 :: fails, last, rin, h1,
              by rw [h2]; rfl, ?_, h4, h5, by rw [h6]; rfl, ?_, ?_⟩
            · intro a ha
              rcases List.mem_cons.1 ha with h | h
              · rw [h]; exact hne
              · exact h3 a h
            · intro cb hcb
              obtain ⟨g1, g2⟩ := h7 cb hcb
              refine ⟨?_, g2⟩
              rw [List.getLast?_append, g1]; rfl
            · intro hcb
              rw [h8 hcb, attemptFill_streamID, (hnone0 hcb).2]
          · refine Or.inr (Or.inl ⟨ce, none :: waits, h1, by rw [h2]; rfl, ?_⟩)
            intro a ha
            rcases List.mem_cons.1 ha with h | h
            · rw [h]; exact hne
            · exact h3 a h
          · refine Or.inr (Or.inr ⟨?_, by simp [h2], ?_, by rw [h4]; rfl⟩)
            · rw [h1]
              simp [List.filterMap_cons, ← herr]
            · intro a ha
              rcases List.mem_cons.1 ha with h | h
              · rw [h]; exact hne
              · exact h3 a h

theorem finishCall_fields (env : Env) (result : callResult) (log : Log) :
    (finishCall env result log).1.funcCalls = result.funcCalls ∧
    (finishCall env result log).1.content = result.content ∧
    (finishCall env result log).1.info = result.info := by
  unfold finishCall
  cases env.streamCb with
  | none => exact ⟨rfl, rfl, rfl⟩
  | some cb =>
    simp only
    split
    · split <;> exact ⟨rfl, rfl, rfl⟩
    · exact ⟨rfl, rfl, rfl⟩

/-- A successful `callWithRetries` is a successful retry loop followed by lines 407-421. -/
theorem callWithRetries_ok (env : Env) (chain : Chain) (agent : ProviderOptionsType) (log : Log)
    (res : callResult) (log1 : Log)
    (h : callWithRetries env chain agent log = (Res.ok res, log1)) :
    ∃ raw log0,
      callAttempts env chain agent maxRetriesToCallAgentChain [] callResult.zero log =
        (Res.ok raw, log0) ∧
      finishCall env raw log0 = (res, log1) := by
  unfold callWithRetries at h
  rcases hA : callAttempts env chain agent maxRetriesToCallAgentChain [] callResult.zero log with
    ⟨out, log0⟩
  rw [hA] at h
  cases out with
  | err e => simp at h
  | ok raw =>
    refine ⟨raw, log0, rfl, ?_⟩
    simp only [Prod.mk.injEq, Res.ok.injEq] at h
    exact Prod.ext h.1 h.2

theorem callWithRetries_err (env : Env) (chain : Chain) (agent : ProviderOptionsType) (log : Log)
    (e : GoError)
    (h : (callAttempts env chain agent maxRetriesToCallAgentChain [] callResult.zero log).1 =
      Res.err e) :
    callWithRetries env chain agent log =
      (Res.err e,
        (callAttempts env chain agent maxRetriesToCallAgentChain [] callResult.zero log).2) := by
  unfold callWithRetries
  rcases hA : callAttempts env chain agent maxRetriesToCallAgentChain [] callResult.zero log with
    ⟨out, log0⟩
  rw [hA] at h
  simp only at h
  subst h
  rfl

/-- What `finishCall` adds to the log: nothing, or one message to the stream sink. -/
theorem finishCall_log (env : Env) (result : callResult) (log : Log) :
    ∃ seg, (finishCall env result log).2 = log ++ seg ∧
      ∀ e ∈ seg, ∃ m r, e = Event.StreamCb m r := by
  unfold finishCall
  cases env.streamCb with
  | none => exact ⟨[], by simp, by simp⟩
  | some cb =>
    simp only
    split
    · split <;> exact ⟨[_], rfl, by simp⟩
    · exact ⟨[], by simp, by simp⟩

/-- The log of `callWithRetries` is the log of its retry loop, up to messages to the sink. -/
theorem callWithRetries_log (env : Env) (chain : Chain) (agent : ProviderOptionsType)
    (log : Log) :
    ∃ seg, (callWithRetries env chain agent log).2 =
        (callAttempts env chain agent maxRetriesToCallAgentChain [] callResult.zero log).2 ++ seg ∧
      ∀ e ∈ seg, ∃ m r, e = Event.StreamCb m r := by
  unfold callWithRetries
  rcases hA : callAttempts env chain agent maxRetriesToCallAgentChain [] callResult.zero log with
    ⟨out, log0⟩
  cases out with
  | err e => exact ⟨[], by simp, by simp⟩
  | ok raw =>
    obtain ⟨seg, h1, h2⟩ := finishCall_log env raw log0
    exact ⟨seg, h1, h2⟩

/-- Tool calls and content assembled by `fillResult` from an accepted response do not depend on
the captured `result` as long as it holds no tool calls. -/
theorem fillResult_fields_congr (result : callResult) (resp : Option ContentResponse)
    (raw : callResult) (h : result.funcCalls = []) (hfill : fillResult result resp = (none, raw)) :
    raw.funcCalls = (fillResult callResult.zero resp).2.funcCalls ∧
    raw.content = (fillResult callResult.zero resp).2.content ∧
    ∀ r, resp = some r → raw.funcCalls = choiceCalls r.Choices := by
  have h1 : (fillResult result resp).1 = none := by rw [hfill]
  obtain ⟨r, hr, hne⟩ := fillResult_ok_choices result resp h1
  subst hr
  have hraw : raw = (fillResult result (some r)).2 := by rw [hfill]
  have hc1 : (fillResult result (some r)).2.content =
      Join (r.Choices.foldl fillChoice ⟨"", [], result⟩).parts "\n" := by
    rw [fillResult_some result r hne]
    split <;> rfl
  have hc2 : (fillResult callResult.zero (some r)).2.content =
      Join (r.Choices.foldl fillChoice ⟨"", [], callResult.zero⟩).parts "\n" := by
    rw [fillResult_some callResult.zero r hne]
    split <;> rfl
  have hp := foldl_fillChoice_parts_congr r.Choices ⟨"", [], result⟩ ⟨"", [], callResult.zero⟩
    rfl rfl
  refine ⟨?_, ?_, ?_⟩
  · rw [hraw, fillResult_funcCalls result r hne, fillResult_funcCalls callResult.zero r hne, h]
    rfl
  · rw [hraw, hc1, hc2, hp.1]
  · intro r1 hr1
    cases hr1
    rw [hraw, fillResult_funcCalls result r hne, h]
    rfl

theorem emptyResponse_refused (r : ContentResponse) (h : emptyResponse r) :
    attemptError (Res.ok (some r)) ≠ none := by
  intro hacc
  have hacc1 : (fillResult callResult.zero (some r)).1 = none := hacc
  obtain ⟨r1, hr1, hne⟩ := fillResult_ok_choices callResult.zero (some r) hacc1
  cases hr1
  rw [fillResult_some callResult.zero r hne] at hacc1
  have hparts : (r.Choices.foldl fillChoice ⟨"", [], callResult.zero⟩).parts = [] := by
    cases hp : (r.Choices.foldl fillChoice ⟨"", [], callResult.zero⟩).parts with
    | nil => rfl
    | cons p rest =>
      exfalso
      have hmem : p ∈ (r.Choices.foldl fillChoice ⟨"", [], callResult.zero⟩).parts := by
        rw [hp]; exact List.mem_cons_self _ _
      have hall : ∀ (choices : List ContentChoice) (s : fillState),
          (∀ c ∈ choices, c.Content = "") → (choices.foldl fillChoice s).parts = s.parts := by
        intro choices
        induction choices with
        | nil => intro s _; rfl
        | cons c rest ih =>
          intro s hc
          rw [List.foldl_cons, ih _ (fun d hd => hc d (List.mem_cons_of_mem _ hd))]
          have : TrimSpace c.Content = "" := by
            rw [hc c (List.mem_cons_self _ _)]; rfl
          simp [fillChoice, this]
      rw [hall r.Choices _ (fun c hc => (h c hc).1)] at hmem
      simp at hmem
  have hcalls : choiceCalls r.Choices = [] := by
    apply choiceCalls_eq_nil
    intro choice hc t ht
    rw [(h choice hc).2] at ht
    simp at ht
  have hf := foldl_fillChoice_funcCalls r.Choices ⟨"", [], callResult.zero⟩
  rw [hcalls] at hf
  simp only [callResult.zero, List.append_nil] at hf
  simp only [callResult.zero] at hparts hacc1
  rw [hparts, hf] at hacc1
  simp [Join, joinChars, Trim, TrimFunc] at hacc1

theorem response_with_call_accepted (r : ContentResponse) (tc : ToolCall) (rest : List ToolCall)
    (h : choiceCalls r.Choices = tc :: rest) : attemptError (Res.ok (some r)) = none := by
  have hne : r.Choices ≠ [] := by
    intro hnil
    rw [hnil] at h
    simp [choiceCalls] at h
  show (fillResult callResult.zero (some r)).1 = none
  rw [fillResult_some callResult.zero r hne]
  have hf := foldl_fillChoice_funcCalls r.Choices ⟨"", [], callResult.zero⟩
  rw [h] at hf
  simp only [callResult.zero, List.nil_append] at hf
  simp only [callResult.zero]
  rw [hf]
  simp

/-! ## Claims about fillResult and callWithRetries -/

/-- C7: an attempt of `callWithRetries` succeeds only with content that is not blank or with a
tool call. For a response with at least one choice: (1) when `result` holds no tool calls on
entry (as at every attempt, see `callAttempts_trace`), the joined content is empty or only
white space and no choice carries a tool call with a function call, `fillResult` returns an
error whose text starts with `no content and tool calls in response`; (2) when `fillResult`
returns nil, the content holds a character that is not white space or `funcCalls` is not
empty; (3) the same holds of every result `callWithRetries` returns. -/
theorem fillResult_accepts_only_content_or_calls (result : callResult) (r : ContentResponse)
    (hchoices : r.Choices ≠ []) :
    (result.funcCalls = [] →
      (∀ c ∈ (fillResult result (some r)).2.content.data, unicodeIsSpace c = true) →
      (∀ choice ∈ r.Choices, ∀ t ∈ choice.ToolCalls, t.FunctionCall = none) →
      ∃ stopReason, (fillResult result (some r)).1 =
        some (GoError.New
          ("no content and tool calls in response: stop reason \x27" ++ stopReason ++ "\x27"))) ∧
    ((fillResult result (some r)).1 = none →
      (∃ c ∈ (fillResult result (some r)).2.content.data, unicodeIsSpace c = false) ∨
        (fillResult result (some r)).2.funcCalls ≠ []) ∧
    (∀ (env : Env) (chain : Chain) (agent : ProviderOptionsType) (log : Log) (res : callResult)
      (log1 : Log), callWithRetries env chain agent log = (Res.ok res, log1) →
      (∃ c ∈ res.content.data, unicodeIsSpace c = false) ∨ res.funcCalls ≠ []) := by
  have key : ∀ (rin : callResult) (resp : Option ContentResponse),
      (fillResult rin resp).1 = none →
      (∃ c ∈ (fillResult rin resp).2.content.data, unicodeIsSpace c = false) ∨
        (fillResult rin resp).2.funcCalls ≠ [] := by
    intro rin resp hacc
    obtain ⟨r1, hr1, hne⟩ := fillResult_ok_choices rin resp hacc
    rcases fillResult_content rin resp r1 hr1 hne with hc | hc
    · right
      subst hr1
      have hcontent : (fillResult rin (some r1)).2.content =
          Join (r1.Choices.foldl fillChoice ⟨"", [], rin⟩).parts "\n" := by
        rw [fillResult_some rin r1 hne]
        split <;> rfl
      have hcalls := fillResult_funcCalls rin r1 hne
      rw [hcontent] at hc
      rw [fillResult_some rin r1 hne] at hacc
      rw [hcalls, ← foldl_fillChoice_funcCalls r1.Choices ⟨"", [], rin⟩]
      intro hnil
      rw [hc, hnil] at hacc
      simp [Trim, TrimFunc_empty] at hacc
    · exact Or.inl hc
  refine ⟨?_, key result (some r), ?_⟩
  · intro hres hblank hcalls
    have hcontent : (fillResult result (some r)).2.content =
        Join (r.Choices.foldl fillChoice ⟨"", [], result⟩).parts "\n" := by
      rw [fillResult_some result r hchoices]
      split <;> rfl
    have hempty : Join (r.Choices.foldl fillChoice ⟨"", [], result⟩).parts "\n" = "" := by
      rcases fillResult_content result (some r) r rfl hchoices with hc | ⟨c, hc, hsp⟩
      · rw [← hcontent]; exact hc
      · rw [hblank c hc] at hsp
        cases hsp
    have hf := foldl_fillChoice_funcCalls r.Choices ⟨"", [], result⟩
    rw [choiceCalls_eq_nil r.Choices hcalls] at hf
    simp only [hres, List.append_nil] at hf
    refine ⟨(r.Choices.foldl fillChoice ⟨"", [], result⟩).stopReason, ?_⟩
    rw [fillResult_some result r hchoices, hempty, hf]
    simp [Trim, TrimFunc_empty]
  · intro env chain agent log res log1 hok
    obtain ⟨raw, log0, hA, hF⟩ := callWithRetries_ok env chain agent log res log1 hok
    obtain ⟨seg, _, _, hcases⟩ :=
      callAttempts_trace env chain agent maxRetriesToCallAgentChain [] callResult.zero log rfl
    rw [hA] at hcases
    have hfields := finishCall_fields env raw log0
    rw [hF] at hfields
    rcases hcases with ⟨raw1, fails, last, rin, h1, _, _, _, h5, _⟩ | ⟨ce, waits, h1, _⟩ | ⟨h1, _⟩
    · simp only [Res.ok.injEq] at h1
      subst h1
      have hk := key rin last (by rw [h5])
      rw [h5] at hk
      rw [hfields.1, hfields.2.1]
      exact hk
    · simp at h1
    · simp at h1

theorem fillResult_accepts_only_content_or_calls_witness :
    blankResponse.Choices ≠ [] ∧ textResponse.Choices ≠ [] ∧
    (∃ stopReason, (fillResult callResult.zero (some blankResponse)).1 =
        some (GoError.New
          ("no content and tool calls in response: stop reason \x27" ++ stopReason ++ "\x27"))) ∧
    ((∃ c ∈ (fillResult callResult.zero (some textResponse)).2.content.data,
        unicodeIsSpace c = false) ∨
      (fillResult callResult.zero (some textResponse)).2.funcCalls ≠ []) :=
  ⟨by decide, by decide,
    (fillResult_accepts_only_content_or_calls callResult.zero blankResponse (by decide)).1
      rfl (by decide) (by decide),
    (fillResult_accepts_only_content_or_calls callResult.zero textResponse (by decide)).2.1
      (by decide)⟩

/-- C9, as the claim words it, fails: with two choices that both carry generation info the
response is accepted and the info kept is that of the second choice, not of the first. -/
theorem fillResult_info_first_counterexample :
    (fillResult callResult.zero (some twoInfoResponse)).1 = none ∧
    firstInfo twoInfoResponse.Choices = some [("tokens", "1")] ∧
    (fillResult callResult.zero (some twoInfoResponse)).2.info = some [("tokens", "2")] ∧
    (fillResult callResult.zero (some twoInfoResponse)).2.info ≠
      firstInfo twoInfoResponse.Choices := by
  decide

/-- C9 (amended): for every response accepted by `fillResult`, the info of the `callResult`
is the generation info of the last choice, in choice order, whose generation info is not nil;
when no choice has one, the info is left as it was. -/
theorem fillResult_info_last (result : callResult) (r : ContentResponse)
    (haccept : (fillResult result (some r)).1 = none) :
    (∀ (pre post : List ContentChoice) (c : ContentChoice) (i : GenerationInfo),
      r.Choices = pre ++ c :: post → c.GenerationInfo = some i →
      (∀ d ∈ post, d.GenerationInfo = none) →
      (fillResult result (some r)).2.info = some i) ∧
    ((∀ c ∈ r.Choices, c.GenerationInfo = none) →
      (fillResult result (some r)).2.info = result.info) := by
  obtain ⟨r1, hr1, hne⟩ := fillResult_ok_choices result (some r) haccept
  cases hr1
  have hinfo : (fillResult result (some r)).2.info =
      (r.Choices.foldl fillChoice ⟨"", [], result⟩).result.info := by
    rw [fillResult_some result r hne]
    split <;> rfl
  refine ⟨?_, ?_⟩
  · intro pre post c i hsplit hc hpost
    rw [hinfo, hsplit]
    exact foldl_fillChoice_info_last pre post c i hc hpost _
  · intro hall
    rw [hinfo]
    exact foldl_fillChoice_info_none r.Choices _ hall

theorem fillResult_info_last_witness :
    (fillResult callResult.zero (some twoInfoResponse)).1 = none ∧
    (fillResult callResult.zero (some twoInfoResponse)).2.info = some [("tokens", "2")] ∧
    (fillResult callResult.zero (some textResponse)).2.info = none :=
  ⟨by decide,
    (fillResult_info_last callResult.zero twoInfoResponse (by decide)).1
      [{ Content := "a", StopReason := "stop", GenerationInfo := some [("tokens", "1")],
         ToolCalls := [], ReasoningContent := "" }] []
      { Content := "b", StopReason := "stop", GenerationInfo := some [("tokens", "2")],
        ToolCalls := [], ReasoningContent := "" }
      [("tokens", "2")] rfl rfl (by simp),
    (fillResult_info_last callResult.zero textResponse (by decide)).2 (by decide)⟩

/-- The log of `callWithRetries` and of its retry loop hold the same answers of the LLM client
and of the retry timer. -/
theorem callWithRetries_trace (env : Env) (chain : Chain) (agent : ProviderOptionsType)
    (log : Log) :
    ∃ seg0 seg1, (callWithRetries env chain agent log).2 = log ++ (seg0 ++ seg1) ∧
      (callAttempts env chain agent maxRetriesToCallAgentChain [] callResult.zero log).2 =
        log ++ seg0 ∧
      llmResults (seg0 ++ seg1) = llmResults seg0 ∧
      retryWaits (seg0 ++ seg1) = retryWaits seg0 := by
  obtain ⟨seg0, h0, _, _⟩ :=
    callAttempts_trace env chain agent maxRetriesToCallAgentChain [] callResult.zero log rfl
  obtain ⟨seg1, h1, h2⟩ := callWithRetries_log env chain agent log
  obtain ⟨s1, s2, _⟩ := stream_only seg1 h2
  refine ⟨seg0, seg1, by rw [h1, h0]; simp, h0, ?_, ?_⟩
  · have : llmResults (seg0 ++ seg1) = llmResults seg0 ++ llmResults seg1 := by
      simp [llmResults]
    rw [this, s1]; simp
  · have : retryWaits (seg0 ++ seg1) = retryWaits seg0 ++ retryWaits seg1 := by
      simp [retryWaits]
    rw [this, s2]; simp

/-- C8: `callWithRetries` calls the LLM client at most 3 times. When it succeeds, the last
call is the first one whose attempt succeeded and the result carries the tool calls and the
content `fillResult` assembles from its response. When the answers of the client, as far as
it is asked, are three that fail and no wait is cancelled, 3 calls are made and the error
returned wraps the join of the three errors in order. When the answers are two empty
responses and then a response with one tool call, exactly 3 calls are made and the result
holds that tool call. -/
theorem callWithRetries_attempts (env : Env) (chain : Chain) (agent : ProviderOptionsType)
    (log : Log) :
    ∃ seg, (callWithRetries env chain agent log).2 = log ++ seg ∧
      (llmResults seg).length ≤ maxRetriesToCallAgentChain ∧
      (∀ res, (callWithRetries env chain agent log).1 = Res.ok res →
        ∃ fails last, llmResults seg = fails ++ [Res.ok last] ∧
          (∀ a ∈ fails, attemptError a ≠ none) ∧ attemptError (Res.ok last) = none ∧
          res.funcCalls = (fillResult callResult.zero last).2.funcCalls ∧
          res.content = (fillResult callResult.zero last).2.content) ∧
      (∀ a1 a2 a3 e1 e2 e3, llmResults seg <+: [a1, a2, a3] →
        attemptError a1 = some e1 → attemptError a2 = some e2 → attemptError a3 = some e3 →
        (∀ w ∈ retryWaits seg, w = none) →
        llmResults seg = [a1, a2, a3] ∧
        (callWithRetries env chain agent log).1 =
          Res.err (GoError.Wrap "failed to call agent chain: max retries reached, 3: "
            (GoError.Join [e1, e2, e3]))) ∧
      (∀ r1 r2 r3 tc,
        llmResults seg <+: [Res.ok (some r1), Res.ok (some r2), Res.ok (some r3)] →
        emptyResponse r1 → emptyResponse r2 → choiceCalls r3.Choices = [tc] →
        (∀ w ∈ retryWaits seg, w = none) →
        llmResults seg = [Res.ok (some r1), Res.ok (some r2), Res.ok (some r3)] ∧
        ∃ res, (callWithRetries env chain agent log).1 = Res.ok res ∧ res.funcCalls = [tc]) := by
  obtain ⟨seg0, seg1, hlog, hlog0, hllm, hwaits⟩ := callWithRetries_trace env chain agent log
  obtain ⟨seg, hseg, hlen, hcases⟩ :=
    callAttempts_trace env chain agent maxRetriesToCallAgentChain [] callResult.zero log rfl
  have hsegeq : seg = seg0 := by
    rw [hlog0] at hseg
    exact (List.append_cancel_left hseg).symm
  subst hsegeq
  refine ⟨seg ++ seg1, hlog, by rw [hllm]; exact hlen, ?_, ?_, ?_⟩
  · intro res hres
    rcases hR : callWithRetries env chain agent log with ⟨out, log1⟩
    rw [hR] at hres
    simp only at hres
    subst hres
    obtain ⟨raw, log0, hA, hF⟩ := callWithRetries_ok env chain agent log res log1 hR
    have hfields := finishCall_fields env raw log0
    rw [hF] at hfields
    rw [hA] at hcases
    rcases hcases with ⟨raw1, fails, last, rin, h1, h2, h3, h4, h5, _⟩ | ⟨ce, waits, h1, _⟩ |
      ⟨h1, _⟩
    · simp only [Res.ok.injEq] at h1
      subst h1
      obtain ⟨g1, g2, _⟩ := fillResult_fields_congr rin last raw h4 h5
      refine ⟨fails, last, by rw [hllm, h2], h3, ?_, by rw [hfields.1, g1], by rw [hfields.2.1, g2]⟩
      rw [← attemptFill_error (Res.ok last) rin h4]
      show (fillResult rin last).1 = none
      rw [h5]
    · simp at h1
    · simp at h1
  · intro a1 a2 a3 e1 e2 e3 hpre he1 he2 he3 hnowait
    rw [hllm] at hpre ⊢
    rw [hwaits] at hnowait
    have hall : ∀ a ∈ [a1, a2, a3], attemptError a ≠ none := by
      intro a ha
      simp only [List.mem_cons, List.mem_singleton, List.not_mem_nil, or_false] at ha
      rcases ha with h | h | h <;> subst h <;> simp [he1, he2, he3]
    rcases hcases with ⟨raw1, fails, last, rin, h1, h2, h3, h4, h5, _⟩ | ⟨ce, waits, h1, h2, _⟩ |
      ⟨h1, h2, h3, h4⟩
    · exfalso
      have hmem : Res.ok last ∈ llmResults seg := by rw [h2]; simp
      have := hall _ (hpre.subset hmem)
      apply this
      rw [← attemptFill_error (Res.ok last) rin h4]
      show (fillResult rin last).1 = none
      rw [h5]
    · exfalso
      have := hnowait (some ce) (by rw [h2]; simp)
      cases this
    · have heq : llmResults seg = [a1, a2, a3] :=
        hpre.eq_of_length (by rw [h2]; rfl)
      refine ⟨heq, ?_⟩
      rw [callWithRetries_err env chain agent log _ h1, heq]
      simp [List.filterMap_cons, he1, he2, he3]
  · intro r1 r2 r3 tc hpre hempty1 hempty2 hcall hnowait
    rw [hllm] at hpre ⊢
    rw [hwaits] at hnowait
    have hf1 := emptyResponse_refused r1 hempty1
    have hf2 := emptyResponse_refused r2 hempty2
    have hs3 := response_with_call_accepted r3 tc [] hcall
    rcases hcases with ⟨raw1, fails, last, rin, h1, h2, h3, h4, h5, _⟩ | ⟨ce, waits, h1, h2, _⟩ |
      ⟨h1, h2, h3, h4⟩
    · have hacc : attemptError (Res.ok last) = none := by
        rw [← attemptFill_error (Res.ok last) rin h4]
        show (fillResult rin last).1 = none
        rw [h5]
      rw [h2] at hpre
      obtain ⟨t, ht⟩ := hpre
      have hshape : fails = [Res.ok (some r1), Res.ok (some r2)] ∧ last = some r3 := by
        rcases fails with _ | ⟨f1, _ | ⟨f2, _ | ⟨f3, fs⟩⟩⟩
        · simp at ht
          rw [ht.1] at hacc
          exact absurd hacc hf1
        · simp at ht
          rw [ht.2.1] at hacc
          exact absurd hacc hf2
        · simp at ht
          exact ⟨by rw [ht.1, ht.2.1], ht.2.2.1⟩
        · simp at ht
      obtain ⟨hfails, hlast⟩ := hshape
      subst hlast
      refine ⟨by rw [h2, hfails]; rfl, ?_⟩
      rcases hR : callWithRetries env chain agent log with ⟨out, log1⟩
      have hAeq : callAttempts env chain agent maxRetriesToCallAgentChain [] callResult.zero log =
          (Res.ok raw1, log ++ seg) := Prod.ext h1 hseg
      have hRun : callWithRetries env chain agent log =
          (Res.ok (finishCall env raw1 (log ++ seg)).1, (finishCall env raw1 (log ++ seg)).2) := by
        unfold callWithRetries
        rw [hAeq]
      rw [hRun] at hR
      simp only [Prod.mk.injEq] at hR
      refine ⟨(finishCall env raw1 (log ++ seg)).1, by rw [← hR.1], ?_⟩
      rw [(finishCall_fields env raw1 (log ++ seg)).1]
      obtain ⟨_, _, g3⟩ := fillResult_fields_congr rin (some r3) raw1 h4 h5
      rw [g3 r3 rfl, hcall]
    · exfalso
      have := hnowait (some ce) (by rw [h2]; simp)
      cases this
    · exfalso
      have heq : llmResults seg = [Res.ok (some r1), Res.ok (some r2), Res.ok (some r3)] :=
        hpre.eq_of_length (by rw [h2]; rfl)
      exact h3 (Res.ok (some r3)) (by rw [heq]; simp) hs3

theorem callWithRetries_attempts_witness :
    (llmResults (callWithRetries retryEnv [] primaryAgent []).2 =
      [Res.ok (some silentResponse), Res.ok (some silentResponse),
        Res.ok (some oneCallResponse)] ∧
     ∃ res, (callWithRetries retryEnv [] primaryAgent []).1 = Res.ok res ∧
       res.funcCalls = [mkCall "c1" "search" "q"]) ∧
    (llmResults (callWithRetries failingEnv [] primaryAgent []).2 =
      [Res.err (GoError.New "timeout 0"), Res.err (GoError.New "timeout 1"),
        Res.err (GoError.New "timeout 2")] ∧
     (callWithRetries failingEnv [] primaryAgent []).1 =
       Res.err (GoError.Wrap "failed to call agent chain: max retries reached, 3: "
        (GoError.Join [GoError.New "timeout 0", GoError.New "timeout 1",
          GoError.New "timeout 2"]))) := by
  constructor
  · obtain ⟨seg, hseg, _, _, _, h⟩ := callWithRetries_attempts retryEnv [] primaryAgent []
    simp only [List.nil_append] at hseg
    rw [hseg]
    exact h silentResponse silentResponse oneCallResponse (mkCall "c1" "search" "q")
      (by rw [← hseg]; decide) (by unfold emptyResponse; decide)
      (by unfold emptyResponse; decide) (by decide) (by rw [← hseg]; decide)
  · obtain ⟨seg, hseg, _, _, h, _⟩ := callWithRetries_attempts failingEnv [] primaryAgent []
    simp only [List.nil_append] at hseg
    rw [hseg]
    exact h (Res.err (GoError.New "timeout 0")) (Res.err (GoError.New "timeout 1"))
      (Res.err (GoError.New "timeout 2")) (GoError.New "timeout 0") (GoError.New "timeout 1")
      (GoError.New "timeout 2") (by rw [← hseg]; decide) rfl rfl rfl (by rw [← hseg]; decide)

/-- C10: with a stream sink installed and stream ids that are never 0, a successful
`callWithRetries` goes as follows. Let `raw` be the `result` the retry loop ends with; its
stream id is the id the counter handed out last, to the successful attempt. The result
returned has stream id 0 and empty reasoning exactly when it carries content and at least one
tool call; otherwise it has the stream id and the reasoning of `raw`. In both cases the last
event is an update chunk to the sink with the content, the reasoning of `raw` and the stream
id of `raw`. -/
theorem callWithRetries_clears_stream_id (env : Env) (chain : Chain)
    (agent : ProviderOptionsType) (log : Log)
    (cb : Log → StreamMessageChunk → Option GoError) (res : callResult) (log1 : Log)
    (hcb : env.streamCb = some cb) (hids : ∀ h, env.callCounterAdd h ≠ 0)
    (hok : callWithRetries env chain agent log = (Res.ok res, log1)) :
    ∃ raw seg,
      callAttempts env chain agent maxRetriesToCallAgentChain [] callResult.zero log =
        (Res.ok raw, log ++ seg) ∧
      (assignedIDs seg).getLast? = some raw.streamID ∧ raw.streamID ≠ 0 ∧
      res.content = raw.content ∧ res.funcCalls = raw.funcCalls ∧
      ((res.streamID = 0 ∧ res.thinking = "") ↔ (res.content ≠ "" ∧ res.funcCalls ≠ [])) ∧
      (¬ (res.content ≠ "" ∧ res.funcCalls ≠ []) →
        res.streamID = raw.streamID ∧ res.thinking = raw.thinking) ∧
      log1 = log ++ seg ++
        [Event.StreamCb
          { Kind := StreamMessageChunkType.StreamMessageChunkTypeUpdate
            MsgType := MsglogType.MsglogTypeAnswer
            Content := res.content
            Thinking := raw.thinking
            StreamID := raw.streamID }
          (cb (log ++ seg)
            { Kind := StreamMessageChunkType.StreamMessageChunkTypeUpdate
              MsgType := MsglogType.MsglogTypeAnswer
              Content := res.content
              Thinking := raw.thinking
              StreamID := raw.streamID })] := by
  obtain ⟨raw, log0, hA, hF⟩ := callWithRetries_ok env chain agent log res log1 hok
  obtain ⟨seg, hseg, _, hcases⟩ :=
    callAttempts_trace env chain agent maxRetriesToCallAgentChain [] callResult.zero log rfl
  rw [hA] at hseg hcases
  simp only at hseg
  subst hseg
  rcases hcases with ⟨raw1, fails, last, rin, h1, _, _, _, _, _, h7, _⟩ | ⟨ce, waits, h1, _⟩ |
    ⟨h1, _⟩
  · simp only [Res.ok.injEq] at h1
    subst h1
    obtain ⟨hlast, h, hh⟩ := h7 cb hcb
    have hne : raw.streamID ≠ 0 := by rw [hh]; exact hids h
    refine ⟨raw, seg, hA, hlast, hne, ?_⟩
    unfold finishCall at hF
    rw [hcb] at hF
    simp only [hne, ne_eq, not_false_eq_true, if_true] at hF
    by_cases hboth : raw.funcCalls.length > 0 ∧ ¬ raw.content = ""
    · rw [if_pos hboth] at hF
      simp only [Prod.mk.injEq] at hF
      obtain ⟨hres, hlog⟩ := hF
      subst hres
      subst hlog
      have hcalls : raw.funcCalls ≠ [] := by
        intro hnil
        rw [hnil] at hboth
        simp at hboth
      refine ⟨rfl, rfl, ?_, ?_, rfl⟩
      · exact ⟨fun _ => ⟨hboth.2, hcalls⟩, fun _ => ⟨rfl, rfl⟩⟩
      · intro hnot
        exact absurd ⟨hboth.2, hcalls⟩ hnot
    · rw [if_neg hboth] at hF
      simp only [Prod.mk.injEq] at hF
      obtain ⟨hres, hlog⟩ := hF
      subst hres
      subst hlog
      have hnot : ¬ (raw.content ≠ "" ∧ raw.funcCalls ≠ []) := by
        rintro ⟨hc, hf⟩
        apply hboth
        refine ⟨?_, hc⟩
        exact List.length_pos.2 hf
      refine ⟨rfl, rfl, ?_, ?_, rfl⟩
      · exact ⟨fun h => absurd h.1 hne, fun h => absurd h hnot⟩
      · intro _
        exact ⟨rfl, rfl⟩
  · simp at h1
  · simp at h1

theorem callWithRetries_clears_stream_id_witness :
    (callWithRetries streamEnv [] primaryAgent []).1 =
      Res.ok { streamID := 0, funcCalls := [mkCall "c1" "search" "q"], info := none,
               thinking := "", content := "hi" } ∧
    ∃ raw seg,
      callAttempts streamEnv [] primaryAgent maxRetriesToCallAgentChain [] callResult.zero [] =
        (Res.ok raw, [] ++ seg) ∧
      (assignedIDs seg).getLast? = some raw.streamID ∧ raw.streamID ≠ 0 ∧
      (callWithRetries streamEnv [] primaryAgent []).2 = [] ++ seg ++
        [Event.StreamCb
          { Kind := StreamMessageChunkType.StreamMessageChunkTypeUpdate
            MsgType := MsglogType.MsglogTypeAnswer
            Content := "hi"
            Thinking := raw.thinking
            StreamID := raw.streamID } none] := by
  refine ⟨by decide, ?_⟩
  obtain ⟨raw, seg, h1, h2, h3, _, _, _, _, h8⟩ :=
    callWithRetries_clears_stream_id streamEnv [] primaryAgent [] (fun _ _ => none)
      { streamID := 0, funcCalls := [mkCall "c1" "search" "q"], info := none,
        thinking := "", content := "hi" }
      (callWithRetries streamEnv [] primaryAgent []).2 rfl
      (by intro h; simp only [streamEnv, quietEnv]; omega) (by decide)
  exact ⟨raw, seg, h1, h2, h3, h8⟩

/-! ## execToolCall -/

/-- Every run of the retry loop of `execToolCall` is one of the runs of `ExecRun`. -/
theorem execAttempts_run (env : Env) (streamID : Int) (toolCallID funcName thinking : String) :
    ∀ (remaining : Nat) (err : Option GoError) (args : String) (log : Log),
      ∃ seg,
        (execAttempts env streamID toolCallID funcName thinking remaining err args log).2 =
          log ++ seg ∧
        ExecRun streamID toolCallID funcName thinking remaining err args seg
          (execAttempts env streamID toolCallID funcName thinking remaining err args log).1 := by
  intro remaining
  induction remaining with
  | zero =>
    intro err args log
    exact ⟨[], by simp [execAttempts], by simp only [execAttempts]; exact ExecRun.exhausted err args⟩
  | succ n ih =>
    intro err args log
    cases hres : env.Execute log streamID toolCallID funcName thinking args with
    | ok response =>
      refine ⟨[Event.Execute streamID toolCallID funcName thinking args (Res.ok response)], ?_, ?_⟩
      · simp only [execAttempts, hres]
      · simp only [execAttempts, hres]
        exact ExecRun.success n err args response
    | err e =>
      cases hc : e.IsCanceled with
      | true =>
        refine ⟨[Event.Execute streamID toolCallID funcName thinking args (Res.err e)], ?_, ?_⟩
        · simp only [execAttempts, hres, hc, if_true]
        · simp only [execAttempts, hres, hc, if_true]
          exact ExecRun.canceled n err args e hc
      | false =>
        cases hs : env.GetToolSchema
            (log ++ [Event.Execute streamID toolCallID funcName thinking args (Res.err e)])
            funcName with
        | err se =>
          refine ⟨[Event.Execute streamID toolCallID funcName thinking args (Res.err e),
            Event.GetToolSchema funcName (Res.err se)], ?_, ?_⟩
          · simp only [execAttempts, hres, hc, hs]
            simp
          · simp only [execAttempts, hres, hc, hs]
            exact ExecRun.noSchema n err args e se hc
        | ok schema =>
          cases hf : env.fixToolCallArgs
              (log ++ [Event.Execute streamID toolCallID funcName thinking args (Res.err e)] ++
                [Event.GetToolSchema funcName (Res.ok schema)])
              funcName args schema e with
          | err fe =>
            refine ⟨[Event.Execute streamID toolCallID funcName thinking args (Res.err e),
              Event.GetToolSchema funcName (Res.ok schema),
              Event.FixToolCallArgs funcName args schema e (Res.err fe)], ?_, ?_⟩
            · simp only [execAttempts, hres, hc, hs, hf]
              simp
            · simp only [execAttempts, hres, hc, hs, hf]
              exact ExecRun.noRepair n err args schema e fe hc
          | ok repaired =>
            obtain ⟨seg, h1, h2⟩ := ih (some e) repaired
              (log ++ [Event.Execute streamID toolCallID funcName thinking args (Res.err e)] ++
                [Event.GetToolSchema funcName (Res.ok schema)] ++
                [Event.FixToolCallArgs funcName args schema e (Res.ok repaired)])
            refine ⟨Event.Execute streamID toolCallID funcName thinking args (Res.err e) ::
              Event.GetToolSchema funcName (Res.ok schema) ::
              Event.FixToolCallArgs funcName args schema e (Res.ok repaired) :: seg, ?_, ?_⟩
            · simp only [execAttempts, hres, hc, hs, hf, Bool.false_eq_true, if_false]
              rw [h1]
              simp
            · simp only [execAttempts, hres, hc, hs, hf, Bool.false_eq_true, if_false]
              exact ExecRun.again n err args schema repaired e seg _ hc h2

theorem ExecRun_count {streamID : Int} {id funcName thinking : String} {n : Nat}
    {err : Option GoError} {args : String} {seg : List Event} {out : String × Option GoError}
    (h : ExecRun streamID id funcName thinking n err args seg out) :
    (executeResults seg).length ≤ n := by
  induction h with
  | exhausted err args => simp [executeResults]
  | success n err args response => simp [executeResults]
  | canceled n err args e hc => simp [executeResults]
  | noSchema n err args e se hc => simp [executeResults]
  | noRepair n err args schema e fe hc => simp [executeResults]
  | again n err args schema repaired e rest out hc h ih =>
    simp only [executeResults, List.filterMap_cons] at ih ⊢
    simp only [List.length_cons]
    omega

theorem ExecRun_threaded {streamID : Int} {id funcName thinking : String} {n : Nat}
    {err : Option GoError} {args : String} {seg : List Event} {out : String × Option GoError}
    (h : ExecRun streamID id funcName thinking n err args seg out) :
    ArgsThreaded funcName args seg := by
  induction h with
  | exhausted err args => exact ArgsThreaded.done args
  | success n err args response => exact ArgsThreaded.last args _ _ _ _
  | canceled n err args e hc => exact ArgsThreaded.last args _ _ _ _
  | noSchema n err args e se hc => exact ArgsThreaded.noSchema args _ _ _ e se
  | noRepair n err args schema e fe hc => exact ArgsThreaded.noRepair args _ _ _ schema e fe
  | again n err args schema repaired e rest out hc h ih =>
    exact ArgsThreaded.again args _ _ _ schema repaired e rest ih

theorem ExecRun_first {streamID : Int} {id funcName thinking : String} {n : Nat}
    {err : Option GoError} {args : String} {seg : List Event} {out : String × Option GoError}
    (h : ExecRun streamID id funcName thinking (n + 1) err args seg out) :
    ∃ res rest, seg = Event.Execute streamID id funcName thinking args res :: rest := by
  cases h with
  | success => exact ⟨_, _, rfl⟩
  | canceled => exact ⟨_, _, rfl⟩
  | noSchema => exact ⟨_, _, rfl⟩
  | noRepair => exact ⟨_, _, rfl⟩
  | again => exact ⟨_, _, rfl⟩

/-- A cancelled `Execute` is the last event of the run and its error is returned as it is. -/
theorem ExecRun_cancel {streamID : Int} {id funcName thinking : String} {n : Nat}
    {err : Option GoError} {args : String} {seg : List Event} {out : String × Option GoError}
    (h : ExecRun streamID id funcName thinking n err args seg out) :
    ∀ (pre post : List Event) (sid : Int) (tid name th a : String) (e : GoError),
      seg = pre ++ Event.Execute sid tid name th a (Res.err e) :: post →
      e.IsCanceled = true → post = [] ∧ out = ("", some e) := by
  induction h with
  | exhausted err args =>
    intro pre post sid tid name th a e hsplit _
    simp at hsplit
  | success n err args response =>
    intro pre post sid tid name th a e hsplit _
    rcases pre with _ | ⟨x, pre⟩ <;> simp at hsplit
  | canceled n err args e0 hc =>
    intro pre post sid tid name th a e hsplit _
    rcases pre with _ | ⟨x, pre⟩
    · simp at hsplit
      obtain ⟨⟨_, _, _, _, _, he⟩, hpost⟩ := hsplit
      subst he
      exact ⟨hpost, rfl⟩
    · simp at hsplit
  | noSchema n err args e0 se hc =>
    intro pre post sid tid name th a e hsplit hcanc
    rcases pre with _ | ⟨x, _ | ⟨y, pre⟩⟩
    · simp at hsplit
      obtain ⟨⟨_, _, _, _, _, he⟩, _⟩ := hsplit
      subst he
      rw [hc] at hcanc
      cases hcanc
    · simp at hsplit
    · simp at hsplit
  | noRepair n err args schema e0 fe hc =>
    intro pre post sid tid name th a e hsplit hcanc
    rcases pre with _ | ⟨x, _ | ⟨y, _ | ⟨z, pre⟩⟩⟩
    · simp at hsplit
      obtain ⟨⟨_, _, _, _, _, he⟩, _⟩ := hsplit
      subst he
      rw [hc] at hcanc
      cases hcanc
    · simp at hsplit
    · simp at hsplit
    · simp at hsplit
  | again n err args schema repaired e0 rest out hc h ih =>
    intro pre post sid tid name th a e hsplit hcanc
    rcases pre with _ | ⟨x, _ | ⟨y, _ | ⟨z, pre⟩⟩⟩
    · simp at hsplit
      obtain ⟨⟨_, _, _, _, _, he⟩, _⟩ := hsplit
      subst he
      rw [hc] at hcanc
      cases hcanc
    · simp at hsplit
    · simp at hsplit
    · simp only [List.cons_append, List.cons.injEq] at hsplit
      exact ih pre post sid tid name th a e hsplit.2.2.2 hcanc

/-- What a run of the retry loop leaves in the log besides executor and repair calls: nothing.
A run that returns no error holds one observation, the one returned. -/
theorem ExecRun_projections {streamID : Int} {id funcName thinking : String} {n : Nat}
    {err : Option GoError} {args : String} {seg : List Event} {out : String × Option GoError}
    (h : ExecRun streamID id funcName thinking n err args seg out) :
    detectedCalls seg = [] ∧ chainWrites seg = [] ∧ (∀ e ∈ seg, isToolEvent e = true) ∧
      (out.2 = none → observations seg = [out.1]) := by
  induction h with
  | exhausted err args => simp [detectedCalls, chainWrites, observations]
  | success n err args response => simp [detectedCalls, chainWrites, observations, isToolEvent]
  | canceled n err args e hc => simp [detectedCalls, chainWrites, observations, isToolEvent]
  | noSchema n err args e se hc => simp [detectedCalls, chainWrites, observations, isToolEvent]
  | noRepair n err args schema e fe hc =>
    simp [detectedCalls, chainWrites, observations, isToolEvent]
  | again n err args schema repaired e rest out hc h ih =>
    obtain ⟨h1, h2, h3, h4⟩ := ih
    simp only [detectedCalls, chainWrites, observations, List.filterMap_cons] at h1 h2 h4 ⊢
    refine ⟨h1, h2, ?_, h4⟩
    intro ev hev
    simp only [List.mem_cons] at hev
    rcases hev with hev | hev | hev | hev
    · subst hev; rfl
    · subst hev; rfl
    · subst hev; rfl
    · exact h3 ev hev

/-- A run in which every attempt is followed by a repair that succeeds uses up the retries and
returns the error that names the function and wraps the error of the last `Execute`. -/
theorem ExecRun_exhaust {streamID : Int} {id funcName thinking : String} {n : Nat}
    {err : Option GoError} {args : String} {seg : List Event} {out : String × Option GoError}
    (h : ExecRun streamID id funcName thinking n err args seg out) :
    ∀ repairs : List String, fixResults seg = repairs.map Res.ok → repairs.length = n →
      out = ("", some (retriesError funcName (lastExecuteError err seg))) := by
  induction h with
  | exhausted err args =>
    intro repairs _ _
    simp [lastExecuteError, executeResults]
  | success n err args response =>
    intro repairs hfix hlen
    simp only [fixResults, List.filterMap_cons, List.filterMap_nil] at hfix
    rcases repairs with _ | ⟨r, rs⟩
    · simp at hlen
    · simp at hfix
  | canceled n err args e hc =>
    intro repairs hfix hlen
    simp only [fixResults, List.filterMap_cons, List.filterMap_nil] at hfix
    rcases repairs with _ | ⟨r, rs⟩
    · simp at hlen
    · simp at hfix
  | noSchema n err args e se hc =>
    intro repairs hfix hlen
    simp only [fixResults, List.filterMap_cons, List.filterMap_nil] at hfix
    rcases repairs with _ | ⟨r, rs⟩
    · simp at hlen
    · simp at hfix
  | noRepair n err args schema e fe hc =>
    intro repairs hfix hlen
    simp only [fixResults, List.filterMap_cons, List.filterMap_nil] at hfix
    rcases repairs with _ | ⟨r, rs⟩
    · simp at hlen
    · simp at hfix
  | again n err args schema repaired e rest out hc h ih =>
    intro repairs hfix hlen
    simp only [fixResults, List.filterMap_cons] at hfix ih
    rcases repairs with _ | ⟨r, rs⟩
    · simp at hlen
    · simp only [List.map_cons, List.cons.injEq] at hfix
      have hrec := ih rs hfix.2 (by simpa using hlen)
      rw [hrec]
      have hlast : lastExecuteError err
          (Event.Execute streamID id funcName thinking args (Res.err e) ::
            Event.GetToolSchema funcName (Res.ok schema) ::
            Event.FixToolCallArgs funcName args schema e (Res.ok repaired) :: rest) =
          lastExecuteError (some e) rest := by
        simp only [lastExecuteError, executeResults, List.filterMap_cons]
        cases hr : List.filterMap (fun e =>
            match e with
            | Event.Execute _ _ _ _ _ res => some res
            | _ => none) rest with
        | nil => simp
        | cons x xs =>
          rw [List.getLast?_cons_cons]
          cases hg : (x :: xs).getLast? with
          | none => simp at hg
          | some v => cases v <;> rfl
      rw [hlast]

/-- A run that starts with a refused `Execute`, a schema lookup and a repair that succeed and
a second `Execute` that succeeds consists of exactly these four calls. -/
theorem ExecRun_repair_once {streamID : Int} {id funcName thinking : String} {n : Nat}
    {err : Option GoError} {args : String} {seg : List Event} {out : String × Option GoError}
    (h : ExecRun streamID id funcName thinking (n + 2) err args seg out)
    (e1 : GoError) (obs schema repaired : String)
    (hE : executeResults seg <+: [Res.err e1, Res.ok obs]) (hc : e1.IsCanceled = false)
    (hS : schemaResults seg <+: [Res.ok schema]) (hF : fixResults seg <+: [Res.ok repaired]) :
    out = (obs, none) ∧
    seg = [Event.Execute streamID id funcName thinking args (Res.err e1),
      Event.GetToolSchema funcName (Res.ok schema),
      Event.FixToolCallArgs funcName args schema e1 (Res.ok repaired),
      Event.Execute streamID id funcName thinking repaired (Res.ok obs)] := by
  cases h with
  | success n err args response =>
    simp [executeResults, List.cons_prefix_cons] at hE
  | canceled n err args e hcanc =>
    simp [executeResults, List.cons_prefix_cons] at hE
    subst hE
    rw [hc] at hcanc
    cases hcanc
  | noSchema n err args e se hc1 =>
    simp [schemaResults, List.cons_prefix_cons] at hS
  | noRepair n err args schema1 e fe hc1 =>
    simp [fixResults, List.cons_prefix_cons] at hF
  | again n err args schema1 repaired1 e rest out hc1 h1 =>
    simp only [executeResults, schemaResults, fixResults, List.filterMap_cons,
      List.cons_prefix_cons, Res.err.injEq, Res.ok.injEq] at hE hS hF
    obtain ⟨he, hE1⟩ := hE
    obtain ⟨hs, hS1⟩ := hS
    obtain ⟨hf, hF1⟩ := hF
    subst he hs hf
    cases h1 with
    | success n err args response =>
      simp [List.cons_prefix_cons] at hE1
      subst hE1
      exact ⟨rfl, rfl⟩
    | canceled n err args e hcanc =>
      simp [List.cons_prefix_cons] at hE1
    | noSchema n err args e se hc1 =>
      simp [List.cons_prefix_cons] at hE1
    | noRepair n err args schema1 e fe hc1 =>
      simp [List.cons_prefix_cons] at hE1
    | again n err args schema1 repaired1 e rest out hc1 h1 =>
      simp [List.cons_prefix_cons] at hE1

/-- The two ways `execToolCall` goes for a tool call that is in range and has a function
call: the advisory text when the detector flags it, the retry loop otherwise. -/
theorem execToolCall_eq (env : Env) (chainID : Int) (idx : Nat) (result : callResult)
    (seen : List ToolCall) (log : Log) (toolCall : ToolCall) (fc : FunctionCall)
    (hget : result.funcCalls.get? idx = some toolCall) (hfc : toolCall.FunctionCall = some fc) :
    execToolCall env chainID idx result seen log =
      if env.detect seen toolCall = true then
        some ((repeatingAdvice fc.Name, none), seen ++ [toolCall],
          log ++ [Event.Detect toolCall true])
      else
        some ((execAttempts env (if idx = 0 then result.streamID else 0) toolCall.ID fc.Name
            (if idx = 0 then result.thinking else "") maxRetriesToCallFunction none fc.Arguments
            (log ++ [Event.Detect toolCall false])).1, seen ++ [toolCall],
          (execAttempts env (if idx = 0 then result.streamID else 0) toolCall.ID fc.Name
            (if idx = 0 then result.thinking else "") maxRetriesToCallFunction none fc.Arguments
            (log ++ [Event.Detect toolCall false])).2) := by
  unfold execToolCall
  simp only [hget, hfc]
  cases hd : env.detect seen toolCall with
  | true => simp [repeatingAdvice]
  | false => simp

/-- One run of `execToolCall` for a tool call that is in range and has a function call: the
detector is asked first, and what follows is a run of the retry loop unless the detector
flags the call. -/
theorem execToolCall_run (env : Env) (chainID : Int) (idx : Nat) (result : callResult)
    (seen : List ToolCall) (log : Log) (toolCall : ToolCall) (fc : FunctionCall)
    (hget : result.funcCalls.get? idx = some toolCall) (hfc : toolCall.FunctionCall = some fc) :
    ∃ out rest,
      execToolCall env chainID idx result seen log =
        some (out, seen ++ [toolCall],
          log ++ Event.Detect toolCall (env.detect seen toolCall) :: rest) ∧
      (env.detect seen toolCall = true → out = (repeatingAdvice fc.Name, none) ∧ rest = []) ∧
      (env.detect seen toolCall = false →
        ExecRun (if idx = 0 then result.streamID else 0) toolCall.ID fc.Name
          (if idx = 0 then result.thinking else "") maxRetriesToCallFunction none fc.Arguments
          rest out) := by
  rw [execToolCall_eq env chainID idx result seen log toolCall fc hget hfc]
  cases hd : env.detect seen toolCall with
  | true =>
    refine ⟨_, [], by simp, fun _ => ⟨rfl, rfl⟩, ?_⟩
    intro h
    cases h
  | false =>
    obtain ⟨seg, h1, h2⟩ := execAttempts_run env (if idx = 0 then result.streamID else 0)
      toolCall.ID fc.Name (if idx = 0 then result.thinking else "") maxRetriesToCallFunction none
      fc.Arguments (log ++ [Event.Detect toolCall false])
    refine ⟨_, seg, ?_, ?_, fun _ => h2⟩
    · simp only [Bool.false_eq_true, if_false]
      rw [h1]
      simp
    · intro h
      cases h

/-! ## Claims about execToolCall -/

/-- C3: for a tool call (in range, with a function call) the detector is consulted before any
other collaborator; when it answers true, `execToolCall` returns the text
`tool call '<function-name>' is repeating, please try another tool` with a nil error and the
only event added to the log is the consultation of the detector: no call to `Execute`,
`GetToolSchema` or `fixToolCallArgs`. -/
theorem execToolCall_repeating (env : Env) (chainID : Int) (idx : Nat) (result : callResult)
    (seen : List ToolCall) (log : Log) (toolCall : ToolCall) (fc : FunctionCall)
    (hget : result.funcCalls.get? idx = some toolCall) (hfc : toolCall.FunctionCall = some fc) :
    ∃ out rest,
      execToolCall env chainID idx result seen log =
        some (out, seen ++ [toolCall],
          log ++ Event.Detect toolCall (env.detect seen toolCall) :: rest) ∧
      detectedCalls rest = [] ∧
      (env.detect seen toolCall = true →
        out = ("tool call \x27" ++ fc.Name ++ "\x27 is repeating, please try another tool", none) ∧
        rest = [] ∧ executeResults rest = [] ∧ schemaResults rest = [] ∧ fixResults rest = []) := by
  obtain ⟨out, rest, h1, h2, h3⟩ :=
    execToolCall_run env chainID idx result seen log toolCall fc hget hfc
  refine ⟨out, rest, h1, ?_, ?_⟩
  · cases hd : env.detect seen toolCall with
    | true =>
      rw [(h2 hd).2]
      rfl
    | false => exact (ExecRun_projections (h3 hd)).1
  · intro hd
    obtain ⟨g1, g2⟩ := h2 hd
    subst g2
    exact ⟨g1, rfl, rfl, rfl, rfl⟩

theorem execToolCall_repeating_witness :
    execToolCall repeatingEnv 7 0 oneCallResult [] [] =
      some (("tool call \x27search\x27 is repeating, please try another tool", none),
        [mkCall "c1" "search" "q"], [Event.Detect (mkCall "c1" "search" "q") true]) := by
  obtain ⟨out, rest, h1, _, h3⟩ := execToolCall_repeating repeatingEnv 7 0 oneCallResult [] []
    (mkCall "c1" "search" "q") { Name := "search", Arguments := "q" } rfl rfl
  obtain ⟨g1, g2, _⟩ := h3 rfl
  rw [h1, g1, g2]
  rfl

/-- C4, as the claim words it, fails: three `Execute` attempts fail with errors that are not
cancellations, the third repair fails, and the error returned is that of the repair; it
neither names the function nor wraps the error of the last `Execute`. -/
theorem execToolCall_exhaust_counterexample :
    ∃ out seen log,
      execToolCall repairFailsEnv 7 0 oneCallResult [] [] = some (out, seen, log) ∧
      executeResults log =
        [Res.err (GoError.New "bad arguments q"), Res.err (GoError.New "bad arguments q+"),
          Res.err (GoError.New "bad arguments q++")] ∧
      out = ("", some (GoError.Wrap "failed to fix tool call args: "
        (GoError.New "cannot repair"))) ∧
      (GoError.New "bad arguments q++").IsCanceled = false ∧
      out.2 ≠ some (retriesError "search" (some (GoError.New "bad arguments q++"))) := by
  refine ⟨_, _, _, rfl, ?_, ?_, ?_, ?_⟩ <;> decide

/-- C4 (amended): `execToolCall` calls `Execute` at most 3 times; and whenever 3 `Execute`
attempts have all failed and each of them, the third included, was followed by a schema
lookup and a repair that succeeded, `execToolCall` returns an empty observation and the error
`failed to exec function '<function-name>': reached max retries to call function: ` wrapping
the error of the last `Execute`. -/
theorem execToolCall_exhaust (env : Env) (chainID : Int) (idx : Nat) (result : callResult)
    (seen : List ToolCall) (log : Log) (toolCall : ToolCall) (fc : FunctionCall)
    (hget : result.funcCalls.get? idx = some toolCall) (hfc : toolCall.FunctionCall = some fc) :
    ∃ out seg,
      execToolCall env chainID idx result seen log = some (out, seen ++ [toolCall], log ++ seg) ∧
      (executeResults seg).length ≤ 3 ∧
      (∀ e1 e2 e3 s1 s2 s3 a1 a2 a3,
        executeResults seg = [Res.err e1, Res.err e2, Res.err e3] →
        schemaResults seg = [Res.ok s1, Res.ok s2, Res.ok s3] →
        fixResults seg = [Res.ok a1, Res.ok a2, Res.ok a3] →
        out = ("", some (GoError.Wrap ("failed to exec function \x27" ++ fc.Name ++ "\x27: ")
          (GoError.Wrap "reached max retries to call function: " e3)))) := by
  obtain ⟨out, rest, h1, h2, h3⟩ :=
    execToolCall_run env chainID idx result seen log toolCall fc hget hfc
  refine ⟨out, Event.Detect toolCall (env.detect seen toolCall) :: rest, h1, ?_, ?_⟩
  · cases hd : env.detect seen toolCall with
    | true =>
      rw [(h2 hd).2]
      simp [executeResults]
    | false =>
      have := ExecRun_count (h3 hd)
      simpa [executeResults, maxRetriesToCallFunction] using this
  · intro e1 e2 e3 s1 s2 s3 a1 a2 a3 hE _ hF
    cases hd : env.detect seen toolCall with
    | true =>
      rw [(h2 hd).2] at hE
      simp [executeResults] at hE
    | false =>
      have hE1 : executeResults rest = [Res.err e1, Res.err e2, Res.err e3] := by
        simpa [executeResults] using hE
      have hF1 : fixResults rest = [a1, a2, a3].map Res.ok := by
        simpa [fixResults] using hF
      rw [ExecRun_exhaust (h3 hd) [a1, a2, a3] hF1 rfl]
      simp [lastExecuteError, hE1, retriesError]

theorem execToolCall_exhaust_witness :
    (execToolCall alwaysFailsEnv 7 0 oneCallResult [] []).map (fun r => r.1) =
      some ("", some (GoError.Wrap "failed to exec function \x27search\x27: "
          (GoError.Wrap "reached max retries to call function: "
            (GoError.New "bad arguments q++")))) := by
  obtain ⟨out, seg, h1, _, h3⟩ := execToolCall_exhaust alwaysFailsEnv 7 0 oneCallResult [] []
    (mkCall "c1" "search" "q") { Name := "search", Arguments := "q" } rfl rfl
  have hlog : seg = ((execToolCall alwaysFailsEnv 7 0 oneCallResult [] []).map
      (fun r => r.2.2)).getD [] := by
    rw [h1]
    rfl
  have hout := h3 (GoError.New "bad arguments q") (GoError.New "bad arguments q+")
    (GoError.New "bad arguments q++") "schema" "schema" "schema" "q+" "q++" "q+++"
    (by rw [hlog]; decide) (by rw [hlog]; decide) (by rw [hlog]; decide)
  rw [h1, hout]
  rfl

/-- C5: in a run of `execToolCall` the executor and repair calls that follow the consultation
of the detector are threaded as `ArgsThreaded` says: the first `Execute` receives the
original argument blob of the tool call, the repair is given the arguments of the `Execute`
that failed, the schema found and the error of that `Execute`, and the next `Execute`
receives exactly what the repair returned. In particular, when the answers of the executor are
a first `Execute` that fails without cancellation and a second that succeeds, and those of
the schema lookup and of the repair are successes, `execToolCall` returns the observation of
the second attempt with a nil error after exactly one `GetToolSchema` and one
`fixToolCallArgs`. -/
theorem execToolCall_threads_arguments (env : Env) (chainID : Int) (idx : Nat)
    (result : callResult) (seen : List ToolCall) (log : Log) (toolCall : ToolCall)
    (fc : FunctionCall)
    (hget : result.funcCalls.get? idx = some toolCall) (hfc : toolCall.FunctionCall = some fc) :
    ∃ out rest,
      execToolCall env chainID idx result seen log =
        some (out, seen ++ [toolCall],
          log ++ Event.Detect toolCall (env.detect seen toolCall) :: rest) ∧
      ArgsThreaded fc.Name fc.Arguments rest ∧
      (env.detect seen toolCall = false →
        ∃ sid th res rest1,
          rest = Event.Execute sid toolCall.ID fc.Name th fc.Arguments res :: rest1) ∧
      (∀ (e1 : GoError) (obs schema repaired : String),
        env.detect seen toolCall = false →
        executeResults rest <+: [Res.err e1, Res.ok obs] → e1.IsCanceled = false →
        schemaResults rest <+: [Res.ok schema] → fixResults rest <+: [Res.ok repaired] →
        out = (obs, none) ∧ executeResults rest = [Res.err e1, Res.ok obs] ∧
        schemaResults rest = [Res.ok schema] ∧ fixResults rest = [Res.ok repaired]) := by
  obtain ⟨out, rest, h1, h2, h3⟩ :=
    execToolCall_run env chainID idx result seen log toolCall fc hget hfc
  refine ⟨out, rest, h1, ?_, ?_, ?_⟩
  · cases hd : env.detect seen toolCall with
    | true =>
      rw [(h2 hd).2]
      exact ArgsThreaded.done _
    | false => exact ExecRun_threaded (h3 hd)
  · intro hd
    have hrun : ExecRun (if idx = 0 then result.streamID else 0) toolCall.ID fc.Name
        (if idx = 0 then result.thinking else "") (2 + 1) none fc.Arguments rest out := h3 hd
    obtain ⟨res, rest1, hrest⟩ := ExecRun_first hrun
    exact ⟨_, _, res, rest1, hrest⟩
  · intro e1 obs schema repaired hd hE hc hS hF
    have hrun : ExecRun (if idx = 0 then result.streamID else 0) toolCall.ID fc.Name
        (if idx = 0 then result.thinking else "") (1 + 2) none fc.Arguments rest out := h3 hd
    obtain ⟨g1, g2⟩ := ExecRun_repair_once hrun e1 obs schema repaired hE hc hS hF
    refine ⟨g1, ?_, ?_, ?_⟩ <;> rw [g2] <;> rfl

theorem execToolCall_threads_arguments_witness :
    (execToolCall repairEnv 7 0 oneCallResult [] []).map (fun r => (r.1, r.2.2)) =
      some (("found q+", none),
        [Event.Detect (mkCall "c1" "search" "q") false,
         Event.Execute 5 "c1" "search" "why" "q" (Res.err (GoError.New "schema violation")),
         Event.GetToolSchema "search" (Res.ok "schema"),
         Event.FixToolCallArgs "search" "q" "schema" (GoError.New "schema violation")
           (Res.ok "q+"),
         Event.Execute 5 "c1" "search" "why" "q+" (Res.ok "found q+")]) := by
  obtain ⟨out, rest, h1, _, _, h4⟩ := execToolCall_threads_arguments repairEnv 7 0 oneCallResult
    [] [] (mkCall "c1" "search" "q") { Name := "search", Arguments := "q" } rfl rfl
  have hlog : rest = (((execToolCall repairEnv 7 0 oneCallResult [] []).map
      (fun r => r.2.2)).getD []).tail := by
    rw [h1]
    rfl
  obtain ⟨g1, _⟩ := h4 (GoError.New "schema violation") "found q+" "schema" "q+" rfl
    (by rw [hlog]; decide) rfl (by rw [hlog]; decide) (by rw [hlog]; decide)
  have hrest : rest =
      [Event.Execute 5 "c1" "search" "why" "q" (Res.err (GoError.New "schema violation")),
       Event.GetToolSchema "search" (Res.ok "schema"),
       Event.FixToolCallArgs "search" "q" "schema" (GoError.New "schema violation")
         (Res.ok "q+"),
       Event.Execute 5 "c1" "search" "why" "q+" (Res.ok "found q+")] := by
    rw [hlog]
    decide
  rw [h1, g1, hrest]
  rfl

/-- C6: when an `Execute` made by `execToolCall` returns an error that is `context.Canceled`
(also wrapped), that call is the last event of the run, so no further `Execute`, no
`GetToolSchema` and no `fixToolCallArgs` follows, and `execToolCall` returns an empty
observation and that same error, not wrapped. -/
theorem execToolCall_cancel (env : Env) (chainID : Int) (idx : Nat) (result : callResult)
    (seen : List ToolCall) (log : Log) (toolCall : ToolCall) (fc : FunctionCall)
    (hget : result.funcCalls.get? idx = some toolCall) (hfc : toolCall.FunctionCall = some fc) :
    ∃ out seg,
      execToolCall env chainID idx result seen log = some (out, seen ++ [toolCall], log ++ seg) ∧
      ∀ (pre post : List Event) (sid : Int) (tid name th a : String) (e : GoError),
        seg = pre ++ Event.Execute sid tid name th a (Res.err e) :: post →
        e.IsCanceled = true → post = [] ∧ out = ("", some e) := by
  obtain ⟨out, rest, h1, h2, h3⟩ :=
    execToolCall_run env chainID idx result seen log toolCall fc hget hfc
  refine ⟨out, Event.Detect toolCall (env.detect seen toolCall) :: rest, h1, ?_⟩
  intro pre post sid tid name th a e hsplit hcanc
  rcases pre with _ | ⟨x, pre⟩
  · simp at hsplit
  · simp only [List.cons_append, List.cons.injEq] at hsplit
    cases hd : env.detect seen toolCall with
    | true =>
      rw [(h2 hd).2] at hsplit
      simp at hsplit
    | false =>
      exact ExecRun_cancel (h3 hd) pre post sid tid name th a e hsplit.2 hcanc

theorem execToolCall_cancel_witness :
    (execToolCall cancelEnv 7 0 oneCallResult [] []).map (fun r => r.1) =
      some ("", some (GoError.Wrap "execute: " GoError.Canceled)) := by
  obtain ⟨out, seg, h1, h2⟩ := execToolCall_cancel cancelEnv 7 0 oneCallResult [] []
    (mkCall "c1" "search" "q") { Name := "search", Arguments := "q" } rfl rfl
  have hlog : seg = ((execToolCall cancelEnv 7 0 oneCallResult [] []).map
      (fun r => r.2.2)).getD [] := by
    rw [h1]
    rfl
  obtain ⟨_, g2⟩ := h2
    [Event.Detect (mkCall "c1" "search" "q") false,
     Event.Execute 5 "c1" "search" "why" "q" (Res.err (GoError.New "schema violation")),
     Event.GetToolSchema "search" (Res.ok "schema"),
     Event.FixToolCallArgs "search" "q" "schema" (GoError.New "schema violation") (Res.ok "q+")]
    [] 5 "c1" "search" "why" "q+" (GoError.Wrap "execute: " GoError.Canceled)
    (by rw [hlog]; decide) rfl
  rw [h1, g2]
  rfl

/-! ## The tool phase of performAgentChain -/

theorem updateMsgChain_ok (env : Env) (chainID : Int) (chain : Chain) (log log1 : Log)
    (h : updateMsgChain env chainID chain log = (none, log1)) :
    ∃ blob, env.jsonMarshal chain = Res.ok blob ∧
      log1 = log ++ [Event.UpdateMsgChain chainID blob none] := by
  unfold updateMsgChain at h
  cases hm : env.jsonMarshal chain with
  | err e =>
    rw [hm] at h
    simp at h
  | ok blob =>
    rw [hm] at h
    simp only at h
    cases hdb : env.dbUpdateMsgChain log chainID blob with
    | some e =>
      rw [hdb] at h
      simp at h
    | none =>
      rw [hdb] at h
      simp only [Prod.mk.injEq, true_and] at h
      exact ⟨blob, rfl, h.symm⟩

theorem drop_eq_cons {α : Type} (l : List α) (idx : Nat) (a : α) (rest : List α)
    (h : l.drop idx = a :: rest) : l.get? idx = some a ∧ l.drop (idx + 1) = rest := by
  induction l generalizing idx with
  | nil => simp at h
  | cons x xs ih =>
    cases idx with
    | zero =>
      simp at h
      simp [h.1, h.2]
    | succ k =>
      simp at h
      have := ih k h
      simpa using this

/-- What one run of `execToolCall` that returns no error leaves in the log: the consultation
of the detector, one observation (the one returned), no chain write and only events of the
executor. -/
theorem execToolCall_ok (env : Env) (chainID : Int) (idx : Nat) (result : callResult)
    (seen : List ToolCall) (log : Log) (toolCall : ToolCall) (fc : FunctionCall)
    (hget : result.funcCalls.get? idx = some toolCall) (hfc : toolCall.FunctionCall = some fc) :
    ∃ out seg,
      execToolCall env chainID idx result seen log = some (out, seen ++ [toolCall], log ++ seg) ∧
      detectedCalls seg = [toolCall] ∧ chainWrites seg = [] ∧
      (∀ e ∈ seg, isToolEvent e = true) ∧
      (out.2 = none → observations seg = [out.1]) := by
  obtain ⟨out, rest, h1, h2, h3⟩ :=
    execToolCall_run env chainID idx result seen log toolCall fc hget hfc
  refine ⟨out, Event.Detect toolCall (env.detect seen toolCall) :: rest, h1, ?_⟩
  cases hd : env.detect seen toolCall with
  | true =>
    obtain ⟨g1, g2⟩ := h2 hd
    subst g2
    subst g1
    refine ⟨rfl, rfl, ?_, ?_⟩
    · intro e he
      simp only [List.mem_singleton] at he
      subst he
      rfl
    · intro _
      simp [observations, hfc]
  | false =>
    obtain ⟨p1, p2, p3, p4⟩ := ExecRun_projections (h3 hd)
    refine ⟨?_, ?_, ?_, ?_⟩
    · simp only [detectedCalls, List.filterMap_cons] at p1 ⊢
      rw [p1]
    · simp only [chainWrites, List.filterMap_cons] at p2 ⊢
      exact p2
    · intro e he
      rcases List.mem_cons.1 he with h | h
      · subst h; rfl
      · exact p3 e h
    · intro hnone
      have := p4 hnone
      simp only [observations, List.filterMap_cons] at this ⊢
      exact this

theorem toolMessages_cons (c : ToolCall) (cs : List ToolCall) (o : String) (os : List String) :
    toolMessages (c :: cs) (o :: os) = toolMessage c (funcNameOf c) o :: toolMessages cs os := rfl

/-- The loop over the tool calls when it ends without error: every tool call is handed to
`execToolCall` in order, one tool message per call is appended and every chain reached is
written. -/
theorem toolLoop_ok (env : Env) (chainID : Int) (result : callResult) :
    ∀ (calls : List ToolCall) (idx : Nat) (st st1 : toolState),
      result.funcCalls.drop idx = calls →
      (∀ c ∈ calls, c.FunctionCall.isSome = true) →
      toolLoop env chainID result idx calls st = some (none, st1) →
      ∃ seg, st1.log = st.log ++ seg ∧
        detectedCalls seg = calls ∧
        (observations seg).length = calls.length ∧
        st1.chain = st.chain ++ toolMessages calls (observations seg) ∧
        (chainWrites seg).map (fun w => (w.1, Res.ok w.2.1, w.2.2)) =
          (appendSteps st.chain (toolMessages calls (observations seg))).map
            (fun c => (chainID, env.jsonMarshal c, none)) ∧
        (∀ e ∈ seg, isToolEvent e = true) ∧
        st1.wantToStop =
          (st.wantToStop || calls.any (fun c => env.IsBarrierFunction (funcNameOf c))) := by
  intro calls
  induction calls with
  | nil =>
    intro idx st st1 _ _ h
    simp only [toolLoop, Option.some.injEq, Prod.mk.injEq, true_and] at h
    subst h
    exact ⟨[], by simp, rfl, rfl, by simp [toolMessages], by simp [chainWrites, toolMessages,
      appendSteps], by simp, by simp⟩
  | cons toolCall rest ih =>
    intro idx st st1 hdrop hsome h
    obtain ⟨hget, hdrop1⟩ := drop_eq_cons result.funcCalls idx toolCall rest hdrop
    have hs := hsome toolCall (List.mem_cons_self _ _)
    obtain ⟨fc, hfc⟩ := Option.isSome_iff_exists.1 hs
    obtain ⟨out, seg0, hrun, hd0, hw0, ht0, ho0⟩ :=
      execToolCall_ok env chainID idx result st.seen st.log toolCall fc hget hfc
    obtain ⟨response, err⟩ := out
    simp only [toolLoop, hfc, hrun] at h
    cases err with
    | some e => simp at h
    | none =>
      simp only at h
      rcases hu : updateMsgChain env chainID (st.chain ++ [toolMessage toolCall fc.Name response])
        (st.log ++ seg0) with ⟨uerr, log2⟩
      rw [hu] at h
      cases uerr with
      | some e => simp at h
      | none =>
        simp only at h
        obtain ⟨blob, hblob, hlog2⟩ := updateMsgChain_ok env chainID _ _ _ hu
        obtain ⟨seg1, g1, g2, g3, g4, g5, g6, g7⟩ := ih (idx + 1) _ st1 hdrop1
          (fun c hc => hsome c (List.mem_cons_of_mem _ hc)) h
        have hname : funcNameOf toolCall = fc.Name := by simp [funcNameOf, hfc]
        have hobs0 := ho0 rfl
        simp only at g1 g4 g5 g7 hobs0
        have hobs : observations (seg0 ++ Event.UpdateMsgChain chainID blob none :: seg1) =
            response :: observations seg1 := by
          have : observations (seg0 ++ Event.UpdateMsgChain chainID blob none :: seg1) =
              observations seg0 ++ observations seg1 := by simp [observations]
          rw [this, hobs0]
          rfl
        refine ⟨seg0 ++ Event.UpdateMsgChain chainID blob none :: seg1, ?_, ?_, ?_, ?_, ?_, ?_, ?_⟩
        · rw [g1, hlog2]
          simp
        · have : detectedCalls (seg0 ++ Event.UpdateMsgChain chainID blob none :: seg1) =
              detectedCalls seg0 ++ detectedCalls seg1 := by simp [detectedCalls]
          rw [this, hd0, g2]
          rfl
        · rw [hobs]
          simp [g3]
        · rw [hobs, toolMessages_cons, g4, hname]
          simp
        · have : chainWrites (seg0 ++ Event.UpdateMsgChain chainID blob none :: seg1) =
              chainWrites seg0 ++ (chainID, blob, none) :: chainWrites seg1 := by
            simp [chainWrites]
          rw [this, hw0, hobs, toolMessages_cons, hname]
          simp only [List.nil_append, List.map_cons, appendSteps]
          rw [g5, hblob]
        · intro e he
          simp only [List.mem_append, List.mem_cons] at he
          rcases he with he | he | he
          · exact ht0 e he
          · subst he; rfl
          · exact g6 e he
        · rw [g7]
          simp only [List.any_cons, hname]
          cases env.IsBarrierFunction fc.Name <;> cases st.wantToStop <;> simp

/-- Every tool call of a result returned by `callWithRetries` has a function call. -/
theorem callWithRetries_funcCalls (env : Env) (chain : Chain) (agent : ProviderOptionsType)
    (log : Log) (res : callResult) (log1 : Log)
    (h : callWithRetries env chain agent log = (Res.ok res, log1)) :
    ∀ c ∈ res.funcCalls, c.FunctionCall.isSome = true := by
  obtain ⟨raw, log0, hA, hF⟩ := callWithRetries_ok env chain agent log res log1 h
  obtain ⟨seg, _, _, hcases⟩ :=
    callAttempts_trace env chain agent maxRetriesToCallAgentChain [] callResult.zero log rfl
  rw [hA] at hcases
  have hfields := finishCall_fields env raw log0
  rw [hF] at hfields
  rcases hcases with ⟨raw1, fails, last, rin, h1, _, _, h4, h5, _⟩ | ⟨ce, waits, h1, _⟩ | ⟨h1, _⟩
  · simp only [Res.ok.injEq] at h1
    subst h1
    have hacc : (fillResult rin last).1 = none := by rw [h5]
    obtain ⟨r, hr, _⟩ := fillResult_ok_choices rin last hacc
    obtain ⟨_, _, g3⟩ := fillResult_fields_congr rin last raw h4 h5
    rw [hfields.1, g3 r hr]
    exact choiceCalls_isSome r.Choices
  · simp at h1
  · simp at h1

/-- A result returned by `performReflector` comes from `callWithRetries` and carries tool
calls. -/
theorem performReflectorFuel_ok (env : Env) (origin : ProviderOptionsType) (chainID : Int)
    (taskID subtaskID : Option Int) (humanMessage executionContext : String) :
    ∀ (fuel : Nat) (chain : Chain) (content : String) (iteration : Nat) (log : Log)
      (res : callResult) (log1 : Log),
      performReflectorFuel env origin chainID taskID subtaskID humanMessage executionContext
        fuel chain content iteration log = some (Res.ok res, log1) →
      res.funcCalls ≠ [] ∧ ∀ c ∈ res.funcCalls, c.FunctionCall.isSome = true := by
  intro fuel
  induction fuel with
  | zero =>
    intro chain content iteration log res log1 h
    unfold performReflectorFuel at h
    simp only at h
    split at h
    · simp at h
    · split at h
      · simp at h
      · split at h
        · simp at h
        · split at h
          · simp at h
          · rename_i result log5 hcall
            split at h
            · simp at h
            · split at h
              · simp at h
              · rename_i hlen
                simp only [Option.some.injEq, Prod.mk.injEq, Res.ok.injEq] at h
                obtain ⟨hres, _⟩ := h
                subst hres
                refine ⟨fun hnil => hlen (by rw [hnil]; rfl), ?_⟩
                exact callWithRetries_funcCalls env _ origin _ result log5 hcall
  | succ n ih =>
    intro chain content iteration log res log1 h
    unfold performReflectorFuel at h
    simp only at h
    split at h
    · simp at h
    · split at h
      · simp at h
      · split at h
        · simp at h
        · split at h
          · simp at h
          · rename_i result log5 hcall
            split at h
            · simp at h
            · split at h
              · exact ih _ _ _ _ res log1 h
              · rename_i hlen
                simp only [Option.some.injEq, Prod.mk.injEq, Res.ok.injEq] at h
                obtain ⟨hres, _⟩ := h
                subst hres
                refine ⟨fun hnil => hlen (by rw [hnil]; rfl), ?_⟩
                exact callWithRetries_funcCalls env _ origin _ result log5 hcall

/-- The result with which line 119 is reached carries tool calls, each with a function
call. -/
theorem callPhase_result (env : Env) (agent : ProviderOptionsType) (chainID : Int)
    (taskID subtaskID : Option Int) (executionContext : String) (chain : Chain) (log : Log)
    (result : callResult) (log1 : Log)
    (h : callPhase env agent chainID taskID subtaskID executionContext chain log =
      some (Sum.inr result, log1)) :
    result.funcCalls ≠ [] ∧ ∀ c ∈ result.funcCalls, c.FunctionCall.isSome = true := by
  unfold callPhase at h
  split at h
  · simp at h
  · rename_i res log0 hcall
    split at h
    · simp at h
    · split at h
      · split at h
        · simp at h
        · split at h
          · simp at h
          · simp at h
          · rename_i result1 log3 hrefl
            simp only [Option.some.injEq, Prod.mk.injEq, Sum.inr.injEq] at h
            obtain ⟨hres, _⟩ := h
            subst hres
            exact performReflectorFuel_ok env agent chainID taskID subtaskID _ _ _ _ _ _ _ _ _
              hrefl
      · rename_i hlen
        simp only [Option.some.injEq, Prod.mk.injEq, Sum.inr.injEq] at h
        obtain ⟨hres, _⟩ := h
        subst hres
        exact ⟨fun hnil => hlen (by rw [hnil]; rfl),
          callWithRetries_funcCalls env chain agent log res log0 hcall⟩

/-- The tool phase when it ends without error. -/
theorem toolPhase_ok (env : Env) (chainID : Int) (chain : Chain) (result : callResult)
    (seen : List ToolCall) (wantToStop : Bool) (log : Log) (st : toolState)
    (hsome : ∀ c ∈ result.funcCalls, c.FunctionCall.isSome = true)
    (h : toolPhase env chainID chain result seen wantToStop log = some (none, st)) :
    ∃ seg, st.log = log ++ seg ∧
      detectedCalls seg = result.funcCalls ∧
      (observations seg).length = result.funcCalls.length ∧
      st.chain = chain ++ toolCallsMessage result.funcCalls ::
        toolMessages result.funcCalls (observations seg) ∧
      (chainWrites seg).map (fun w => (w.1, Res.ok w.2.1, w.2.2)) =
        (appendSteps chain (toolCallsMessage result.funcCalls ::
          toolMessages result.funcCalls (observations seg))).map
            (fun c => (chainID, env.jsonMarshal c, none)) ∧
      (∀ e ∈ seg, isToolEvent e = true) ∧
      st.wantToStop =
        (wantToStop || result.funcCalls.any (fun c => env.IsBarrierFunction (funcNameOf c))) := by
  unfold toolPhase at h
  simp only at h
  rcases hu : updateMsgChain env chainID (chain ++ [toolCallsMessage result.funcCalls]) log with
    ⟨uerr, log1⟩
  rw [hu] at h
  cases uerr with
  | some e => simp at h
  | none =>
    simp only at h
    obtain ⟨blob, hblob, hlog1⟩ := updateMsgChain_ok env chainID _ _ _ hu
    obtain ⟨seg1, g1, g2, g3, g4, g5, g6, g7⟩ :=
      toolLoop_ok env chainID result result.funcCalls 0 _ st (by simp) hsome h
    simp only at g1 g4 g5 g7
    have hobs : observations (Event.UpdateMsgChain chainID blob none :: seg1) =
        observations seg1 := by simp [observations]
    refine ⟨Event.UpdateMsgChain chainID blob none :: seg1, ?_, ?_, ?_, ?_, ?_, ?_, g7⟩
    · rw [g1, hlog1]
      simp
    · simp only [detectedCalls, List.filterMap_cons] at g2 ⊢
      exact g2
    · rw [hobs]
      exact g3
    · rw [hobs, g4]
      simp
    · have : chainWrites (Event.UpdateMsgChain chainID blob none :: seg1) =
          (chainID, blob, none) :: chainWrites seg1 := by simp [chainWrites]
      rw [this, hobs]
      simp only [List.map_cons, appendSteps]
      rw [g5, hblob]
    · intro e he
      rcases List.mem_cons.1 he with h1 | h1
      · subst h1; rfl
      · exact g6 e h1

/-! ## The tool calls the executor ran -/

theorem detections_append (a b : Log) : detections (a ++ b) = detections a ++ detections b := by
  simp [detections]

theorem executedCalls_append (a b : Log) :
    executedCalls (a ++ b) = executedCalls a ++ executedCalls b := by
  simp [executedCalls]

theorem unflagged_append (a b : List (ToolCall × Bool)) :
    unflagged (a ++ b) = unflagged a ++ unflagged b := by
  simp [unflagged]

theorem flagsOf_fst (env : Env) :
    ∀ (calls seen : List ToolCall), (flagsOf env seen calls).map Prod.fst = calls := by
  intro calls
  induction calls with
  | nil => intro seen; rfl
  | cons c rest ih =>
    intro seen
    simp only [flagsOf, List.map_cons]
    rw [ih]

/-- When the detector flags none of the tool calls, all of them are unflagged, in order. -/
theorem unflagged_all (ds : List (ToolCall × Bool)) (h : ∀ d ∈ ds, d.2 = false) :
    unflagged ds = (ds.map Prod.fst).map (fun c => (c.ID, funcNameOf c)) := by
  induction ds with
  | nil => rfl
  | cons d rest ih =>
    have hd := h d (List.mem_cons_self _ _)
    have hrest := ih (fun e he => h e (List.mem_cons_of_mem _ he))
    simp only [unflagged, List.filter_cons, hd, Bool.not_false, if_true, List.map_cons] at hrest ⊢
    rw [hrest]

/-- A run of the retry loop of `execToolCall` that returns no error holds exactly one
`Execute` that succeeded, for the tool call and the function of the run. -/
theorem ExecRun_executed {streamID : Int} {id funcName thinking : String} {n : Nat}
    {err : Option GoError} {args : String} {seg : List Event} {out : String × Option GoError}
    (h : ExecRun streamID id funcName thinking n err args seg out) :
    detections seg = [] ∧ (out.2 = none → executedCalls seg = [(id, funcName)]) := by
  induction h with
  | exhausted err args => simp [detections]
  | success n err args response => simp [detections, executedCalls]
  | canceled n err args e hc => simp [detections]
  | noSchema n err args e se hc => simp [detections]
  | noRepair n err args schema e fe hc => simp [detections]
  | again n err args schema repaired e rest out hc h ih =>
    obtain ⟨h1, h2⟩ := ih
    simp only [detections, executedCalls, List.filterMap_cons] at h1 h2 ⊢
    exact ⟨h1, h2⟩

/-- One run of `execToolCall`: the detector is asked once, and when the run returns no error
the executor has run the tool call with success exactly when the detector did not flag
it. -/
theorem execToolCall_executed (env : Env) (chainID : Int) (idx : Nat) (result : callResult)
    (seen : List ToolCall) (log : Log) (toolCall : ToolCall) (fc : FunctionCall)
    (hget : result.funcCalls.get? idx = some toolCall) (hfc : toolCall.FunctionCall = some fc) :
    ∃ out seg,
      execToolCall env chainID idx result seen log = some (out, seen ++ [toolCall], log ++ seg) ∧
      detections seg = [(toolCall, env.detect seen toolCall)] ∧
      (out.2 = none → executedCalls seg = unflagged [(toolCall, env.detect seen toolCall)]) := by
  obtain ⟨out, rest, h1, h2, h3⟩ :=
    execToolCall_run env chainID idx result seen log toolCall fc hget hfc
  refine ⟨out, Event.Detect toolCall (env.detect seen toolCall) :: rest, h1, ?_⟩
  have hname : funcNameOf toolCall = fc.Name := by simp [funcNameOf, hfc]
  cases hd : env.detect seen toolCall with
  | true =>
    obtain ⟨_, g2⟩ := h2 hd
    subst g2
    exact ⟨rfl, fun _ => rfl⟩
  | false =>
    obtain ⟨p1, p2⟩ := ExecRun_executed (h3 hd)
    refine ⟨?_, ?_⟩
    · simp only [detections, List.filterMap_cons] at p1 ⊢
      rw [p1]
    · intro hnone
      have := p2 hnone
      simp only [executedCalls, List.filterMap_cons] at this ⊢
      rw [this]
      simp [unflagged, hname]

/-- The loop over the tool calls when it ends without error: the detector is shown every tool
call after the ones before it, and the executor has run with success, in order, exactly the
tool calls the detector did not flag. -/
theorem toolLoop_executed (env : Env) (chainID : Int) (result : callResult) :
    ∀ (calls : List ToolCall) (idx : Nat) (st st1 : toolState),
      result.funcCalls.drop idx = calls →
      (∀ c ∈ calls, c.FunctionCall.isSome = true) →
      toolLoop env chainID result idx calls st = some (none, st1) →
      ∃ seg, st1.log = st.log ++ seg ∧
        detections seg = flagsOf env st.seen calls ∧
        executedCalls seg = unflagged (flagsOf env st.seen calls) ∧
        st1.seen = st.seen ++ calls := by
  intro calls
  induction calls with
  | nil =>
    intro idx st st1 _ _ h
    simp only [toolLoop, Option.some.injEq, Prod.mk.injEq, true_and] at h
    subst h
    exact ⟨[], by simp, rfl, rfl, by simp⟩
  | cons toolCall rest ih =>
    intro idx st st1 hdrop hsome h
    obtain ⟨hget, hdrop1⟩ := drop_eq_cons result.funcCalls idx toolCall rest hdrop
    have hs := hsome toolCall (List.mem_cons_self _ _)
    obtain ⟨fc, hfc⟩ := Option.isSome_iff_exists.1 hs
    obtain ⟨out, seg0, hrun, hd0, he0⟩ :=
      execToolCall_executed env chainID idx result st.seen st.log toolCall fc hget hfc
    obtain ⟨response, err⟩ := out
    simp only [toolLoop, hfc, hrun] at h
    cases err with
    | some e => simp at h
    | none =>
      simp only at h
      rcases hu : updateMsgChain env chainID (st.chain ++ [toolMessage toolCall fc.Name response])
        (st.log ++ seg0) with ⟨uerr, log2⟩
      rw [hu] at h
      cases uerr with
      | some e => simp at h
      | none =>
        simp only at h
        obtain ⟨blob, hblob, hlog2⟩ := updateMsgChain_ok env chainID _ _ _ hu
        obtain ⟨seg1, g1, g2, g3, g4⟩ := ih (idx + 1) _ st1 hdrop1
          (fun c hc => hsome c (List.mem_cons_of_mem _ hc)) h
        simp only at g1 g2 g3 g4
        have hexec0 := he0 rfl
        refine ⟨seg0 ++ Event.UpdateMsgChain chainID blob none :: seg1, ?_, ?_, ?_, ?_⟩
        · rw [g1, hlog2]
          simp
        · have : detections (seg0 ++ Event.UpdateMsgChain chainID blob none :: seg1) =
              detections seg0 ++ detections seg1 := by simp [detections]
          rw [this, hd0, g2]
          rfl
        · have : executedCalls (seg0 ++ Event.UpdateMsgChain chainID blob none :: seg1) =
              executedCalls seg0 ++ executedCalls seg1 := by simp [executedCalls]
          rw [this, hexec0, g3]
          show _ = unflagged ([(toolCall, env.detect st.seen toolCall)] ++
            flagsOf env (st.seen ++ [toolCall]) rest)
          rw [unflagged_append]
        · rw [g4]
          simp

/-- The tool phase when it ends without error: the executor has run with success, in order,
exactly the tool calls the detector did not flag. -/
theorem toolPhase_executed (env : Env) (chainID : Int) (chain : Chain) (result : callResult)
    (seen : List ToolCall) (wantToStop : Bool) (log : Log) (st : toolState)
    (hsome : ∀ c ∈ result.funcCalls, c.FunctionCall.isSome = true)
    (h : toolPhase env chainID chain result seen wantToStop log = some (none, st)) :
    ∃ seg, st.log = log ++ seg ∧
      detections seg = flagsOf env seen result.funcCalls ∧
      executedCalls seg = unflagged (flagsOf env seen result.funcCalls) ∧
      st.seen = seen ++ result.funcCalls := by
  unfold toolPhase at h
  simp only at h
  rcases hu : updateMsgChain env chainID (chain ++ [toolCallsMessage result.funcCalls]) log with
    ⟨uerr, log1⟩
  rw [hu] at h
  cases uerr with
  | some e => simp at h
  | none =>
    simp only at h
    obtain ⟨blob, _, hlog1⟩ := updateMsgChain_ok env chainID _ _ _ hu
    obtain ⟨seg1, g1, g2, g3, g4⟩ := toolLoop_executed env chainID result result.funcCalls 0 _ st
      (by simp) hsome h
    simp only at g1 g2 g3 g4
    refine ⟨Event.UpdateMsgChain chainID blob none :: seg1, ?_, ?_, ?_, g4⟩
    · rw [g1, hlog1]
      simp
    · simp only [detections, List.filterMap_cons] at g2 ⊢
      exact g2
    · simp only [executedCalls, List.filterMap_cons] at g3 ⊢
      exact g3

/-! ## Claims about the loop of performAgentChain -/

/-- A pair is among the answers of the detector recorded in a log exactly when the log holds
that answer. -/
theorem mem_detections (seg : Log) (c : ToolCall) (b : Bool) :
    (c, b) ∈ detections seg ↔ Event.Detect c b ∈ seg := by
  unfold detections
  rw [List.mem_filterMap]
  constructor
  · rintro ⟨e, he, hf⟩
    cases e <;> simp at hf
    obtain ⟨h1, h2⟩ := hf
    subst h1 h2
    exact he
  · intro h
    exact ⟨Event.Detect c b, h, rfl⟩

/-- C1: take a pass of the loop of `performAgentChain` in which line 119 is reached with a
result whose tool calls include one that names a barrier tool, and in which the tool phase
ends without error (every tool execution and chain write succeeds). Then every tool call is
handed to `execToolCall`, in the order of the result and also after the barrier one; the
executor runs with success, in that order and once each, the tool calls the detector does not
flag, so that when it flags none (every tool call gets its tool execution) all n tool calls
are executed in the order c_1..c_n, those after the barrier one included; the chain gets the
ai message and then exactly one tool message per tool call; and `performAgentChain` returns
nil right after the tool phase: the log ends with the events of the tool phase, which hold no
LLM call and no call of the summarizer. -/
theorem agentLoop_barrier_stops (env : Env) (agent : ProviderOptionsType) (chainID : Int)
    (taskID subtaskID : Option Int) (executionContext : String) (chain : Chain)
    (seen : List ToolCall) (log : Log) (result : callResult) (log1 : Log) (st : toolState)
    (hcall : callPhase env agent chainID taskID subtaskID executionContext chain log =
      some (Sum.inr result, log1))
    (hbarrier : ∃ c ∈ result.funcCalls, env.IsBarrierFunction (funcNameOf c) = true)
    (htools : toolPhase env chainID chain result seen false log1 = some (none, st)) :
    (∀ fuel, agentLoop env agent chainID taskID subtaskID executionContext (fuel + 1) chain seen
      log = some (none, st.chain, st.log)) ∧
    ∃ seg msgs, st.log = log1 ++ seg ∧
      detectedCalls seg = result.funcCalls ∧
      msgs.length = result.funcCalls.length ∧
      msgs.map (fun m => m.Role) =
        result.funcCalls.map (fun _ => ChatMessageType.ChatMessageTypeTool) ∧
      st.chain = chain ++ toolCallsMessage result.funcCalls :: msgs ∧
      llmResults seg = [] ∧ summarizerCalls seg = [] ∧
      executedCalls seg = unflagged (detections seg) ∧
      ((∀ c, Event.Detect c true ∉ seg) →
        executedCalls seg = result.funcCalls.map (fun c => (c.ID, funcNameOf c))) := by
  obtain ⟨_, hsome⟩ := callPhase_result env agent chainID taskID subtaskID executionContext
    chain log result log1 hcall
  obtain ⟨seg, g1, g2, g3, g4, _, g6, g7⟩ :=
    toolPhase_ok env chainID chain result seen false log1 st hsome htools
  obtain ⟨seg2, e1, e2, e3, _⟩ :=
    toolPhase_executed env chainID chain result seen false log1 st hsome htools
  have hseg : seg2 = seg := List.append_cancel_left (e1.symm.trans g1)
  subst hseg
  have hstop : st.wantToStop = true := by
    rw [g7]
    obtain ⟨c, hc, hb⟩ := hbarrier
    simp only [Bool.false_or, List.any_eq_true]
    exact ⟨c, hc, hb⟩
  refine ⟨?_, seg2, toolMessages result.funcCalls (observations seg2), g1, g2, ?_, ?_, g4, ?_, ?_,
    ?_, ?_⟩
  · intro fuel
    simp only [agentLoop, iteration, hcall, runTools, htools, afterTools, hstop, if_true]
  · simp [toolMessages, g3]
  · simp only [toolMessages]
    apply List.ext_getElem
    · simp [g3]
    · intro n h1 h2
      simp [toolMessage]
  · simp only [llmResults, List.filterMap_eq_nil_iff]
    intro e he
    have := g6 e he
    cases e <;> simp_all [isToolEvent]
  · simp only [summarizerCalls, List.filterMap_eq_nil_iff]
    intro e he
    have := g6 e he
    cases e <;> simp_all [isToolEvent]
  · rw [e3, e2]
  · intro hnoflag
    have hall : ∀ d ∈ detections seg2, d.2 = false := by
      intro d hd
      cases hb : d.2 with
      | false => rfl
      | true =>
        have hd1 : (d.1, true) ∈ detections seg2 := by rw [← hb]; exact hd
        exact absurd ((mem_detections seg2 d.1 true).1 hd1) (hnoflag d.1)
    rw [e3, ← e2, unflagged_all _ hall, e2, flagsOf_fst]

theorem agentLoop_barrier_stops_witness :
    callPhase barrierEnv primaryAgent 7 none none "context" [] [] =
      some (Sum.inr barrierResult, barrierCallLog) ∧
    toolPhase barrierEnv 7 [] barrierResult [] false barrierCallLog = some (none, barrierState) ∧
    agentLoop barrierEnv primaryAgent 7 none none "context" 1 [] [] [] =
      some (none, barrierState.chain, barrierState.log) ∧
    executedCalls barrierState.log = [("c1", "search"), ("c2", "finish"), ("c3", "search")] :=
  ⟨by decide, by decide,
    (agentLoop_barrier_stops barrierEnv primaryAgent 7 none none "context" [] [] []
      barrierResult barrierCallLog barrierState (by decide)
      ⟨mkCall "c2" "finish" "r", by decide, by decide⟩ (by decide)).1 0,
    by decide⟩

/-- C2: take a pass of the loop of `performAgentChain` in which line 119 is reached with the
result `result` and in which the tool phase ends without error. The chain after the tool
phase is the chain before the pass, then one ai message whose parts are the tool calls in
order, then one tool message per tool call, in order, that holds a single tool response with
the id of the tool call, its function name and its observation (the observations are read off
the log: the answer of the `Execute` that succeeded, or the advisory text when the detector
flagged the call). The chain is written after each of these appends: the writes recorded are,
in order, the chains reached by appending these messages one at a time. -/
theorem iteration_tool_phase_chain (env : Env) (agent : ProviderOptionsType) (chainID : Int)
    (taskID subtaskID : Option Int) (executionContext : String) (chain : Chain)
    (seen : List ToolCall) (log : Log) (result : callResult) (log1 : Log) (st : toolState)
    (hcall : callPhase env agent chainID taskID subtaskID executionContext chain log =
      some (Sum.inr result, log1))
    (htools : toolPhase env chainID chain result seen false log1 = some (none, st)) :
    iteration env agent chainID taskID subtaskID executionContext chain seen log =
      some (afterTools env chainID st) ∧
    ∃ seg msgs, st.log = log1 ++ seg ∧
      detectedCalls seg = result.funcCalls ∧
      (observations seg).length = result.funcCalls.length ∧
      msgs = List.zipWith (fun c o =>
        ({ Role := ChatMessageType.ChatMessageTypeTool
           Parts := [ContentPart.ToolCallResponse
             { ToolCallID := c.ID, Name := funcNameOf c, Content := o }] } : MessageContent))
        result.funcCalls (observations seg) ∧
      st.chain = chain ++
        ({ Role := ChatMessageType.ChatMessageTypeAI
           Parts := result.funcCalls.map ContentPart.ToolCall } : MessageContent) :: msgs ∧
      (chainWrites seg).map (fun w => (w.1, Res.ok w.2.1, w.2.2)) =
        (appendSteps chain
          (({ Role := ChatMessageType.ChatMessageTypeAI
              Parts := result.funcCalls.map ContentPart.ToolCall } : MessageContent) :: msgs)).map
          (fun c => (chainID, env.jsonMarshal c, none)) := by
  obtain ⟨_, hsome⟩ := callPhase_result env agent chainID taskID subtaskID executionContext
    chain log result log1 hcall
  obtain ⟨seg, g1, g2, g3, g4, g5, _, _⟩ :=
    toolPhase_ok env chainID chain result seen false log1 st hsome htools
  refine ⟨?_, seg, toolMessages result.funcCalls (observations seg), g1, g2, g3, rfl, g4, g5⟩
  simp only [iteration, hcall, runTools, htools]

theorem iteration_tool_phase_chain_witness :
    callPhase duplicateEnv primaryAgent 7 none none "context" [] [] =
      some (Sum.inr duplicateResult, duplicateCallLog) ∧
    toolPhase duplicateEnv 7 [] duplicateResult [] false duplicateCallLog =
      some (none, duplicateState) ∧
    iteration duplicateEnv primaryAgent 7 none none "context" [] [] [] =
      some (afterTools duplicateEnv 7 duplicateState) :=
  ⟨by decide, by decide,
    (iteration_tool_phase_chain duplicateEnv primaryAgent 7 none none "context" [] [] []
      duplicateResult duplicateCallLog duplicateState (by decide) (by decide)).1⟩

/-! ## performReflector -/

/-- The body of `performReflector` in terms of its parts. -/
theorem performReflectorFuel_eq (env : Env) (origin : ProviderOptionsType) (chainID : Int)
    (taskID subtaskID : Option Int) (humanMessage executionContext : String) (fuel : Nat)
    (chain : Chain) (content : String) (iteration : Nat) (log : Log) :
    performReflectorFuel env origin chainID taskID subtaskID humanMessage executionContext fuel
        chain content iteration log =
      if iteration > maxReflectorCallsPerChain then
        some (Res.err (GoError.New "reflector called too many times"), log)
      else
        match reflectorAdvice env taskID subtaskID humanMessage executionContext content log with
        | (Res.err e, log4) => some (Res.err e, log4)
        | (Res.ok advice, log4) =>
          match callWithRetries env
              (chain ++ [TextParts ChatMessageType.ChatMessageTypeHuman advice]) origin log4 with
          | (Res.err e, log5) => some (Res.err e, log5)
          | (Res.ok result, log5) =>
            match updateMsgChainUsage env chainID result.info log5 with
            | (some e, log6) => some (Res.err e, log6)
            | (none, log6) =>
              if result.funcCalls.length = 0 then
                match fuel with
                | 0 => none
                | fuel1 + 1 =>
                  performReflectorFuel env origin chainID taskID subtaskID humanMessage
                    executionContext fuel1
                    (chain ++ [TextParts ChatMessageType.ChatMessageTypeHuman advice] ++
                      [TextParts ChatMessageType.ChatMessageTypeAI result.content])
                    result.content (iteration + 1) log6
              else
                some (Res.ok result, log6) := by
  rw [performReflectorFuel]
  unfold reflectorAdvice
  simp only []
  by_cases hit : iteration > maxReflectorCallsPerChain
  · simp only [hit, if_true]
  · simp only [hit, if_false]
    generalize env.RenderTemplate (log ++ [Event.GetCurrentTime (env.getCurrentTime log)])
      PromptType.PromptTypeQuestionReflector _ = userRes
    cases userRes with
    | err e => rfl
    | ok userTmpl =>
      dsimp only
      generalize env.RenderTemplate _ PromptType.PromptTypeReflector _ = systemRes
      cases systemRes with
      | err e => rfl
      | ok systemTmpl => rfl

/-! ## What the parts of the loop add to the log -/

/-- A stretch of the log without LLM call and without chain write. -/
theorem quiet_projections (seg : Log) (h : ∀ e ∈ seg, isQuietEvent e = true) :
    llmResults seg = [] ∧ chainWrites seg = [] := by
  refine ⟨?_, ?_⟩ <;>
  · simp only [llmResults, chainWrites, List.filterMap_eq_nil_iff]
    intro e he
    have := h e he
    cases e <;> simp_all [isQuietEvent]

/-- A stretch of the log written by `callWithRetries` holds no chain write, no usage update,
no advice run and no call of the summarizer. -/
theorem call_projections (seg : Log) (h : ∀ e ∈ seg, isCallEvent e = true) :
    chainWrites seg = [] ∧ usageUpdates seg = [] ∧ adviceCalls seg = [] ∧
      summarizerCalls seg = [] := by
  refine ⟨?_, ?_, ?_, ?_⟩ <;>
  · simp only [chainWrites, usageUpdates, adviceCalls, summarizerCalls,
      List.filterMap_eq_nil_iff]
    intro e he
    have := h e he
    cases e <;> simp_all [isCallEvent]

theorem callLLM_events (env : Env) (chain : Chain) (agent : ProviderOptionsType)
    (result : callResult) (log : Log) :
    ∃ seg, (callLLM env chain agent result log).2.2 = log ++ seg ∧
      ∀ e ∈ seg, isCallEvent e = true := by
  cases hcb : env.streamCb with
  | none =>
    refine ⟨[Event.CallWithTools agent chain false (env.CallWithTools log agent chain false).1
      (env.CallWithTools log agent chain false).2], by simp only [callLLM, hcb], ?_⟩
    intro e he
    simp only [List.mem_singleton] at he
    subst he
    rfl
  | some cb =>
    obtain ⟨seg, h1, h2⟩ := deliverChunks_log cb (env.callCounterAdd log)
      (env.CallWithTools (log ++ [Event.CallCounterAdd (env.callCounterAdd log)]) agent chain
        true).1
      (log ++ [Event.CallCounterAdd (env.callCounterAdd log)] ++
        [Event.CallWithTools agent chain true
          (env.CallWithTools (log ++ [Event.CallCounterAdd (env.callCounterAdd log)]) agent
            chain true).1
          (env.CallWithTools (log ++ [Event.CallCounterAdd (env.callCounterAdd log)]) agent
            chain true).2])
    refine ⟨Event.CallCounterAdd (env.callCounterAdd log) ::
      Event.CallWithTools agent chain true
          (env.CallWithTools (log ++ [Event.CallCounterAdd (env.callCounterAdd log)]) agent
            chain true).1
          (env.CallWithTools (log ++ [Event.CallCounterAdd (env.callCounterAdd log)]) agent
            chain true).2 :: seg, ?_, ?_⟩
    · simp only [callLLM, hcb]
      rw [h1]
      simp
    · intro e he
      simp only [List.mem_cons] at he
      rcases he with he | he | he
      · subst he; rfl
      · subst he; rfl
      · obtain ⟨m, r, hm⟩ := h2 e he
        subst hm
        rfl

theorem callAttempts_events (env : Env) (chain : Chain) (agent : ProviderOptionsType) :
    ∀ (remaining : Nat) (errs : List GoError) (result : callResult) (log : Log),
      ∃ seg, (callAttempts env chain agent remaining errs result log).2 = log ++ seg ∧
        ∀ e ∈ seg, isCallEvent e = true := by
  intro remaining
  induction remaining with
  | zero =>
    intro errs result log
    exact ⟨[], by simp [callAttempts], by simp⟩
  | succ n ih =>
    intro errs result log
    obtain ⟨seg0, h0, k0⟩ := callLLM_events env chain agent result log
    cases hfill : (attemptFill (callLLM env chain agent result log).1
        (callLLM env chain agent result log).2.1).1 with
    | none =>
      rw [callAttempts_succ_ok env chain agent n errs result log hfill]
      exact ⟨seg0, h0, k0⟩
    | some e =>
      cases hwait : env.retryWait (callLLM env chain agent result log).2.2 with
      | some ce =>
        rw [callAttempts_succ_cancel env chain agent n errs result log e ce hfill hwait]
        refine ⟨seg0 ++ [Event.RetryWait (some ce)], by simp only [h0]; simp, ?_⟩
        intro ev hev
        simp only [List.mem_append, List.mem_singleton] at hev
        rcases hev with hev | hev
        · exact k0 ev hev
        · subst hev; rfl
      | none =>
        rw [callAttempts_succ_retry env chain agent n errs result log e hfill hwait]
        obtain ⟨seg1, h1, k1⟩ := ih (errs ++ [e])
          (attemptFill (callLLM env chain agent result log).1
            (callLLM env chain agent result log).2.1).2
          ((callLLM env chain agent result log).2.2 ++ [Event.RetryWait none])
        refine ⟨seg0 ++ Event.RetryWait none :: seg1, by rw [h1, h0]; simp, ?_⟩
        intro ev hev
        simp only [List.mem_append, List.mem_cons] at hev
        rcases hev with hev | hev | hev
        · exact k0 ev hev
        · subst hev; rfl
        · exact k1 ev hev

/-- What `callWithRetries` adds to the log: at most 3 LLM calls and otherwise only events of
the call counter, the stream sink and the retry timer. -/
theorem callWithRetries_seg (env : Env) (chain : Chain) (agent : ProviderOptionsType)
    (log : Log) :
    ∃ seg, (callWithRetries env chain agent log).2 = log ++ seg ∧
      (llmResults seg).length ≤ 3 ∧ (∀ e ∈ seg, isCallEvent e = true) := by
  obtain ⟨seg0, seg1, hlog, hlog0, hllm, _⟩ := callWithRetries_trace env chain agent log
  obtain ⟨seg, hseg, hlen, _⟩ :=
    callAttempts_trace env chain agent maxRetriesToCallAgentChain [] callResult.zero log rfl
  obtain ⟨seg2, hseg2, k2⟩ :=
    callAttempts_events env chain agent maxRetriesToCallAgentChain [] callResult.zero log
  obtain ⟨seg3, hseg3, k3⟩ := callWithRetries_log env chain agent log
  have e1 : seg = seg0 := by
    rw [hlog0] at hseg
    exact (List.append_cancel_left hseg).symm
  have e2 : seg2 = seg0 := by
    rw [hlog0] at hseg2
    exact (List.append_cancel_left hseg2).symm
  have e3 : seg3 = seg1 := by
    rw [hlog, hlog0, List.append_assoc] at hseg3
    exact (List.append_cancel_left (List.append_cancel_left hseg3)).symm
  refine ⟨seg0 ++ seg1, hlog, by rw [hllm, ← e1]; exact hlen, ?_⟩
  intro e he
  rcases List.mem_append.1 he with h | h
  · exact k2 e (by rw [e2]; exact h)
  · obtain ⟨m, r, hm⟩ := k3 e (by rw [e3]; exact h)
    subst hm
    rfl

theorem updateMsgChainUsage_seg (env : Env) (chainID : Int) (info : Option GenerationInfo)
    (log : Log) :
    ∃ usageIn usageOut res,
      (updateMsgChainUsage env chainID info log).2 =
        log ++ [Event.UpdateMsgChainUsage chainID usageIn usageOut res] ∧
      ((updateMsgChainUsage env chainID info log).1 = none ↔ res = none) := by
  unfold updateMsgChainUsage
  simp only
  cases h : env.dbUpdateMsgChainUsage log chainID
      (match info with | none => ((0 : Int), (0 : Int)) | some i => env.GetUsage i).1
      (match info with | none => ((0 : Int), (0 : Int)) | some i => env.GetUsage i).2 with
  | none => exact ⟨_, _, none, rfl, by simp⟩
  | some e => exact ⟨_, _, some e, rfl, by simp⟩

/-- What lines 477-518 add to the log: the time, one or two rendered prompts and at most one
advice run; exactly one advice run when they yield an advice. -/
theorem reflectorAdvice_seg (env : Env) (taskID subtaskID : Option Int)
    (humanMessage executionContext content : String) (log : Log) :
    ∃ seg, (reflectorAdvice env taskID subtaskID humanMessage executionContext content log).2 =
        log ++ seg ∧
      (∀ e ∈ seg, isQuietEvent e = true) ∧ usageUpdates seg = [] ∧
      summarizerCalls seg = [] ∧
      (∀ advice, (reflectorAdvice env taskID subtaskID humanMessage executionContext content
          log).1 = Res.ok advice → (adviceCalls seg).length = 1) := by
  unfold reflectorAdvice
  simp only []
  generalize env.RenderTemplate (log ++ [Event.GetCurrentTime (env.getCurrentTime log)])
    PromptType.PromptTypeQuestionReflector _ = userRes
  cases userRes with
  | err e =>
    refine ⟨[Event.GetCurrentTime (env.getCurrentTime log),
      Event.RenderTemplate PromptType.PromptTypeQuestionReflector
        (TemplateVars.user content env.GetBarrierToolNames) (Res.err e)],
      by simp, ?_, rfl, rfl, ?_⟩
    · intro ev hev
      simp only [List.mem_cons, List.mem_singleton, List.not_mem_nil, or_false] at hev
      rcases hev with hev | hev <;> subst hev <;> rfl
    · intro advice h
      simp at h
  | ok userTmpl =>
    dsimp only
    generalize env.RenderTemplate _ PromptType.PromptTypeReflector _ = systemRes
    cases systemRes with
    | err e =>
      refine ⟨[Event.GetCurrentTime (env.getCurrentTime log),
        Event.RenderTemplate PromptType.PromptTypeQuestionReflector
          (TemplateVars.user content env.GetBarrierToolNames) (Res.ok userTmpl),
        Event.RenderTemplate PromptType.PromptTypeReflector
          (TemplateVars.system env.GetBarrierTools (env.getCurrentTime log) executionContext
            (if humanMessage ≠ "" then some humanMessage else none)) (Res.err e)],
        by simp, ?_, rfl, rfl, ?_⟩
      · intro ev hev
        simp only [List.mem_cons, List.mem_singleton, List.not_mem_nil, or_false] at hev
        rcases hev with hev | hev | hev <;> subst hev <;> rfl
      · intro advice h
        simp at h
    | ok systemTmpl =>
      dsimp only
      generalize env.performSimpleChain _ taskID subtaskID systemTmpl userTmpl = adviceRes
      refine ⟨[Event.GetCurrentTime (env.getCurrentTime log),
        Event.RenderTemplate PromptType.PromptTypeQuestionReflector
          (TemplateVars.user content env.GetBarrierToolNames) (Res.ok userTmpl),
        Event.RenderTemplate PromptType.PromptTypeReflector
          (TemplateVars.system env.GetBarrierTools (env.getCurrentTime log) executionContext
            (if humanMessage ≠ "" then some humanMessage else none)) (Res.ok systemTmpl),
        Event.PerformSimpleChain taskID subtaskID systemTmpl userTmpl adviceRes],
        by simp, ?_, rfl, rfl, ?_⟩
      · intro ev hev
        simp only [List.mem_cons, List.mem_singleton, List.not_mem_nil, or_false] at hev
        rcases hev with hev | hev | hev | hev <;> subst hev <;> rfl
      · intro advice _
        rfl

theorem llmResults_append (a b : Log) : llmResults (a ++ b) = llmResults a ++ llmResults b := by
  simp [llmResults]

theorem chainWrites_append (a b : Log) : chainWrites (a ++ b) = chainWrites a ++ chainWrites b := by
  simp [chainWrites]

theorem summarizerCalls_append (a b : Log) :
    summarizerCalls (a ++ b) = summarizerCalls a ++ summarizerCalls b := by
  simp [summarizerCalls]

theorem adviceCalls_append (a b : Log) : adviceCalls (a ++ b) = adviceCalls a ++ adviceCalls b := by
  simp [adviceCalls]

theorem usageUpdates_append (a b : Log) :
    usageUpdates (a ++ b) = usageUpdates a ++ usageUpdates b := by
  simp [usageUpdates]

/-- What `performReflector` adds to the log, whatever it returns: at most 3 LLM calls for each
of the iterations left, no chain write and no call of the summarizer. With fuel for the
iterations left it returns. -/
theorem performReflectorFuel_seg (env : Env) (origin : ProviderOptionsType) (chainID : Int)
    (taskID subtaskID : Option Int) (humanMessage executionContext : String) :
    ∀ (fuel : Nat) (chain : Chain) (content : String) (iteration : Nat) (log : Log),
      maxReflectorCallsPerChain + 1 ≤ fuel + iteration →
      ∃ out seg,
        performReflectorFuel env origin chainID taskID subtaskID humanMessage executionContext
          fuel chain content iteration log = some (out, log ++ seg) ∧
        (llmResults seg).length ≤ 3 * (maxReflectorCallsPerChain + 1 - iteration) ∧
        chainWrites seg = [] ∧ summarizerCalls seg = [] := by
  intro fuel
  induction fuel with
  | zero =>
    intro chain content iteration log hfuel
    rw [performReflectorFuel_eq]
    have hit : iteration > maxReflectorCallsPerChain := by omega
    rw [if_pos hit]
    exact ⟨Res.err (GoError.New "reflector called too many times"), [], by simp,
        by simp [llmResults], rfl, rfl⟩
  | succ n ih =>
    intro chain content iteration log hfuel
    rw [performReflectorFuel_eq]
    by_cases hit : iteration > maxReflectorCallsPerChain
    · rw [if_pos hit]
      exact ⟨Res.err (GoError.New "reflector called too many times"), [], by simp,
        by simp [llmResults], rfl, rfl⟩
    · rw [if_neg hit]
      have hle : 3 ≤ 3 * (maxReflectorCallsPerChain + 1 - iteration) := by omega
      obtain ⟨segA, hA, qA, _, sA, _⟩ := reflectorAdvice_seg env taskID subtaskID humanMessage
        executionContext content log
      obtain ⟨lA, wA⟩ := quiet_projections segA qA
      rcases hRA : reflectorAdvice env taskID subtaskID humanMessage executionContext content
        log with ⟨adviceRes, log4⟩
      rw [hRA] at hA
      simp only at hA
      subst hA
      cases adviceRes with
      | err e =>
        exact ⟨Res.err e, segA, rfl, by rw [lA]; simp, wA, sA⟩
      | ok advice =>
        simp only
        obtain ⟨segB, hB, lB, cB⟩ := callWithRetries_seg env
          (chain ++ [TextParts ChatMessageType.ChatMessageTypeHuman advice]) origin (log ++ segA)
        obtain ⟨wB, _, _, sB⟩ := call_projections segB cB
        rcases hCW : callWithRetries env
          (chain ++ [TextParts ChatMessageType.ChatMessageTypeHuman advice]) origin
          (log ++ segA) with ⟨callRes, log5⟩
        rw [hCW] at hB
        simp only at hB
        subst hB
        cases callRes with
        | err e =>
          refine ⟨Res.err e, segA ++ segB, by simp, ?_, ?_, ?_⟩
          · rw [llmResults_append, lA]
            simp only [List.nil_append]
            omega
          · rw [chainWrites_append, wA, wB]; rfl
          · rw [summarizerCalls_append, sA, sB]; rfl
        | ok result =>
          simp only
          obtain ⟨uin, uout, ures, hU, _⟩ :=
            updateMsgChainUsage_seg env chainID result.info (log ++ segA ++ segB)
          rcases hUU : updateMsgChainUsage env chainID result.info (log ++ segA ++ segB) with
            ⟨uerr, log6⟩
          rw [hUU] at hU
          simp only at hU
          subst hU
          have hl3 : (llmResults
              (segA ++ segB ++ [Event.UpdateMsgChainUsage chainID uin uout ures])).length ≤ 3 := by
            rw [llmResults_append, llmResults_append, lA]
            simpa [llmResults] using lB
          have hw3 : chainWrites
              (segA ++ segB ++ [Event.UpdateMsgChainUsage chainID uin uout ures]) = [] := by
            rw [chainWrites_append, chainWrites_append, wA, wB]; rfl
          have hs3 : summarizerCalls
              (segA ++ segB ++ [Event.UpdateMsgChainUsage chainID uin uout ures]) = [] := by
            rw [summarizerCalls_append, summarizerCalls_append, sA, sB]; rfl
          cases uerr with
          | some e =>
            exact ⟨Res.err e, segA ++ segB ++ [Event.UpdateMsgChainUsage chainID uin uout ures],
              by simp, by omega, hw3, hs3⟩
          | none =>
            simp only
            by_cases hlen : result.funcCalls.length = 0
            · rw [if_pos hlen]
              obtain ⟨out, seg1, h1, h2, h3, h4⟩ := ih
                (chain ++ [TextParts ChatMessageType.ChatMessageTypeHuman advice] ++
                  [TextParts ChatMessageType.ChatMessageTypeAI result.content])
                result.content (iteration + 1)
                (log ++ segA ++ segB ++ [Event.UpdateMsgChainUsage chainID uin uout ures])
                (by omega)
              refine ⟨out, segA ++ segB ++ [Event.UpdateMsgChainUsage chainID uin uout ures] ++
                seg1, by rw [h1]; simp, ?_, ?_, ?_⟩
              · rw [llmResults_append, List.length_append]
                have : maxReflectorCallsPerChain = 3 := rfl
                omega
              · rw [chainWrites_append, hw3, h3]; rfl
              · rw [summarizerCalls_append, hs3, h4]; rfl
            · rw [if_neg hlen]
              exact ⟨Res.ok result,
                segA ++ segB ++ [Event.UpdateMsgChainUsage chainID uin uout ures],
                by simp, by omega, hw3, hs3⟩

theorem performReflector_seg (env : Env) (origin : ProviderOptionsType) (chainID : Int)
    (taskID subtaskID : Option Int) (chain : Chain)
    (humanMessage content executionContext : String) (iteration : Nat) (log : Log) :
    ∃ out seg,
      performReflector env origin chainID taskID subtaskID chain humanMessage content
        executionContext iteration log = some (out, log ++ seg) ∧
      (llmResults seg).length ≤ 3 * (maxReflectorCallsPerChain + 1 - iteration) ∧
      chainWrites seg = [] ∧ summarizerCalls seg = [] := by
  unfold performReflector
  exact performReflectorFuel_seg env origin chainID taskID subtaskID humanMessage
    executionContext _ chain content iteration log (by omega)

theorem reflectorAdvice_ok (env : Env) (taskID subtaskID : Option Int)
    (humanMessage executionContext content : String) (log : Log)
    (hrender : ∀ h t v, ∃ s, env.RenderTemplate h t v = Res.ok s) :
    ∃ advice, (reflectorAdvice env taskID subtaskID humanMessage executionContext content log).1 =
      Res.ok advice := by
  unfold reflectorAdvice
  simp only []
  obtain ⟨u, hu⟩ := hrender (log ++ [Event.GetCurrentTime (env.getCurrentTime log)])
    PromptType.PromptTypeQuestionReflector (TemplateVars.user content env.GetBarrierToolNames)
  rw [hu]
  dsimp only
  obtain ⟨v, hv⟩ := hrender
    (log ++ [Event.GetCurrentTime (env.getCurrentTime log)] ++
      [Event.RenderTemplate PromptType.PromptTypeQuestionReflector
        (TemplateVars.user content env.GetBarrierToolNames) (Res.ok u)])
    PromptType.PromptTypeReflector
    (TemplateVars.system env.GetBarrierTools (env.getCurrentTime log) executionContext
      (if humanMessage ≠ "" then some humanMessage else none))
  rw [hv]
  exact ⟨_, rfl⟩

/-- When every prompt renders, every LLM call made for the reflector gives a result without
tool calls and every usage update succeeds, the reflector goes through all the iterations
left, with one advice run and one usage update each, and ends with the error of the limit. -/
theorem performReflectorFuel_rounds (env : Env) (origin : ProviderOptionsType) (chainID : Int)
    (taskID subtaskID : Option Int) (humanMessage executionContext : String)
    (hrender : ∀ h t v, ∃ s, env.RenderTemplate h t v = Res.ok s)
    (hcall : ∀ ch h, ∃ r h1, callWithRetries env ch origin h = (Res.ok r, h1) ∧ r.funcCalls = [])
    (husage : ∀ info h, (updateMsgChainUsage env chainID info h).1 = none) :
    ∀ (fuel : Nat) (chain : Chain) (content : String) (iteration : Nat) (log : Log),
      fuel + iteration = maxReflectorCallsPerChain + 1 →
      ∃ seg,
        performReflectorFuel env origin chainID taskID subtaskID humanMessage executionContext
          fuel chain content iteration log =
          some (Res.err (GoError.New "reflector called too many times"), log ++ seg) ∧
        (adviceCalls seg).length = fuel ∧ (usageUpdates seg).length = fuel := by
  intro fuel
  induction fuel with
  | zero =>
    intro chain content iteration log hfuel
    rw [performReflectorFuel_eq]
    have hit : iteration > maxReflectorCallsPerChain := by omega
    rw [if_pos hit]
    exact ⟨[], by simp, rfl, rfl⟩
  | succ n ih =>
    intro chain content iteration log hfuel
    rw [performReflectorFuel_eq]
    have hit : ¬ iteration > maxReflectorCallsPerChain := by omega
    rw [if_neg hit]
    obtain ⟨segA, hA, _, uA, _, aA⟩ := reflectorAdvice_seg env taskID subtaskID humanMessage
      executionContext content log
    obtain ⟨advice, hadv⟩ := reflectorAdvice_ok env taskID subtaskID humanMessage
      executionContext content log hrender
    have aA1 := aA advice hadv
    rcases hRA : reflectorAdvice env taskID subtaskID humanMessage executionContext content
      log with ⟨adviceRes, log4⟩
    rw [hRA] at hA hadv
    simp only at hA hadv
    subst hA
    subst hadv
    simp only
    obtain ⟨segB, hB, _, cB⟩ := callWithRetries_seg env
      (chain ++ [TextParts ChatMessageType.ChatMessageTypeHuman advice]) origin (log ++ segA)
    obtain ⟨_, uB, aB, _⟩ := call_projections segB cB
    obtain ⟨r, h1, hr, hnil⟩ := hcall
      (chain ++ [TextParts ChatMessageType.ChatMessageTypeHuman advice]) (log ++ segA)
    rw [hr] at hB
    simp only at hB
    subst hB
    rw [hr]
    simp only
    obtain ⟨uin, uout, ures, hU, _⟩ :=
      updateMsgChainUsage_seg env chainID r.info (log ++ segA ++ segB)
    have hnone := husage r.info (log ++ segA ++ segB)
    rcases hUU : updateMsgChainUsage env chainID r.info (log ++ segA ++ segB) with ⟨uerr, log6⟩
    rw [hUU] at hU hnone
    simp only at hU hnone
    subst hU
    subst hnone
    simp only
    have hlen : r.funcCalls.length = 0 := by rw [hnil]; rfl
    rw [if_pos hlen]
    obtain ⟨seg1, g1, g2, g3⟩ := ih
      (chain ++ [TextParts ChatMessageType.ChatMessageTypeHuman advice] ++
        [TextParts ChatMessageType.ChatMessageTypeAI r.content])
      r.content (iteration + 1)
      (log ++ segA ++ segB ++ [Event.UpdateMsgChainUsage chainID uin uout ures]) (by omega)
    refine ⟨segA ++ segB ++ [Event.UpdateMsgChainUsage chainID uin uout ures] ++ seg1,
      by rw [g1]; simp, ?_, ?_⟩
    · rw [adviceCalls_append, adviceCalls_append, adviceCalls_append, List.length_append,
        List.length_append, List.length_append, aA1, aB, g2]
      simp [adviceCalls]
      omega
    · rw [usageUpdates_append, usageUpdates_append, usageUpdates_append, List.length_append,
        List.length_append, List.length_append, uA, uB, g3]
      simp [usageUpdates]
      omega

/-- A result returned by `performReflector` carries tool calls and is the result of a call of
`callWithRetries` for the original agent kind on a chain that extends the chain given and
ends with an advice as human message. -/
theorem performReflectorFuel_source (env : Env) (origin : ProviderOptionsType) (chainID : Int)
    (taskID subtaskID : Option Int) (humanMessage executionContext : String) :
    ∀ (fuel : Nat) (chain : Chain) (content : String) (iteration : Nat) (log : Log)
      (res : callResult) (log1 : Log),
      performReflectorFuel env origin chainID taskID subtaskID humanMessage executionContext
        fuel chain content iteration log = some (Res.ok res, log1) →
      res.funcCalls ≠ [] ∧
      ∃ chain1 advice before after, chain <+: chain1 ∧
        callWithRetries env (chain1 ++ [TextParts ChatMessageType.ChatMessageTypeHuman advice])
          origin before = (Res.ok res, after) := by
  intro fuel
  induction fuel with
  | zero =>
    intro chain content iteration log res log1 h
    rw [performReflectorFuel_eq] at h
    by_cases hit : iteration > maxReflectorCallsPerChain
    · rw [if_pos hit] at h
      simp at h
    · rw [if_neg hit] at h
      rcases hRA : reflectorAdvice env taskID subtaskID humanMessage executionContext content
        log with ⟨adviceRes, log4⟩
      rw [hRA] at h
      cases adviceRes with
      | err e => simp at h
      | ok advice =>
        simp only at h
        rcases hCW : callWithRetries env
          (chain ++ [TextParts ChatMessageType.ChatMessageTypeHuman advice]) origin log4 with
          ⟨callRes, log5⟩
        rw [hCW] at h
        cases callRes with
        | err e => simp at h
        | ok result =>
          simp only at h
          rcases hUU : updateMsgChainUsage env chainID result.info log5 with ⟨uerr, log6⟩
          rw [hUU] at h
          cases uerr with
          | some e => simp at h
          | none =>
            simp only at h
            by_cases hlen : result.funcCalls.length = 0
            · rw [if_pos hlen] at h
              simp at h
            · rw [if_neg hlen] at h
              simp only [Option.some.injEq, Prod.mk.injEq, Res.ok.injEq] at h
              obtain ⟨hres, _⟩ := h
              subst hres
              exact ⟨fun hnil => hlen (by rw [hnil]; rfl),
                chain, advice, log4, log5, List.prefix_refl _, hCW⟩
  | succ n ih =>
    intro chain content iteration log res log1 h
    rw [performReflectorFuel_eq] at h
    by_cases hit : iteration > maxReflectorCallsPerChain
    · rw [if_pos hit] at h
      simp at h
    · rw [if_neg hit] at h
      rcases hRA : reflectorAdvice env taskID subtaskID humanMessage executionContext content
        log with ⟨adviceRes, log4⟩
      rw [hRA] at h
      cases adviceRes with
      | err e => simp at h
      | ok advice =>
        simp only at h
        rcases hCW : callWithRetries env
          (chain ++ [TextParts ChatMessageType.ChatMessageTypeHuman advice]) origin log4 with
          ⟨callRes, log5⟩
        rw [hCW] at h
        cases callRes with
        | err e => simp at h
        | ok result =>
          simp only at h
          rcases hUU : updateMsgChainUsage env chainID result.info log5 with ⟨uerr, log6⟩
          rw [hUU] at h
          cases uerr with
          | some e => simp at h
          | none =>
            simp only at h
            by_cases hlen : result.funcCalls.length = 0
            · rw [if_pos hlen] at h
              obtain ⟨g1, chain1, advice1, before, after, g2, g3⟩ := ih _ _ _ _ res log1 h
              refine ⟨g1, chain1, advice1, before, after, ?_, g3⟩
              refine List.IsPrefix.trans ?_ g2
              rw [List.append_assoc]
              exact List.prefix_append _ _
            · rw [if_neg hlen] at h
              simp only [Option.some.injEq, Prod.mk.injEq, Res.ok.injEq] at h
              obtain ⟨hres, _⟩ := h
              subst hres
              exact ⟨fun hnil => hlen (by rw [hnil]; rfl),
                chain, advice, log4, log5, List.prefix_refl _, hCW⟩

/-! ## Claims about performReflector -/

/-- C11: called with an iteration above 3, `performReflector` returns a nil result and the
error `reflector called too many times` and leaves the log as it is: no prompt is rendered,
no advice sub-chain is run and the LLM is not called. Hence, started at iteration 1 with
collaborators for which every prompt renders, every LLM call made for the reflector returns
a result without tool calls and every usage update succeeds, it performs exactly 3 rounds
(3 advice runs, 3 results obtained from the LLM caller) and then fails with that error. -/
theorem performReflector_limit (env : Env) (origin : ProviderOptionsType) (chainID : Int)
    (taskID subtaskID : Option Int) (chain : Chain)
    (humanMessage content executionContext : String) (log : Log) :
    (∀ iteration, iteration > maxReflectorCallsPerChain →
      performReflector env origin chainID taskID subtaskID chain humanMessage content
        executionContext iteration log =
        some (Res.err (GoError.New "reflector called too many times"), log)) ∧
    ((∀ h t v, ∃ s, env.RenderTemplate h t v = Res.ok s) →
      (∀ ch h, ∃ r h1, callWithRetries env ch origin h = (Res.ok r, h1) ∧ r.funcCalls = []) →
      (∀ info h, (updateMsgChainUsage env chainID info h).1 = none) →
      ∃ seg,
        performReflector env origin chainID taskID subtaskID chain humanMessage content
          executionContext 1 log =
          some (Res.err (GoError.New "reflector called too many times"), log ++ seg) ∧
        (adviceCalls seg).length = 3 ∧ (usageUpdates seg).length = 3) := by
  refine ⟨?_, ?_⟩
  · intro iteration hit
    unfold performReflector
    rw [performReflectorFuel_eq, if_pos hit]
  · intro hrender hcall husage
    unfold performReflector
    exact performReflectorFuel_rounds env origin chainID taskID subtaskID humanMessage
      executionContext hrender hcall husage 3 chain content 1 log rfl

theorem performReflector_limit_witness :
    ∃ seg,
      performReflector proseEnv primaryAgent 7 none none [] "" "I would rather talk" "context"
        1 [] =
        some (Res.err (GoError.New "reflector called too many times"), [] ++ seg) ∧
      (adviceCalls seg).length = 3 ∧ (usageUpdates seg).length = 3 :=
  (performReflector_limit proseEnv primaryAgent 7 none none [] "" "I would rather talk"
    "context" []).2
    (fun _ _ _ => ⟨"template", rfl⟩)
    (fun ch h =>
      ⟨{ streamID := 0, funcCalls := [], info := none, thinking := "",
         content := "I would rather talk" },
       h ++ [Event.CallWithTools primaryAgent ch false []
         (Res.ok (mkResponse "I would rather talk" []))], rfl, rfl⟩)
    (fun _ _ => rfl)

/-- C12: whenever `performReflector` returns without error, the result carries at least one
tool call and is the result of a call of `callWithRetries` made with the original agent kind
on a chain that extends the given one and ends with the advice as human message. It is the
first such call that produced tool calls: in a round whose prompts render and whose call of
`callWithRetries` and usage update succeed, a result with tool calls is returned at once,
and a result without tool calls leads to the call of `performReflector` with `iteration + 1`
on the chain extended by the advice and by the text of the result. -/
theorem performReflector_returns_first_with_calls (env : Env) (origin : ProviderOptionsType)
    (chainID : Int) (taskID subtaskID : Option Int) (chain : Chain)
    (humanMessage content executionContext : String) (iteration : Nat) (log : Log) :
    (∀ res log1,
      performReflector env origin chainID taskID subtaskID chain humanMessage content
        executionContext iteration log = some (Res.ok res, log1) →
      res.funcCalls ≠ [] ∧
      ∃ chain1 advice before after, chain <+: chain1 ∧
        callWithRetries env (chain1 ++ [TextParts ChatMessageType.ChatMessageTypeHuman advice])
          origin before = (Res.ok res, after)) ∧
    (∀ advice log4 result log5 log6, iteration ≤ maxReflectorCallsPerChain →
      reflectorAdvice env taskID subtaskID humanMessage executionContext content log =
        (Res.ok advice, log4) →
      callWithRetries env (chain ++ [TextParts ChatMessageType.ChatMessageTypeHuman advice])
        origin log4 = (Res.ok result, log5) →
      updateMsgChainUsage env chainID result.info log5 = (none, log6) →
      (result.funcCalls ≠ [] →
        performReflector env origin chainID taskID subtaskID chain humanMessage content
          executionContext iteration log = some (Res.ok result, log6)) ∧
      (result.funcCalls = [] →
        performReflector env origin chainID taskID subtaskID chain humanMessage content
          executionContext iteration log =
        performReflector env origin chainID taskID subtaskID
          (chain ++ [TextParts ChatMessageType.ChatMessageTypeHuman advice] ++
            [TextParts ChatMessageType.ChatMessageTypeAI result.content])
          humanMessage result.content executionContext (iteration + 1) log6)) := by
  refine ⟨?_, ?_⟩
  · intro res log1 h
    exact performReflectorFuel_source env origin chainID taskID subtaskID humanMessage
      executionContext _ chain content iteration log res log1 h
  · intro advice log4 result log5 log6 hit hRA hCW hUU
    have hfuel : maxReflectorCallsPerChain + 1 - iteration =
        (maxReflectorCallsPerChain + 1 - (iteration + 1)) + 1 := by omega
    have hnot : ¬ iteration > maxReflectorCallsPerChain := by omega
    unfold performReflector
    rw [hfuel, performReflectorFuel_eq, if_neg hnot, hRA]
    simp only
    rw [hCW]
    simp only
    rw [hUU]
    simp only
    refine ⟨?_, ?_⟩
    · intro hne
      have hlen : ¬ result.funcCalls.length = 0 := fun h => hne (List.length_eq_zero.1 h)
      rw [if_neg hlen]
    · intro hnil
      have hlen : result.funcCalls.length = 0 := by rw [hnil]; rfl
      rw [if_pos hlen]

theorem performReflector_returns_first_with_calls_witness :
    performReflector reflectEnv primaryAgent 7 none none
        [TextParts ChatMessageType.ChatMessageTypeAI "I would rather talk"] ""
        "I would rather talk" "context" 1 reflectStartLog =
      some (Res.ok reflectResult, reflectEndLog) ∧
    reflectResult.funcCalls ≠ [] ∧
    ∃ chain1 advice before after,
      [TextParts ChatMessageType.ChatMessageTypeAI "I would rather talk"] <+: chain1 ∧
      callWithRetries reflectEnv
        (chain1 ++ [TextParts ChatMessageType.ChatMessageTypeHuman advice]) primaryAgent
        before = (Res.ok reflectResult, after) :=
  ⟨by decide,
    (performReflector_returns_first_with_calls reflectEnv primaryAgent 7 none none
      [TextParts ChatMessageType.ChatMessageTypeAI "I would rather talk"] ""
      "I would rather talk" "context" 1 reflectStartLog).1 reflectResult reflectEndLog
      (by decide)⟩

/-! ## The persisted chain -/

theorem tool_projections (seg : Log) (h : ∀ e ∈ seg, isToolEvent e = true) :
    llmResults seg = [] ∧ summarizerCalls seg = [] := by
  refine ⟨?_, ?_⟩ <;>
  · simp only [llmResults, summarizerCalls, List.filterMap_eq_nil_iff]
    intro e he
    have := h e he
    cases e <;> simp_all [isToolEvent]

theorem lastWrite_append (log seg : Log) (h : chainWrites seg = []) :
    lastWrite (log ++ seg) = lastWrite log := by
  unfold lastWrite
  rw [chainWrites_append, h, List.append_nil]

theorem Persisted_append (env : Env) (chain : Chain) (log seg : Log)
    (h : chainWrites seg = []) (hp : Persisted env chain log) :
    Persisted env chain (log ++ seg) := by
  obtain ⟨blob, h1, h2⟩ := hp
  exact ⟨blob, h1, by rw [lastWrite_append log seg h]; exact h2⟩

theorem Persisted_write (env : Env) (chain : Chain) (log : Log) (chainID : Int) (blob : String)
    (h : env.jsonMarshal chain = Res.ok blob) :
    Persisted env chain (log ++ [Event.UpdateMsgChain chainID blob none]) := by
  refine ⟨blob, h, ?_⟩
  unfold lastWrite
  rw [chainWrites_append]
  simp [chainWrites]

/-- The two ways `updateMsgChain` goes: the chain is written, or an error is returned after
at most one event, a failed write. -/
theorem updateMsgChain_cases (env : Env) (chainID : Int) (chain : Chain) (log : Log) :
    (∃ blob, env.jsonMarshal chain = Res.ok blob ∧
      updateMsgChain env chainID chain log =
        (none, log ++ [Event.UpdateMsgChain chainID blob none])) ∨
    (∃ e seg, updateMsgChain env chainID chain log = (some e, log ++ seg) ∧
      (∀ ev ∈ seg, isToolEvent ev = true)) := by
  unfold updateMsgChain
  cases hm : env.jsonMarshal chain with
  | err e =>
    right
    exact ⟨GoError.Wrap "failed to marshal msg chain: " e, [], by simp, by simp⟩
  | ok blob =>
    simp only
    cases hdb : env.dbUpdateMsgChain log chainID blob with
    | none =>
      left
      exact ⟨blob, rfl, rfl⟩
    | some e =>
      right
      refine ⟨GoError.Wrap "failed to update msg chain in DB: " e,
        [Event.UpdateMsgChain chainID blob (some e)], rfl, ?_⟩
      intro ev hev
      simp only [List.mem_singleton] at hev
      subst hev
      rfl

/-- The loop over the tool calls always ends, whatever the tool calls are: it adds only
events of the tool phase to the log, and when it starts with the chain persisted it ends with
the chain persisted or with a failed chain write. -/
theorem toolLoop_inv (env : Env) (chainID : Int) (result : callResult) :
    ∀ (calls : List ToolCall) (idx : Nat) (st : toolState),
      result.funcCalls.drop idx = calls →
      ∃ err st1 seg,
        toolLoop env chainID result idx calls st = some (err, st1) ∧
        st1.log = st.log ++ seg ∧ (∀ e ∈ seg, isToolEvent e = true) ∧
        (Persisted env st.chain st.log →
          Persisted env st1.chain st1.log ∨ WriteFailed env chainID err st1.chain st1.log) ∧
        (err = none → Persisted env st.chain st.log → Persisted env st1.chain st1.log) := by
  intro calls
  induction calls with
  | nil =>
    intro idx st _
    exact ⟨none, st, [], by simp [toolLoop], by simp, by simp, fun h => Or.inl h, fun _ h => h⟩
  | cons toolCall rest ih =>
    intro idx st hdrop
    obtain ⟨hget, hdrop1⟩ := drop_eq_cons result.funcCalls idx toolCall rest hdrop
    cases hfc : toolCall.FunctionCall with
    | none =>
      obtain ⟨err, st1, seg, h1, h2, h3, h4, h5⟩ := ih (idx + 1) st hdrop1
      exact ⟨err, st1, seg, by simp only [toolLoop, hfc]; exact h1, h2, h3, h4, h5⟩
    | some fc =>
      obtain ⟨out, seg0, hrun, _, hw0, ht0, _⟩ :=
        execToolCall_ok env chainID idx result st.seen st.log toolCall fc hget hfc
      obtain ⟨response, oerr⟩ := out
      cases oerr with
      | some e =>
        refine ⟨some e, { st with seen := st.seen ++ [toolCall], log := st.log ++ seg0 }, seg0,
          by simp only [toolLoop, hfc, hrun], rfl, ht0, ?_, ?_⟩
        · intro hp
          exact Or.inl (Persisted_append env st.chain st.log seg0 hw0 hp)
        · intro h
          cases h
      | none =>
        rcases updateMsgChain_cases env chainID
          (st.chain ++ [toolMessage toolCall fc.Name response]) (st.log ++ seg0) with
          ⟨blob, hblob, hu⟩ | ⟨e, segW, hu, htW⟩
        · obtain ⟨err, st1, seg1, h1, h2, h3, h4, h5⟩ := ih (idx + 1)
            { chain := st.chain ++ [toolMessage toolCall fc.Name response]
              seen := st.seen ++ [toolCall]
              wantToStop := if env.IsBarrierFunction fc.Name then true else st.wantToStop
              log := st.log ++ seg0 ++ [Event.UpdateMsgChain chainID blob none] } hdrop1
          have hp1 : Persisted env (st.chain ++ [toolMessage toolCall fc.Name response])
              (st.log ++ seg0 ++ [Event.UpdateMsgChain chainID blob none]) :=
            Persisted_write env _ _ chainID blob hblob
          refine ⟨err, st1, seg0 ++ Event.UpdateMsgChain chainID blob none :: seg1, ?_, ?_, ?_,
            fun _ => h4 hp1, fun he _ => h5 he hp1⟩
          · simp only [toolLoop, hfc, hrun, hu]
            exact h1
          · rw [h2]
            simp
          · intro ev hev
            simp only [List.mem_append, List.mem_cons] at hev
            rcases hev with hev | hev | hev
            · exact ht0 ev hev
            · subst hev; rfl
            · exact h3 ev hev
        · refine ⟨some e,
            { chain := st.chain ++ [toolMessage toolCall fc.Name response]
              seen := st.seen ++ [toolCall]
              wantToStop := st.wantToStop
              log := st.log ++ seg0 ++ segW }, seg0 ++ segW, ?_, by simp, ?_, ?_, ?_⟩
          · simp only [toolLoop, hfc, hrun, hu]
          · intro ev hev
            rcases List.mem_append.1 hev with hev | hev
            · exact ht0 ev hev
            · exact htW ev hev
          · intro _
            exact Or.inr ⟨st.log ++ seg0, e, hu, Or.inl rfl⟩
          · intro h
            cases h

/-- The tool phase always ends: it adds only events of the tool phase to the log, and when it
starts with the chain persisted it ends with the chain persisted or with a failed chain
write. -/
theorem toolPhase_inv (env : Env) (chainID : Int) (chain : Chain) (result : callResult)
    (seen : List ToolCall) (wantToStop : Bool) (log : Log) :
    ∃ err st seg,
      toolPhase env chainID chain result seen wantToStop log = some (err, st) ∧
      st.log = log ++ seg ∧ (∀ e ∈ seg, isToolEvent e = true) ∧
      (Persisted env st.chain st.log ∨ WriteFailed env chainID err st.chain st.log) ∧
      (err = none → Persisted env st.chain st.log) := by
  unfold toolPhase
  simp only
  rcases updateMsgChain_cases env chainID (chain ++ [toolCallsMessage result.funcCalls]) log with
    ⟨blob, hblob, hu⟩ | ⟨e, segW, hu, htW⟩
  · rw [hu]
    simp only
    obtain ⟨err, st1, seg1, h1, h2, h3, h4, h5⟩ := toolLoop_inv env chainID result
      result.funcCalls 0
      { chain := chain ++ [toolCallsMessage result.funcCalls], seen := seen,
        wantToStop := wantToStop, log := log ++ [Event.UpdateMsgChain chainID blob none] }
      (by simp)
    have hp1 : Persisted env (chain ++ [toolCallsMessage result.funcCalls])
        (log ++ [Event.UpdateMsgChain chainID blob none]) :=
      Persisted_write env _ _ chainID blob hblob
    refine ⟨err, st1, Event.UpdateMsgChain chainID blob none :: seg1, h1, ?_, ?_, h4 hp1,
      fun he => h5 he hp1⟩
    · rw [h2]
      simp
    · intro ev hev
      rcases List.mem_cons.1 hev with hev | hev
      · subst hev; rfl
      · exact h3 ev hev
  · rw [hu]
    exact ⟨some e, _, segW, rfl, rfl, htW, Or.inr ⟨log, e, hu, Or.inl rfl⟩, fun h => by cases h⟩

/-- Lines 172-185 always end: they add no LLM call to the log, and when the summarizer keeps
the chain on error and the chain is persisted before, the claim on the persisted chain holds
of the outcome. -/
theorem afterTools_inv (env : Env) (chainID : Int) (st : toolState) :
    ∃ seg, (afterTools env chainID st).2 = st.log ++ seg ∧ llmResults seg = [] ∧
      (SummarizerKeepsChainOnError env → Persisted env st.chain st.log →
        PassKeepsPersisted env chainID (afterTools env chainID st).1
          (afterTools env chainID st).2) := by
  unfold afterTools
  by_cases hstop : st.wantToStop = true
  · rw [if_pos hstop]
    exact ⟨[], by simp, rfl, fun _ hp => Or.inl hp⟩
  · rw [if_neg hstop]
    cases hsum : env.summarizer with
    | none => exact ⟨[], by simp, rfl, fun _ hp => hp⟩
    | some summarize =>
      simp only
      cases herr : (summarize st.log st.chain).2 with
      | some e =>
        refine ⟨[Event.SummarizeChain st.chain (summarize st.log st.chain).1 (some e)], rfl, rfl,
          ?_⟩
        intro hkeep hp
        have hsame : (summarize st.log st.chain).1 = st.chain :=
          hkeep summarize hsum st.log st.chain (by rw [herr]; simp)
        show Persisted env (summarize st.log st.chain).1 _
        rw [hsame]
        exact Persisted_append env st.chain st.log _ rfl hp
      | none =>
        simp only
        rcases updateMsgChain_cases env chainID (summarize st.log st.chain).1
          (st.log ++ [Event.SummarizeChain st.chain (summarize st.log st.chain).1 none]) with
          ⟨blob, hblob, hu⟩ | ⟨e, segW, hu, htW⟩
        · rw [hu]
          refine ⟨[Event.SummarizeChain st.chain (summarize st.log st.chain).1 none,
            Event.UpdateMsgChain chainID blob none], by simp, rfl, ?_⟩
          intro _ _
          exact Persisted_write env _ _ chainID blob hblob
        · rw [hu]
          refine ⟨Event.SummarizeChain st.chain (summarize st.log st.chain).1 none :: segW,
            by simp, ?_, ?_⟩
          · have := (tool_projections segW htW).1
            simpa [llmResults] using this
          · intro _ _
            exact Or.inr ⟨_, e, hu, Or.inl rfl⟩

/-! ## processAssistantResult -/

/-- The body of `processAssistantResult` in terms of its parts. -/
theorem processAssistantResult_eq (env : Env) (chainID : Int) (chain : Chain)
    (result : callResult) (log : Log) :
    processAssistantResult env chainID chain result log =
      match assistantStream env result log with
      | (some e, log1) =>
        (some (GoError.Wrap "failed to stream assistant result: " e), chain, log1)
      | (none, log1) =>
        match updateMsgChain env chainID
            ((match env.summarizer with
              | none => (chain, log1)
              | some summarize =>
                ((summarize log1 chain).1,
                  log1 ++ [Event.SummarizeChain chain (summarize log1 chain).1
                    (summarize log1 chain).2])).1 ++
              [TextParts ChatMessageType.ChatMessageTypeAI result.content])
            (match env.summarizer with
              | none => (chain, log1)
              | some summarize =>
                ((summarize log1 chain).1,
                  log1 ++ [Event.SummarizeChain chain (summarize log1 chain).1
                    (summarize log1 chain).2])).2 with
        | (some e, log2) =>
          (some (GoError.Wrap "failed to update msg chain: " e),
            (match env.summarizer with
              | none => (chain, log1)
              | some summarize =>
                ((summarize log1 chain).1,
                  log1 ++ [Event.SummarizeChain chain (summarize log1 chain).1
                    (summarize log1 chain).2])).1 ++
              [TextParts ChatMessageType.ChatMessageTypeAI result.content], log2)
        | (none, log2) =>
          (none,
            (match env.summarizer with
              | none => (chain, log1)
              | some summarize =>
                ((summarize log1 chain).1,
                  log1 ++ [Event.SummarizeChain chain (summarize log1 chain).1
                    (summarize log1 chain).2])).1 ++
              [TextParts ChatMessageType.ChatMessageTypeAI result.content], log2) := by
  unfold processAssistantResult assistantStream
  cases env.streamCb <;> rfl

/-- What the final update chunk of the assistant adds to the log: at most an id of the call
counter and one message to the stream sink. -/
theorem assistantStream_seg (env : Env) (result : callResult) (log : Log) :
    ∃ seg, (assistantStream env result log).2 = log ++ seg ∧
      (∀ e ∈ seg, isCallEvent e = true) ∧ llmResults seg = [] ∧ renderCalls seg = [] ∧
      adviceCalls seg = [] := by
  unfold assistantStream
  cases env.streamCb with
  | none => exact ⟨[], by simp, by simp, rfl, rfl, rfl⟩
  | some cb =>
    simp only
    by_cases hid : result.streamID = 0
    · rw [if_pos hid]
      generalize hc : cb _ _ = res
      generalize hk : StreamMessageChunk.mk _ _ _ _ _ = chunk
      refine ⟨[Event.CallCounterAdd (env.callCounterAdd log), Event.StreamCb chunk res],
        by simp, ?_, rfl, rfl, rfl⟩
      intro e he
      simp only [List.mem_cons, List.mem_singleton, List.not_mem_nil, or_false] at he
      rcases he with he | he <;> subst he <;> rfl
    · rw [if_neg hid]
      generalize hc : cb _ _ = res
      generalize hk : StreamMessageChunk.mk _ _ _ _ _ = chunk
      refine ⟨[Event.StreamCb chunk res], rfl, ?_, rfl, rfl, rfl⟩
      intro e he
      simp only [List.mem_singleton] at he
      subst he
      rfl

/-- The function `processAssistantResult` adds no LLM call to the log, and when it starts
with the chain persisted, the chain it leaves is persisted or a chain write has failed. -/
theorem processAssistantResult_inv (env : Env) (chainID : Int) (chain : Chain)
    (result : callResult) (log : Log) :
    ∃ seg, (processAssistantResult env chainID chain result log).2.2 = log ++ seg ∧
      llmResults seg = [] ∧
      (Persisted env chain log →
        Persisted env (processAssistantResult env chainID chain result log).2.1
            (processAssistantResult env chainID chain result log).2.2 ∨
          WriteFailed env chainID (processAssistantResult env chainID chain result log).1
            (processAssistantResult env chainID chain result log).2.1
            (processAssistantResult env chainID chain result log).2.2) := by
  rw [processAssistantResult_eq]
  obtain ⟨segS, hS, hcall, hllm, _, _⟩ := assistantStream_seg env result log
  rcases hAS : assistantStream env result log with ⟨serr, log1⟩
  rw [hAS] at hS
  simp only at hS
  subst hS
  cases serr with
  | some e =>
    exact ⟨segS, rfl, hllm,
      fun hp => Or.inl (Persisted_append env chain log segS (call_projections segS hcall).1 hp)⟩
  | none =>
    simp only
    generalize hsum : (match env.summarizer with
      | none => (chain, log ++ segS)
      | some summarize =>
        ((summarize (log ++ segS) chain).1,
          (log ++ segS) ++ [Event.SummarizeChain chain (summarize (log ++ segS) chain).1
            (summarize (log ++ segS) chain).2])) = summarized
    have hsumlog : ∃ seg1, summarized.2 = (log ++ segS) ++ seg1 ∧ llmResults seg1 = [] := by
      cases hs : env.summarizer with
      | none =>
        rw [hs] at hsum
        subst hsum
        exact ⟨[], by simp, rfl⟩
      | some summarize =>
        rw [hs] at hsum
        subst hsum
        exact ⟨[Event.SummarizeChain chain (summarize (log ++ segS) chain).1
          (summarize (log ++ segS) chain).2], rfl, rfl⟩
    obtain ⟨seg1, hseg1, hllm1⟩ := hsumlog
    rcases updateMsgChain_cases env chainID
        (summarized.1 ++ [TextParts ChatMessageType.ChatMessageTypeAI result.content])
        summarized.2 with ⟨blob, hblob, hu⟩ | ⟨e, segW, hu, htW⟩
    · rw [hu]
      refine ⟨segS ++ seg1 ++ [Event.UpdateMsgChain chainID blob none], ?_, ?_, ?_⟩
      · simp only [hseg1, List.append_assoc]
      · rw [llmResults_append, llmResults_append, hllm, hllm1]
        rfl
      · intro _
        exact Or.inl (Persisted_write env _ _ chainID blob hblob)
    · rw [hu]
      refine ⟨segS ++ seg1 ++ segW, ?_, ?_, ?_⟩
      · simp only [hseg1, List.append_assoc]
      · rw [llmResults_append, llmResults_append, hllm, hllm1, (tool_projections segW htW).1]
        rfl
      · intro _
        exact Or.inr ⟨_, e, hu, Or.inr rfl⟩

/-! ## One pass of the loop, whatever its outcome -/

/-- The first half of a pass always ends: it makes at most twelve LLM calls, and the chain in
memory it leaves is persisted when the chain was persisted at the start, a failed chain
write apart. -/
theorem callPhase_inv (env : Env) (agent : ProviderOptionsType) (chainID : Int)
    (taskID subtaskID : Option Int) (executionContext : String) (chain : Chain) (log : Log) :
    ∃ out seg,
      callPhase env agent chainID taskID subtaskID executionContext chain log =
        some (out, log ++ seg) ∧
      (llmResults seg).length ≤ 12 ∧
      (Persisted env chain log →
        match out with
        | Sum.inl (err, chain1) =>
          Persisted env chain1 (log ++ seg) ∨ WriteFailed env chainID err chain1 (log ++ seg)
        | Sum.inr _ => Persisted env chain (log ++ seg)) := by
  unfold callPhase
  obtain ⟨seg1, h1, hllm1, hcall1⟩ := callWithRetries_seg env chain agent log
  rcases hCW : callWithRetries env chain agent log with ⟨callRes, log1⟩
  rw [hCW] at h1
  simp only at h1
  subst h1
  have hw1 : chainWrites seg1 = [] := (call_projections seg1 hcall1).1
  cases callRes with
  | err e =>
    exact ⟨Sum.inl (some e, chain), seg1, rfl, by omega,
      fun hp => Or.inl (Persisted_append env chain log seg1 hw1 hp)⟩
  | ok result =>
    simp only
    obtain ⟨usageIn, usageOut, ures, h2, _⟩ :=
      updateMsgChainUsage_seg env chainID result.info (log ++ seg1)
    rcases hU : updateMsgChainUsage env chainID result.info (log ++ seg1) with ⟨uerr, log2⟩
    rw [hU] at h2
    simp only at h2
    subst h2
    have hseg2 : (log ++ seg1) ++ [Event.UpdateMsgChainUsage chainID usageIn usageOut ures] =
        log ++ (seg1 ++ [Event.UpdateMsgChainUsage chainID usageIn usageOut ures]) := by
      simp
    have hllm2 : llmResults (seg1 ++ [Event.UpdateMsgChainUsage chainID usageIn usageOut ures]) =
        llmResults seg1 := by
      rw [llmResults_append]
      simp [llmResults]
    have hw2 : chainWrites (seg1 ++ [Event.UpdateMsgChainUsage chainID usageIn usageOut ures]) =
        [] := by
      rw [chainWrites_append, hw1]
      rfl
    cases uerr with
    | some e =>
      refine ⟨Sum.inl (some e, chain), _, by rw [hseg2], by rw [hllm2]; omega, ?_⟩
      intro hp
      exact Or.inl (Persisted_append env chain log _ hw2 hp)
    | none =>
      simp only
      by_cases hlen : result.funcCalls.length = 0
      · rw [if_pos hlen]
        by_cases hag : agent = ProviderOptionsType.OptionsTypeAssistant
        · rw [if_pos hag]
          obtain ⟨seg3, h3, hllm3, hp3⟩ := processAssistantResult_inv env chainID chain result
            ((log ++ seg1) ++ [Event.UpdateMsgChainUsage chainID usageIn usageOut ures])
          rcases hPA : processAssistantResult env chainID chain result
            ((log ++ seg1) ++ [Event.UpdateMsgChainUsage chainID usageIn usageOut ures]) with
            ⟨err, chain1, log3⟩
          rw [hPA] at h3 hp3
          simp only at h3 hp3
          subst h3
          refine ⟨Sum.inl (err, chain1),
            (seg1 ++ [Event.UpdateMsgChainUsage chainID usageIn usageOut ures]) ++ seg3,
            by simp, ?_, ?_⟩
          · rw [llmResults_append, hllm2, hllm3]
            simp only [List.append_nil]
            omega
          · intro hp
            have hp2 := Persisted_append env chain log _ hw2 hp
            rw [← hseg2] at hp2
            have := hp3 hp2
            simp only [List.append_assoc] at this ⊢
            exact this
        · rw [if_neg hag]
          obtain ⟨out, seg3, h3, hllm3, hw3, _⟩ := performReflector_seg env agent chainID taskID
            subtaskID (chain ++ [TextParts ChatMessageType.ChatMessageTypeAI result.content])
            (getLastHumanMessage env chain) result.content executionContext 1
            ((log ++ seg1) ++ [Event.UpdateMsgChainUsage chainID usageIn usageOut ures])
          rw [h3]
          have hllm : (llmResults ((seg1 ++
              [Event.UpdateMsgChainUsage chainID usageIn usageOut ures]) ++ seg3)).length ≤
              12 := by
            rw [llmResults_append, hllm2, List.length_append]
            have : maxReflectorCallsPerChain = 3 := rfl
            rw [this] at hllm3
            omega
          have hw : chainWrites ((seg1 ++
              [Event.UpdateMsgChainUsage chainID usageIn usageOut ures]) ++ seg3) = [] := by
            rw [chainWrites_append, hw2, hw3]
            rfl
          cases out with
          | err e =>
            refine ⟨Sum.inl (some e, chain), _, ?_, hllm, ?_⟩
            · simp
            · intro hp
              exact Or.inl (Persisted_append env chain log _ hw hp)
          | ok result1 =>
            refine ⟨Sum.inr result1, _, ?_, hllm, ?_⟩
            · simp
            · intro hp
              exact Persisted_append env chain log _ hw hp
      · rw [if_neg hlen]
        refine ⟨Sum.inr result, _, by rw [hseg2], by rw [hllm2]; omega, ?_⟩
        intro hp
        exact Persisted_append env chain log _ hw2 hp

/-- The second half of a pass always ends: it makes no LLM call, and the chain in memory it
leaves is persisted, a failed chain write apart. -/
theorem runTools_inv (env : Env) (chainID : Int) (chain : Chain) (result : callResult)
    (seen : List ToolCall) (wantToStop : Bool) (log : Log) :
    ∃ out seg,
      runTools env chainID chain result seen wantToStop log = some (out, log ++ seg) ∧
      llmResults seg = [] ∧
      (SummarizerKeepsChainOnError env → PassKeepsPersisted env chainID out (log ++ seg)) := by
  unfold runTools
  obtain ⟨err, st, segT, hT, hlogT, htool, hpT, hpT1⟩ :=
    toolPhase_inv env chainID chain result seen wantToStop log
  rw [hT]
  cases err with
  | some e =>
    refine ⟨iterOutcome.ret (some e) st.chain, segT, by simp only [hlogT],
      (tool_projections segT htool).1, ?_⟩
    intro _
    show Persisted env st.chain (log ++ segT) ∨ WriteFailed env chainID (some e) st.chain
      (log ++ segT)
    rw [← hlogT]
    exact hpT
  | none =>
    simp only
    obtain ⟨segA, hA, hllmA, hpA⟩ := afterTools_inv env chainID st
    refine ⟨(afterTools env chainID st).1, segT ++ segA, ?_, ?_, ?_⟩
    · rw [← List.append_assoc, ← hlogT, ← hA]
    · rw [llmResults_append, (tool_projections segT htool).1, hllmA]
      rfl
    · intro hkeep
      have := hpA hkeep (hpT1 rfl)
      rw [hA, hlogT, List.append_assoc] at this
      exact this

/-- One pass of the loop always ends: it makes at most twelve LLM calls, and when the
summarizer keeps the chain on error and the chain is persisted at the start, the chain in
memory at the end of the pass is persisted, a failed chain write apart. -/
theorem iteration_inv (env : Env) (agent : ProviderOptionsType) (chainID : Int)
    (taskID subtaskID : Option Int) (executionContext : String) (chain : Chain)
    (seen : List ToolCall) (log : Log) :
    ∃ out seg,
      iteration env agent chainID taskID subtaskID executionContext chain seen log =
        some (out, log ++ seg) ∧
      (llmResults seg).length ≤ 12 ∧
      (SummarizerKeepsChainOnError env → Persisted env chain log →
        PassKeepsPersisted env chainID out (log ++ seg)) := by
  unfold iteration
  obtain ⟨out, seg1, h1, hllm1, hp1⟩ :=
    callPhase_inv env agent chainID taskID subtaskID executionContext chain log
  rw [h1]
  rcases out with ⟨err, chain1⟩ | result
  · exact ⟨iterOutcome.ret err chain1, seg1, rfl, hllm1, fun _ hp => hp1 hp⟩
  · simp only
    obtain ⟨out2, seg2, h2, hllm2, hp2⟩ :=
      runTools_inv env chainID chain result seen false (log ++ seg1)
    refine ⟨out2, seg1 ++ seg2, by rw [h2, List.append_assoc], ?_, ?_⟩
    · rw [llmResults_append, hllm2]
      simpa using hllm1
    · intro hkeep _
      have := hp2 hkeep
      rw [List.append_assoc] at this
      exact this

/-! ## C13: the LLM calls of one pass -/

/-- C13: every pass of the loop of `performAgentChain` ends, whatever the collaborators
answer, and the LLM client is called at most
`maxRetriesToCallAgentChain * (1 + maxReflectorCallsPerChain)` times in it, which is 12: the
log of the pass holds at most twelve `CallWithTools` events (the calls of line 86 and those
of the reflector it engages; the advice sub-chain is a collaborator of its own). -/
theorem iteration_llm_calls (env : Env) (agent : ProviderOptionsType) (chainID : Int)
    (taskID subtaskID : Option Int) (executionContext : String) (chain : Chain)
    (seen : List ToolCall) (log : Log) :
    ∃ out seg,
      iteration env agent chainID taskID subtaskID executionContext chain seen log =
        some (out, log ++ seg) ∧
      (llmResults seg).length ≤
        maxRetriesToCallAgentChain * (1 + maxReflectorCallsPerChain) ∧
      maxRetriesToCallAgentChain * (1 + maxReflectorCallsPerChain) = 12 := by
  obtain ⟨out, seg, h, hllm, _⟩ :=
    iteration_inv env agent chainID taskID subtaskID executionContext chain seen log
  exact ⟨out, seg, h, hllm, rfl⟩

/-! ## C20: the tool calls of a result have a function call -/

/-- C20: take a result returned without error by `callWithRetries` or by `performReflector`,
or the result with which line 119 of `performAgentChain` is reached. Every tool call in it
has a function call. So for every index below the number of tool calls, which are the indices
the loop of line 132 passes, `execToolCall` finds the tool call and its function call and does
not fault; the tool phase does not fault either, and when it ends without error every tool
call of the result has been handed to `execToolCall`, none was skipped at line 133. -/
theorem funcCalls_lookup_safe (env : Env) (agent : ProviderOptionsType) (chainID : Int)
    (taskID subtaskID : Option Int) (executionContext : String) (chain : Chain) (log : Log)
    (humanMessage content : String) (depth : Nat) (result : callResult) (log1 : Log)
    (h : callWithRetries env chain agent log = (Res.ok result, log1) ∨
      performReflector env agent chainID taskID subtaskID chain humanMessage content
        executionContext depth log = some (Res.ok result, log1) ∨
      callPhase env agent chainID taskID subtaskID executionContext chain log =
        some (Sum.inr result, log1)) :
    (∀ c ∈ result.funcCalls, ∃ fc, c.FunctionCall = some fc) ∧
    (∀ idx, idx < result.funcCalls.length → ∀ (seen : List ToolCall) (log2 : Log),
      ∃ toolCall fc out,
        result.funcCalls.get? idx = some toolCall ∧ toolCall.FunctionCall = some fc ∧
        execToolCall env chainID idx result seen log2 = some out) ∧
    (∀ (chain1 : Chain) (seen : List ToolCall) (wantToStop : Bool) (log2 : Log),
      ∃ err st seg,
        toolPhase env chainID chain1 result seen wantToStop log2 = some (err, st) ∧
        st.log = log2 ++ seg ∧
        (err = none → detectedCalls seg = result.funcCalls)) := by
  have hsome : ∀ c ∈ result.funcCalls, c.FunctionCall.isSome = true := by
    rcases h with h | h | h
    · exact callWithRetries_funcCalls env chain agent log result log1 h
    · unfold performReflector at h
      exact (performReflectorFuel_ok env agent chainID taskID subtaskID humanMessage
        executionContext _ chain content depth log result log1 h).2
    · exact (callPhase_result env agent chainID taskID subtaskID executionContext chain log
        result log1 h).2
  have hfc : ∀ c ∈ result.funcCalls, ∃ fc, c.FunctionCall = some fc := by
    intro c hc
    exact Option.isSome_iff_exists.1 (hsome c hc)
  refine ⟨hfc, ?_, ?_⟩
  · intro idx hidx seen log2
    have hget : result.funcCalls.get? idx = some (result.funcCalls.get ⟨idx, hidx⟩) :=
      List.get?_eq_get hidx
    obtain ⟨fc, hfc1⟩ := hfc _ (List.get_mem result.funcCalls idx hidx)
    obtain ⟨out, rest, hrun, _⟩ :=
      execToolCall_run env chainID idx result seen log2 _ fc hget hfc1
    exact ⟨_, fc, _, hget, hfc1, hrun⟩
  · intro chain1 seen wantToStop log2
    obtain ⟨err, st, seg, hT, hlog, _⟩ :=
      toolPhase_inv env chainID chain1 result seen wantToStop log2
    refine ⟨err, st, seg, hT, hlog, ?_⟩
    intro herr
    subst herr
    obtain ⟨seg1, hlog1, hdet, _⟩ :=
      toolPhase_ok env chainID chain1 result seen wantToStop log2 st hsome hT
    have : seg1 = seg := List.append_cancel_left (hlog1.symm.trans hlog)
    rw [← this]
    exact hdet

theorem funcCalls_lookup_safe_witness :
    callPhase barrierEnv primaryAgent 7 none none "context" [] [] =
      some (Sum.inr barrierResult, barrierCallLog) ∧
    (∀ c ∈ barrierResult.funcCalls, ∃ fc, c.FunctionCall = some fc) ∧
    (∃ toolCall fc out,
      barrierResult.funcCalls.get? 2 = some toolCall ∧ toolCall.FunctionCall = some fc ∧
      execToolCall barrierEnv 7 2 barrierResult [] barrierCallLog = some out) :=
  ⟨by decide,
    (funcCalls_lookup_safe barrierEnv primaryAgent 7 none none "context" [] [] "" "" 1
      barrierResult barrierCallLog (Or.inr (Or.inr (by decide)))).1,
    (funcCalls_lookup_safe barrierEnv primaryAgent 7 none none "context" [] [] "" "" 1
      barrierResult barrierCallLog (Or.inr (Or.inr (by decide)))).2.1 2 (by decide) []
      barrierCallLog⟩

/-! ## The chains handed to the LLM client -/

theorem llmChains_append (a b : Log) : llmChains (a ++ b) = llmChains a ++ llmChains b := by
  simp [llmChains]

theorem stream_only_chains (seg : Log) (h : ∀ e ∈ seg, ∃ m r, e = Event.StreamCb m r) :
    llmChains seg = [] := by
  simp only [llmChains, List.filterMap_eq_nil_iff]
  intro e he
  obtain ⟨m, r, rfl⟩ := h e he
  rfl

/-- One LLM call hands the chain to the client once. -/
theorem callLLM_chains (env : Env) (chain : Chain) (agent : ProviderOptionsType)
    (result : callResult) (log : Log) :
    ∃ seg, (callLLM env chain agent result log).2.2 = log ++ seg ∧ llmChains seg = [chain] := by
  cases hcb : env.streamCb with
  | none =>
    exact ⟨[Event.CallWithTools agent chain false (env.CallWithTools log agent chain false).1
      (env.CallWithTools log agent chain false).2], by simp only [callLLM, hcb], rfl⟩
  | some cb =>
    obtain ⟨seg, h1, h2⟩ := deliverChunks_log cb (env.callCounterAdd log)
      (env.CallWithTools (log ++ [Event.CallCounterAdd (env.callCounterAdd log)]) agent chain
        true).1
      (log ++ [Event.CallCounterAdd (env.callCounterAdd log)] ++
        [Event.CallWithTools agent chain true
          (env.CallWithTools (log ++ [Event.CallCounterAdd (env.callCounterAdd log)]) agent
            chain true).1
          (env.CallWithTools (log ++ [Event.CallCounterAdd (env.callCounterAdd log)]) agent
            chain true).2])
    refine ⟨Event.CallCounterAdd (env.callCounterAdd log) ::
      Event.CallWithTools agent chain true
          (env.CallWithTools (log ++ [Event.CallCounterAdd (env.callCounterAdd log)]) agent
            chain true).1
          (env.CallWithTools (log ++ [Event.CallCounterAdd (env.callCounterAdd log)]) agent
            chain true).2 :: seg, ?_, ?_⟩
    · simp only [callLLM, hcb]
      rw [h1]
      simp
    · have := stream_only_chains seg h2
      simp only [llmChains] at this ⊢
      simp [this]

/-- The retry loop of `callWithRetries` hands the same chain to the client at every attempt,
and makes at least one attempt. -/
theorem callAttempts_chains (env : Env) (chain : Chain) (agent : ProviderOptionsType) :
    ∀ (remaining : Nat) (errs : List GoError) (result : callResult) (log : Log),
      ∃ seg, (callAttempts env chain agent remaining errs result log).2 = log ++ seg ∧
        (∀ c ∈ llmChains seg, c = chain) ∧ (0 < remaining → llmChains seg ≠ []) := by
  intro remaining
  induction remaining with
  | zero =>
    intro errs result log
    exact ⟨[], by simp [callAttempts], by simp [llmChains], by simp⟩
  | succ n ih =>
    intro errs result log
    obtain ⟨seg0, h0, k0⟩ := callLLM_chains env chain agent result log
    cases hfill : (attemptFill (callLLM env chain agent result log).1
        (callLLM env chain agent result log).2.1).1 with
    | none =>
      rw [callAttempts_succ_ok env chain agent n errs result log hfill]
      exact ⟨seg0, h0, by rw [k0]; simp, by rw [k0]; simp⟩
    | some e =>
      cases hwait : env.retryWait (callLLM env chain agent result log).2.2 with
      | some ce =>
        rw [callAttempts_succ_cancel env chain agent n errs result log e ce hfill hwait]
        have hch : llmChains (seg0 ++ [Event.RetryWait (some ce)]) = [chain] := by
          rw [llmChains_append, k0]
          rfl
        exact ⟨seg0 ++ [Event.RetryWait (some ce)], by simp only [h0]; simp,
          by rw [hch]; simp, by rw [hch]; simp⟩
      | none =>
        rw [callAttempts_succ_retry env chain agent n errs result log e hfill hwait]
        obtain ⟨seg1, h1, k1, _⟩ := ih (errs ++ [e])
          (attemptFill (callLLM env chain agent result log).1
            (callLLM env chain agent result log).2.1).2
          ((callLLM env chain agent result log).2.2 ++ [Event.RetryWait none])
        have hch : llmChains (seg0 ++ Event.RetryWait none :: seg1) =
            chain :: llmChains seg1 := by
          rw [llmChains_append, k0]
          rfl
        refine ⟨seg0 ++ Event.RetryWait none :: seg1, by rw [h1, h0]; simp, ?_, ?_⟩
        · rw [hch]
          intro c hc
          rcases List.mem_cons.1 hc with hc | hc
          · exact hc
          · exact k1 c hc
        · rw [hch]
          simp

/-- The function `callWithRetries` calls the LLM client at least once, and always with the
chain it was given. -/
theorem callWithRetries_chains (env : Env) (chain : Chain) (agent : ProviderOptionsType)
    (log : Log) :
    ∃ seg, (callWithRetries env chain agent log).2 = log ++ seg ∧
      (llmChains seg).head? = some chain := by
  obtain ⟨seg0, h0, k0, n0⟩ :=
    callAttempts_chains env chain agent maxRetriesToCallAgentChain [] callResult.zero log
  obtain ⟨seg1, h1, _⟩ := callWithRetries_log env chain agent log
  refine ⟨seg0 ++ seg1, by rw [h1, h0]; simp, ?_⟩
  rw [llmChains_append]
  have hne := n0 (by decide)
  cases hl : llmChains seg0 with
  | nil => exact absurd hl hne
  | cons c rest =>
    have : c = chain := k0 c (by rw [hl]; simp)
    simp [this]

/-- A pass of the loop starts with the LLM call of line 86 on the chain of the loop. -/
theorem iteration_first_chain (env : Env) (agent : ProviderOptionsType) (chainID : Int)
    (taskID subtaskID : Option Int) (executionContext : String) (chain : Chain)
    (seen : List ToolCall) (log : Log) :
    ∃ out seg,
      iteration env agent chainID taskID subtaskID executionContext chain seen log =
        some (out, log ++ seg) ∧
      (llmChains seg).head? = some chain := by
  obtain ⟨seg1, h1, hhead⟩ := callWithRetries_chains env chain agent log
  have hpre : ∀ rest, (llmChains (seg1 ++ rest)).head? = some chain := by
    intro rest
    rw [llmChains_append]
    cases hl : llmChains seg1 with
    | nil => rw [hl] at hhead; simp at hhead
    | cons c more => rw [hl] at hhead; simpa using hhead
  have hcp : ∃ out seg2,
      callPhase env agent chainID taskID subtaskID executionContext chain log =
        some (out, (log ++ seg1) ++ seg2) := by
    unfold callPhase
    rcases hCW : callWithRetries env chain agent log with ⟨callRes, log1⟩
    rw [hCW] at h1
    simp only at h1
    subst h1
    cases callRes with
    | err e => exact ⟨Sum.inl (some e, chain), [], by simp⟩
    | ok result =>
      simp only
      obtain ⟨usageIn, usageOut, ures, h2, _⟩ :=
        updateMsgChainUsage_seg env chainID result.info (log ++ seg1)
      rcases hU : updateMsgChainUsage env chainID result.info (log ++ seg1) with ⟨uerr, log2⟩
      rw [hU] at h2
      simp only at h2
      subst h2
      cases uerr with
      | some e => exact ⟨Sum.inl (some e, chain), _, rfl⟩
      | none =>
        simp only
        by_cases hlen : result.funcCalls.length = 0
        · rw [if_pos hlen]
          by_cases hag : agent = ProviderOptionsType.OptionsTypeAssistant
          · rw [if_pos hag]
            obtain ⟨seg3, h3, _⟩ := processAssistantResult_inv env chainID chain result
              ((log ++ seg1) ++ [Event.UpdateMsgChainUsage chainID usageIn usageOut ures])
            rcases hPA : processAssistantResult env chainID chain result
              ((log ++ seg1) ++ [Event.UpdateMsgChainUsage chainID usageIn usageOut ures]) with
              ⟨err, chain1, log3⟩
            rw [hPA] at h3
            simp only at h3
            subst h3
            exact ⟨Sum.inl (err, chain1),
              [Event.UpdateMsgChainUsage chainID usageIn usageOut ures] ++ seg3, by simp⟩
          · rw [if_neg hag]
            obtain ⟨out, seg3, h3, _⟩ := performReflector_seg env agent chainID taskID
              subtaskID (chain ++ [TextParts ChatMessageType.ChatMessageTypeAI result.content])
              (getLastHumanMessage env chain) result.content executionContext 1
              ((log ++ seg1) ++ [Event.UpdateMsgChainUsage chainID usageIn usageOut ures])
            rw [h3]
            cases out with
            | err e =>
              exact ⟨Sum.inl (some e, chain),
                [Event.UpdateMsgChainUsage chainID usageIn usageOut ures] ++ seg3, by simp⟩
            | ok result1 =>
              exact ⟨Sum.inr result1,
                [Event.UpdateMsgChainUsage chainID usageIn usageOut ures] ++ seg3, by simp⟩
        · rw [if_neg hlen]
          exact ⟨Sum.inr result, _, rfl⟩
  obtain ⟨out, seg2, hcp⟩ := hcp
  unfold iteration
  rw [hcp]
  rcases out with ⟨err, chain1⟩ | result
  · refine ⟨iterOutcome.ret err chain1, seg1 ++ seg2, by simp, hpre seg2⟩
  · simp only
    obtain ⟨out2, seg3, h3, _⟩ :=
      runTools_inv env chainID chain result seen false ((log ++ seg1) ++ seg2)
    refine ⟨out2, seg1 ++ (seg2 ++ seg3), by rw [h3]; simp, hpre _⟩

/-! ## C17: a failing summarizer -/

/-- C17: let a summarizer be installed. (1) Take a pass of the loop of `performAgentChain`
whose tool phase ends without error and without a barrier tool (`wantToStop` is false), and
let `SummarizeChain` fail at line 177. Then `performAgentChain` does not return: the pass ends
with the chain the summarizer returned, the only event after the tool phase is the call of the
summarizer (no chain write), and the loop goes on with the next pass, whose first LLM call is
made on the chain the summarizer returned. (2) Let `SummarizeChain` fail inside
`processAssistantResult` (the stream sink, if any, has accepted the final chunk). Then the ai
message with the content is appended to the chain the summarizer returned and that chain is
handed to `updateMsgChain`; when this write succeeds the chain is persisted and nil is
returned, and otherwise the error returned is that of the write, never that of the
summarizer. -/
theorem summarizer_failure_continues (env : Env) (agent : ProviderOptionsType) (chainID : Int)
    (taskID subtaskID : Option Int) (executionContext : String)
    (summarize : Log → Chain → Chain × Option GoError)
    (hsum : env.summarizer = some summarize) :
    (∀ (chain : Chain) (seen : List ToolCall) (log : Log) (result : callResult) (log1 : Log)
        (st : toolState) (e : GoError),
      callPhase env agent chainID taskID subtaskID executionContext chain log =
        some (Sum.inr result, log1) →
      toolPhase env chainID chain result seen false log1 = some (none, st) →
      st.wantToStop = false →
      (summarize st.log st.chain).2 = some e →
      iteration env agent chainID taskID subtaskID executionContext chain seen log =
        some (iterOutcome.next (summarize st.log st.chain).1 st.seen,
          st.log ++ [Event.SummarizeChain st.chain (summarize st.log st.chain).1 (some e)]) ∧
      (∀ fuel,
        agentLoop env agent chainID taskID subtaskID executionContext (fuel + 1) chain seen
            log =
          agentLoop env agent chainID taskID subtaskID executionContext fuel
            (summarize st.log st.chain).1 st.seen
            (st.log ++
              [Event.SummarizeChain st.chain (summarize st.log st.chain).1 (some e)])) ∧
      ∃ out seg,
        iteration env agent chainID taskID subtaskID executionContext
            (summarize st.log st.chain).1 st.seen
            (st.log ++ [Event.SummarizeChain st.chain (summarize st.log st.chain).1 (some e)]) =
          some (out,
            (st.log ++
              [Event.SummarizeChain st.chain (summarize st.log st.chain).1 (some e)]) ++ seg) ∧
        (llmChains seg).head? = some (summarize st.log st.chain).1) ∧
    (∀ (chain : Chain) (result : callResult) (log log1 : Log) (e : GoError),
      assistantStream env result log = (none, log1) →
      (summarize log1 chain).2 = some e →
      (∀ blob,
        env.jsonMarshal ((summarize log1 chain).1 ++
          [TextParts ChatMessageType.ChatMessageTypeAI result.content]) = Res.ok blob →
        env.dbUpdateMsgChain
          (log1 ++ [Event.SummarizeChain chain (summarize log1 chain).1 (some e)])
          chainID blob = none →
        processAssistantResult env chainID chain result log =
          (none,
            (summarize log1 chain).1 ++
              [TextParts ChatMessageType.ChatMessageTypeAI result.content],
            log1 ++ [Event.SummarizeChain chain (summarize log1 chain).1 (some e),
              Event.UpdateMsgChain chainID blob none]) ∧
        Persisted env
          ((summarize log1 chain).1 ++
            [TextParts ChatMessageType.ChatMessageTypeAI result.content])
          (log1 ++ [Event.SummarizeChain chain (summarize log1 chain).1 (some e),
            Event.UpdateMsgChain chainID blob none])) ∧
      (∀ writeErr logW,
        updateMsgChain env chainID
          ((summarize log1 chain).1 ++
            [TextParts ChatMessageType.ChatMessageTypeAI result.content])
          (log1 ++ [Event.SummarizeChain chain (summarize log1 chain).1 (some e)]) =
            (some writeErr, logW) →
        processAssistantResult env chainID chain result log =
          (some (GoError.Wrap "failed to update msg chain: " writeErr),
            (summarize log1 chain).1 ++
              [TextParts ChatMessageType.ChatMessageTypeAI result.content],
            logW))) := by
  refine ⟨?_, ?_⟩
  · intro chain seen log result log1 st e hcall htools hstop herr
    have hafter : afterTools env chainID st =
        (iterOutcome.next (summarize st.log st.chain).1 st.seen,
          st.log ++ [Event.SummarizeChain st.chain (summarize st.log st.chain).1 (some e)]) := by
      unfold afterTools
      rw [if_neg (by rw [hstop]; simp), hsum]
      simp only [herr]
    have hiter : iteration env agent chainID taskID subtaskID executionContext chain seen log =
        some (iterOutcome.next (summarize st.log st.chain).1 st.seen,
          st.log ++ [Event.SummarizeChain st.chain (summarize st.log st.chain).1 (some e)]) := by
      unfold iteration
      rw [hcall]
      simp only
      unfold runTools
      rw [htools]
      simp only
      rw [hafter]
    refine ⟨hiter, ?_, ?_⟩
    · intro fuel
      rw [agentLoop, hiter]
    · obtain ⟨out, seg, h1, h2⟩ := iteration_first_chain env agent chainID taskID subtaskID
        executionContext (summarize st.log st.chain).1 st.seen
        (st.log ++ [Event.SummarizeChain st.chain (summarize st.log st.chain).1 (some e)])
      exact ⟨out, seg, h1, h2⟩
  · intro chain result log log1 e hstream herr
    refine ⟨?_, ?_⟩
    · intro blob hblob hdb
      have hw : updateMsgChain env chainID
          ((summarize log1 chain).1 ++
            [TextParts ChatMessageType.ChatMessageTypeAI result.content])
          (log1 ++ [Event.SummarizeChain chain (summarize log1 chain).1 (some e)]) =
          (none, (log1 ++ [Event.SummarizeChain chain (summarize log1 chain).1 (some e)]) ++
            [Event.UpdateMsgChain chainID blob none]) := by
        unfold updateMsgChain
        rw [hblob]
        simp only [hdb]
      refine ⟨?_, ?_⟩
      · rw [processAssistantResult_eq, hstream]
        simp only [hsum, herr]
        rw [hw]
        simp
      · have := Persisted_write env
          ((summarize log1 chain).1 ++
            [TextParts ChatMessageType.ChatMessageTypeAI result.content])
          (log1 ++ [Event.SummarizeChain chain (summarize log1 chain).1 (some e)])
          chainID blob hblob
        simpa using this
    · intro writeErr logW hw
      rw [processAssistantResult_eq, hstream]
      simp only [hsum, herr]
      rw [hw]

theorem summarizer_failure_continues_witness :
    callPhase summaryFailsEnv primaryAgent 7 none none "context" [] [] =
      some (Sum.inr reflectResult, summaryCallLog) ∧
    toolPhase summaryFailsEnv 7 [] reflectResult [] false summaryCallLog =
      some (none, summaryState) ∧
    iteration summaryFailsEnv primaryAgent 7 none none "context" [] [] [] =
      some (iterOutcome.next summaryState.chain summaryState.seen,
        summaryState.log ++ [Event.SummarizeChain summaryState.chain summaryState.chain
          (some (GoError.New "summarizer is down"))]) ∧
    processAssistantResult assistantSummaryFailsEnv 7 [] helloResult [] =
      (none, [TextParts ChatMessageType.ChatMessageTypeAI "hello"],
        [Event.SummarizeChain [] [] (some (GoError.New "summarizer is down")),
         Event.UpdateMsgChain 7 "a1" none]) :=
  ⟨by decide, by decide,
    ((summarizer_failure_continues summaryFailsEnv primaryAgent 7 none none "context"
      failingSummarizer rfl).1 [] [] [] reflectResult summaryCallLog summaryState
      (GoError.New "summarizer is down") (by decide) (by decide) rfl rfl).1,
    (((summarizer_failure_continues assistantSummaryFailsEnv
      ProviderOptionsType.OptionsTypeAssistant 7 none none "context"
      failingSummarizer rfl).2 [] helloResult [] [] (GoError.New "summarizer is down") rfl
      rfl).1 "a1" (by decide) (by decide)).1⟩

/-! ## The renders of the reflector prompts -/

theorem renderCalls_append (a b : Log) : renderCalls (a ++ b) = renderCalls a ++ renderCalls b := by
  simp [renderCalls]

theorem call_renderCalls (seg : Log) (h : ∀ e ∈ seg, isCallEvent e = true) :
    renderCalls seg = [] := by
  simp only [renderCalls, List.filterMap_eq_nil_iff]
  intro e he
  have := h e he
  cases e <;> simp_all [isCallEvent]

/-- The advice of the reflector starts with the clock and the render of the question
prompt. -/
theorem reflectorAdvice_head (env : Env) (taskID subtaskID : Option Int)
    (humanMessage executionContext content : String) (log : Log) :
    ∃ seg, (reflectorAdvice env taskID subtaskID humanMessage executionContext content log).2 =
        log ++ seg ∧
      (renderCalls seg).head? = some PromptType.PromptTypeQuestionReflector := by
  unfold reflectorAdvice
  simp only []
  generalize env.RenderTemplate (log ++ [Event.GetCurrentTime (env.getCurrentTime log)])
    PromptType.PromptTypeQuestionReflector _ = userRes
  cases userRes with
  | err e =>
    exact ⟨[Event.GetCurrentTime (env.getCurrentTime log),
      Event.RenderTemplate PromptType.PromptTypeQuestionReflector
        (TemplateVars.user content env.GetBarrierToolNames) (Res.err e)], by simp, rfl⟩
  | ok userTmpl =>
    dsimp only
    generalize env.RenderTemplate _ PromptType.PromptTypeReflector _ = systemRes
    cases systemRes with
    | err e =>
      exact ⟨[Event.GetCurrentTime (env.getCurrentTime log),
        Event.RenderTemplate PromptType.PromptTypeQuestionReflector
          (TemplateVars.user content env.GetBarrierToolNames) (Res.ok userTmpl),
        Event.RenderTemplate PromptType.PromptTypeReflector
          (TemplateVars.system env.GetBarrierTools (env.getCurrentTime log) executionContext
            (if humanMessage ≠ "" then some humanMessage else none)) (Res.err e)],
        by simp, rfl⟩
    | ok systemTmpl =>
      dsimp only
      generalize env.performSimpleChain _ taskID subtaskID systemTmpl userTmpl = adviceRes
      exact ⟨[Event.GetCurrentTime (env.getCurrentTime log),
        Event.RenderTemplate PromptType.PromptTypeQuestionReflector
          (TemplateVars.user content env.GetBarrierToolNames) (Res.ok userTmpl),
        Event.RenderTemplate PromptType.PromptTypeReflector
          (TemplateVars.system env.GetBarrierTools (env.getCurrentTime log) executionContext
            (if humanMessage ≠ "" then some humanMessage else none)) (Res.ok systemTmpl),
        Event.PerformSimpleChain taskID subtaskID systemTmpl userTmpl adviceRes],
        by simp, rfl⟩

/-- A run of `performReflector` within the limit returns, and the first prompt rendered in
it is the question of the reflector. -/
theorem performReflectorFuel_renders (env : Env) (origin : ProviderOptionsType) (chainID : Int)
    (taskID subtaskID : Option Int) (humanMessage executionContext : String)
    (fuel : Nat) (chain : Chain) (content : String) (iteration : Nat) (log : Log)
    (hfuel : maxReflectorCallsPerChain + 1 ≤ fuel + iteration)
    (hit : ¬ iteration > maxReflectorCallsPerChain) :
    ∃ out seg,
      performReflectorFuel env origin chainID taskID subtaskID humanMessage executionContext
        fuel chain content iteration log = some (out, log ++ seg) ∧
      (renderCalls seg).head? = some PromptType.PromptTypeQuestionReflector := by
  rw [performReflectorFuel_eq, if_neg hit]
  obtain ⟨segA, hA, hhead⟩ :=
    reflectorAdvice_head env taskID subtaskID humanMessage executionContext content log
  have hpre : ∀ rest, (renderCalls (segA ++ rest)).head? =
      some PromptType.PromptTypeQuestionReflector := by
    intro rest
    rw [renderCalls_append]
    cases hl : renderCalls segA with
    | nil => rw [hl] at hhead; simp at hhead
    | cons c more => rw [hl] at hhead; simpa using hhead
  rcases hRA : reflectorAdvice env taskID subtaskID humanMessage executionContext content log
    with ⟨adviceRes, log4⟩
  rw [hRA] at hA
  simp only at hA
  subst hA
  cases adviceRes with
  | err e =>
    exact ⟨Res.err e, segA, rfl, by simpa using hpre []⟩
  | ok advice =>
    simp only
    obtain ⟨seg1, h1, _, _⟩ := callWithRetries_seg env
      (chain ++ [TextParts ChatMessageType.ChatMessageTypeHuman advice]) origin (log ++ segA)
    rcases hCW : callWithRetries env
      (chain ++ [TextParts ChatMessageType.ChatMessageTypeHuman advice]) origin (log ++ segA)
      with ⟨callRes, log5⟩
    rw [hCW] at h1
    simp only at h1
    subst h1
    cases callRes with
    | err e =>
      exact ⟨Res.err e, segA ++ seg1, by simp, hpre seg1⟩
    | ok result =>
      simp only
      obtain ⟨usageIn, usageOut, ures, h2, _⟩ :=
        updateMsgChainUsage_seg env chainID result.info ((log ++ segA) ++ seg1)
      rcases hU : updateMsgChainUsage env chainID result.info ((log ++ segA) ++ seg1) with
        ⟨uerr, log6⟩
      rw [hU] at h2
      simp only at h2
      subst h2
      cases uerr with
      | some e =>
        exact ⟨Res.err e,
          segA ++ (seg1 ++ [Event.UpdateMsgChainUsage chainID usageIn usageOut ures]),
          by simp, hpre _⟩
      | none =>
        simp only
        by_cases hlen : result.funcCalls.length = 0
        · rw [if_pos hlen]
          cases fuel with
          | zero => omega
          | succ fuel1 =>
            simp only
            obtain ⟨out, seg3, h3, _⟩ := performReflectorFuel_seg env origin chainID taskID
              subtaskID humanMessage executionContext fuel1
              (chain ++ [TextParts ChatMessageType.ChatMessageTypeHuman advice] ++
                [TextParts ChatMessageType.ChatMessageTypeAI result.content])
              result.content (iteration + 1)
              (((log ++ segA) ++ seg1) ++
                [Event.UpdateMsgChainUsage chainID usageIn usageOut ures]) (by omega)
            rw [h3]
            exact ⟨out,
              segA ++ (seg1 ++ ([Event.UpdateMsgChainUsage chainID usageIn usageOut ures] ++
                seg3)), by simp, hpre _⟩
        · rw [if_neg hlen]
          exact ⟨Res.ok result,
            segA ++ (seg1 ++ [Event.UpdateMsgChainUsage chainID usageIn usageOut ures]),
            by simp, hpre _⟩

/-- The body of `processAssistantResult` once the stream sink has accepted the final
chunk. -/
theorem processAssistantResult_summary (env : Env) (chainID : Int) (chain : Chain)
    (result : callResult) (log logS : Log)
    (hstream : assistantStream env result log = (none, logS)) :
    processAssistantResult env chainID chain result log =
      match updateMsgChain env chainID
          ((assistantSummary env chain logS).1 ++
            [TextParts ChatMessageType.ChatMessageTypeAI result.content])
          (assistantSummary env chain logS).2 with
      | (some e, log2) =>
        (some (GoError.Wrap "failed to update msg chain: " e),
          (assistantSummary env chain logS).1 ++
            [TextParts ChatMessageType.ChatMessageTypeAI result.content], log2)
      | (none, log2) =>
        (none, (assistantSummary env chain logS).1 ++
          [TextParts ChatMessageType.ChatMessageTypeAI result.content], log2) := by
  rw [processAssistantResult_eq, hstream]
  rfl

/-- The summarizer step of `processAssistantResult` adds at most the call of the summarizer
to the log. -/
theorem assistantSummary_seg (env : Env) (chain : Chain) (log : Log) :
    ∃ seg, (assistantSummary env chain log).2 = log ++ seg ∧
      llmResults seg = [] ∧ chainWrites seg = [] ∧ renderCalls seg = [] ∧
      adviceCalls seg = [] := by
  unfold assistantSummary
  cases env.summarizer with
  | none => exact ⟨[], by simp, rfl, rfl, rfl, rfl⟩
  | some summarize => exact ⟨[_], rfl, rfl, rfl, rfl, rfl⟩

theorem tool_renderCalls (seg : Log) (h : ∀ e ∈ seg, isToolEvent e = true) :
    renderCalls seg = [] ∧ adviceCalls seg = [] := by
  refine ⟨?_, ?_⟩ <;>
  · simp only [renderCalls, adviceCalls, List.filterMap_eq_nil_iff]
    intro e he
    have := h e he
    cases e <;> simp_all [isToolEvent]

/-- The function `processAssistantResult` renders no prompt, runs no advice sub-chain and
makes no LLM call. -/
theorem processAssistantResult_quiet (env : Env) (chainID : Int) (chain : Chain)
    (result : callResult) (log : Log) :
    ∃ seg, (processAssistantResult env chainID chain result log).2.2 = log ++ seg ∧
      llmResults seg = [] ∧ renderCalls seg = [] ∧ adviceCalls seg = [] := by
  obtain ⟨segS, hS, hcall, hllm, hren, hadv⟩ := assistantStream_seg env result log
  rcases hAS : assistantStream env result log with ⟨serr, logS⟩
  rw [hAS] at hS
  simp only at hS
  subst hS
  cases serr with
  | some e =>
    rw [processAssistantResult_eq, hAS]
    exact ⟨segS, rfl, hllm, hren, hadv⟩
  | none =>
    rw [processAssistantResult_summary env chainID chain result log _ hAS]
    obtain ⟨seg1, h1, hllm1, _, hren1, hadv1⟩ := assistantSummary_seg env chain (log ++ segS)
    rcases updateMsgChain_cases env chainID
        ((assistantSummary env chain (log ++ segS)).1 ++
          [TextParts ChatMessageType.ChatMessageTypeAI result.content])
        (assistantSummary env chain (log ++ segS)).2 with
      ⟨blob, hblob, hu⟩ | ⟨e, segW, hu, htW⟩
    · rw [hu]
      refine ⟨segS ++ seg1 ++ [Event.UpdateMsgChain chainID blob none], ?_, ?_, ?_, ?_⟩
      · simp only [h1, List.append_assoc]
      · rw [llmResults_append, llmResults_append, hllm, hllm1]
        rfl
      · rw [renderCalls_append, renderCalls_append, hren, hren1]
        rfl
      · rw [adviceCalls_append, adviceCalls_append, hadv, hadv1]
        rfl
    · rw [hu]
      refine ⟨segS ++ seg1 ++ segW, ?_, ?_, ?_, ?_⟩
      · simp only [h1, List.append_assoc]
      · rw [llmResults_append, llmResults_append, hllm, hllm1, (tool_projections segW htW).1]
        rfl
      · rw [renderCalls_append, renderCalls_append, hren, hren1, (tool_renderCalls segW htW).1]
        rfl
      · rw [adviceCalls_append, adviceCalls_append, hadv, hadv1, (tool_renderCalls segW htW).2]
        rfl

/-! ## C14: a result without tool calls -/

/-- C14: take a pass of the loop of `performAgentChain` in which the LLM call and the usage
update succeed and the result has no tool call. For the assistant, `performAgentChain`
returns what `processAssistantResult` returns, and the reflector is not engaged: in the whole
pass no prompt is rendered and no advice sub-chain is run, and no LLM call is made after the
first `callWithRetries`. When the stream sink accepts the final chunk and the chain write
succeeds, `performAgentChain` returns nil, the chain is written exactly once in the pass, and
the chain written is the output of the summarizer for the current chain (the current chain
itself without a summarizer) followed by one ai text message with the content of the result.
For every other agent kind the pass goes on with what `performReflector` returns for the
chain extended by the prose, at iteration 1, and the reflector renders its question prompt
first. -/
theorem no_tool_calls_dispatch (env : Env) (agent : ProviderOptionsType) (chainID : Int)
    (taskID subtaskID : Option Int) (executionContext : String) (chain : Chain)
    (seen : List ToolCall) (log : Log) (result : callResult) (log1 log2 : Log)
    (hcall : callWithRetries env chain agent log = (Res.ok result, log1))
    (husage : updateMsgChainUsage env chainID result.info log1 = (none, log2))
    (hno : result.funcCalls = []) :
    (agent = ProviderOptionsType.OptionsTypeAssistant →
      (∀ fuel,
        agentLoop env agent chainID taskID subtaskID executionContext (fuel + 1) chain seen
            log =
          some (processAssistantResult env chainID chain result log2)) ∧
      (∃ seg0 seg,
        log1 = log ++ seg0 ∧
        (processAssistantResult env chainID chain result log2).2.2 = log ++ seg ∧
        renderCalls seg = [] ∧ adviceCalls seg = [] ∧ llmResults seg = llmResults seg0) ∧
      (∀ logS blob,
        assistantStream env result log2 = (none, logS) →
        env.jsonMarshal ((assistantSummary env chain logS).1 ++
          [TextParts ChatMessageType.ChatMessageTypeAI result.content]) = Res.ok blob →
        env.dbUpdateMsgChain (assistantSummary env chain logS).2 chainID blob = none →
        (∀ fuel,
          agentLoop env agent chainID taskID subtaskID executionContext (fuel + 1) chain seen
              log =
            some (none,
              (assistantSummary env chain logS).1 ++
                [TextParts ChatMessageType.ChatMessageTypeAI result.content],
              (assistantSummary env chain logS).2 ++
                [Event.UpdateMsgChain chainID blob none])) ∧
        (∃ seg,
          (assistantSummary env chain logS).2 ++ [Event.UpdateMsgChain chainID blob none] =
            log ++ seg ∧
          chainWrites seg = [(chainID, blob, none)]) ∧
        (env.summarizer = none → (assistantSummary env chain logS).1 = chain) ∧
        (∀ summarize, env.summarizer = some summarize →
          (assistantSummary env chain logS).1 = (summarize logS chain).1))) ∧
    (agent ≠ ProviderOptionsType.OptionsTypeAssistant →
      callPhase env agent chainID taskID subtaskID executionContext chain log =
        (match performReflector env agent chainID taskID subtaskID
            (chain ++ [TextParts ChatMessageType.ChatMessageTypeAI result.content])
            (getLastHumanMessage env chain) result.content executionContext 1 log2 with
        | none => none
        | some (Res.err e, log3) => some (Sum.inl (some e, chain), log3)
        | some (Res.ok result1, log3) => some (Sum.inr result1, log3)) ∧
      ∃ out seg,
        performReflector env agent chainID taskID subtaskID
            (chain ++ [TextParts ChatMessageType.ChatMessageTypeAI result.content])
            (getLastHumanMessage env chain) result.content executionContext 1 log2 =
          some (out, log2 ++ seg) ∧
        (renderCalls seg).head? = some PromptType.PromptTypeQuestionReflector) := by
  have hlen : result.funcCalls.length = 0 := by rw [hno]; rfl
  obtain ⟨seg0, h0, _, hcall0⟩ := callWithRetries_seg env chain agent log
  rw [hcall] at h0
  simp only at h0
  obtain ⟨usageIn, usageOut, ures, h2, _⟩ := updateMsgChainUsage_seg env chainID result.info log1
  rw [husage] at h2
  simp only at h2
  refine ⟨?_, ?_⟩
  · intro hag
    have hphase : callPhase env agent chainID taskID subtaskID executionContext chain log =
        some (Sum.inl ((processAssistantResult env chainID chain result log2).1,
          (processAssistantResult env chainID chain result log2).2.1),
          (processAssistantResult env chainID chain result log2).2.2) := by
      unfold callPhase
      rw [hcall]
      simp only
      rw [husage]
      simp only
      rw [if_pos hlen, if_pos hag]
    have hloop : ∀ fuel,
        agentLoop env agent chainID taskID subtaskID executionContext (fuel + 1) chain seen
            log =
          some (processAssistantResult env chainID chain result log2) := by
      intro fuel
      rw [agentLoop]
      unfold iteration
      rw [hphase]
    refine ⟨hloop, ?_, ?_⟩
    · obtain ⟨seg3, h3, hllm3, hren3, hadv3⟩ :=
        processAssistantResult_quiet env chainID chain result log2
      refine ⟨seg0, seg0 ++ ([Event.UpdateMsgChainUsage chainID usageIn usageOut ures] ++ seg3),
        h0, ?_, ?_, ?_, ?_⟩
      · rw [h3, h2, h0]
        simp
      · rw [renderCalls_append, renderCalls_append, call_renderCalls seg0 hcall0, hren3]
        rfl
      · rw [adviceCalls_append, adviceCalls_append, (call_projections seg0 hcall0).2.2.1,
          hadv3]
        rfl
      · rw [llmResults_append, llmResults_append, hllm3]
        simp [llmResults]
    · intro logS blob hstream hblob hdb
      have hw : updateMsgChain env chainID
          ((assistantSummary env chain logS).1 ++
            [TextParts ChatMessageType.ChatMessageTypeAI result.content])
          (assistantSummary env chain logS).2 =
          (none, (assistantSummary env chain logS).2 ++
            [Event.UpdateMsgChain chainID blob none]) := by
        unfold updateMsgChain
        rw [hblob]
        simp only [hdb]
      have hP : processAssistantResult env chainID chain result log2 =
          (none,
            (assistantSummary env chain logS).1 ++
              [TextParts ChatMessageType.ChatMessageTypeAI result.content],
            (assistantSummary env chain logS).2 ++
              [Event.UpdateMsgChain chainID blob none]) := by
        rw [processAssistantResult_summary env chainID chain result log2 logS hstream, hw]
      refine ⟨?_, ?_, ?_, ?_⟩
      · intro fuel
        rw [hloop fuel, hP]
      · obtain ⟨segS, hS, hcallS, _⟩ := assistantStream_seg env result log2
        rw [hstream] at hS
        simp only at hS
        obtain ⟨seg1, h1, _, hw1, _⟩ := assistantSummary_seg env chain logS
        refine ⟨seg0 ++ ([Event.UpdateMsgChainUsage chainID usageIn usageOut ures] ++
          (segS ++ (seg1 ++ [Event.UpdateMsgChain chainID blob none]))), ?_, ?_⟩
        · rw [h1, hS, h2, h0]
          simp
        · rw [chainWrites_append, chainWrites_append, chainWrites_append, chainWrites_append,
            (call_projections seg0 hcall0).1, (call_projections segS hcallS).1, hw1]
          rfl
      · intro hnone
        unfold assistantSummary
        rw [hnone]
      · intro summarize hsome
        unfold assistantSummary
        rw [hsome]
  · intro hag
    refine ⟨?_, ?_⟩
    · unfold callPhase
      rw [hcall]
      simp only
      rw [husage]
      simp only
      rw [if_pos hlen, if_neg hag]
    · unfold performReflector
      exact performReflectorFuel_renders env agent chainID taskID subtaskID
        (getLastHumanMessage env chain) executionContext _
        (chain ++ [TextParts ChatMessageType.ChatMessageTypeAI result.content])
        result.content 1 log2 (by decide) (by decide)

theorem no_tool_calls_dispatch_witness :
    (callWithRetries assistantEnv [] ProviderOptionsType.OptionsTypeAssistant [] =
        (Res.ok assistantResult, assistantCallLog) ∧
      agentLoop assistantEnv ProviderOptionsType.OptionsTypeAssistant 7 none none "context" 1
          [] [] [] =
        some (none,
          [TextParts ChatMessageType.ChatMessageTypeHuman "summary",
           TextParts ChatMessageType.ChatMessageTypeAI "hello"],
          assistantCallLog ++
            [Event.UpdateMsgChainUsage 7 0 0 none,
             Event.SummarizeChain [] [TextParts ChatMessageType.ChatMessageTypeHuman "summary"]
               none,
             Event.UpdateMsgChain 7 "h1a1" none])) ∧
    (callWithRetries proseEnv [] primaryAgent [] = (Res.ok proseResult, reflectStartLog) ∧
      ∃ out seg,
        performReflector proseEnv primaryAgent 7 none none
            ([] ++ [TextParts ChatMessageType.ChatMessageTypeAI proseResult.content])
            (getLastHumanMessage proseEnv []) proseResult.content "context" 1
            (reflectStartLog ++ [Event.UpdateMsgChainUsage 7 0 0 none]) =
          some (out, (reflectStartLog ++ [Event.UpdateMsgChainUsage 7 0 0 none]) ++ seg) ∧
        (renderCalls seg).head? = some PromptType.PromptTypeQuestionReflector) :=
  ⟨⟨by decide,
    (((no_tool_calls_dispatch assistantEnv ProviderOptionsType.OptionsTypeAssistant 7 none none
      "context" [] [] [] assistantResult assistantCallLog
      (assistantCallLog ++ [Event.UpdateMsgChainUsage 7 0 0 none])
      (by decide) (by decide) rfl).1 rfl).2.2
      (assistantCallLog ++ [Event.UpdateMsgChainUsage 7 0 0 none]) "h1a1"
      (by decide) (by decide) (by decide)).1 0⟩,
   ⟨by decide,
    ((no_tool_calls_dispatch proseEnv primaryAgent 7 none none "context" [] [] []
      proseResult reflectStartLog (reflectStartLog ++ [Event.UpdateMsgChainUsage 7 0 0 none])
      (by decide) (by decide) rfl).2 (by decide)).2⟩⟩

/-! ## C15: the persisted chain -/

/-- The loop of `performAgentChain` keeps the chain persisted: when it returns, the chain in
memory is the persisted one or a chain write has failed. -/
theorem agentLoop_persisted (env : Env) (agent : ProviderOptionsType) (chainID : Int)
    (taskID subtaskID : Option Int) (executionContext : String)
    (hkeep : SummarizerKeepsChainOnError env) :
    ∀ (fuel : Nat) (chain : Chain) (seen : List ToolCall) (log : Log) (err : Option GoError)
      (chain1 : Chain) (log1 : Log),
      Persisted env chain log →
      agentLoop env agent chainID taskID subtaskID executionContext fuel chain seen log =
        some (err, chain1, log1) →
      Persisted env chain1 log1 ∨ WriteFailed env chainID err chain1 log1 := by
  intro fuel
  induction fuel with
  | zero =>
    intro chain seen log err chain1 log1 _ h
    simp [agentLoop] at h
  | succ n ih =>
    intro chain seen log err chain1 log1 hp h
    obtain ⟨out, seg, hiter, _, hinv⟩ :=
      iteration_inv env agent chainID taskID subtaskID executionContext chain seen log
    rw [agentLoop, hiter] at h
    have hout := hinv hkeep hp
    cases out with
    | ret err0 chain0 =>
      simp only [Option.some.injEq, Prod.mk.injEq] at h
      obtain ⟨h1, h2, h3⟩ := h
      subst h1 h2 h3
      exact hout
    | next chain0 seen0 =>
      simp only at h
      exact ih chain0 seen0 (log ++ seg) err chain1 log1 hout h

/-- C15: let the summarizer return its input chain whenever it fails, and let the chain given
to `performAgentChain` be the persisted one: the last chain write recorded in the log
succeeded and wrote the serialization of that chain. Then whenever `performAgentChain`
returns, the chain in memory is the persisted one, or the return is caused by a failed chain
write: the error returned is that of `updateMsgChain` for the chain in memory (as it is or
wrapped by `processAssistantResult`). And every pass of the loop that starts with the chain
persisted ends, and ends with the chain in memory persisted or with such a return. The chain
in memory at the return of line 100 is the `chain` of `processAssistantResult`. -/
theorem performAgentChain_persisted (env : Env) (fuel : Nat) (agent : ProviderOptionsType)
    (chainID : Int) (taskID subtaskID : Option Int) (chain : Chain) (log : Log)
    (err : Option GoError) (chain1 : Chain) (log1 : Log)
    (hkeep : SummarizerKeepsChainOnError env)
    (hp : Persisted env chain log)
    (h : performAgentChain env fuel agent chainID taskID subtaskID chain log =
      some (err, chain1, log1)) :
    (Persisted env chain1 log1 ∨ WriteFailed env chainID err chain1 log1) ∧
    (∀ (executionContext : String) (chain0 : Chain) (seen0 : List ToolCall) (log0 : Log),
      Persisted env chain0 log0 →
      ∃ out seg,
        iteration env agent chainID taskID subtaskID executionContext chain0 seen0 log0 =
          some (out, log0 ++ seg) ∧
        PassKeepsPersisted env chainID out (log0 ++ seg)) := by
  refine ⟨?_, ?_⟩
  · unfold performAgentChain at h
    simp only at h
    have hp1 : Persisted env chain
        (log ++ [Event.GetExecutionContext taskID subtaskID
          (env.getExecutionContext log taskID subtaskID)]) :=
      Persisted_append env chain log _ rfl hp
    cases hctx : env.getExecutionContext log taskID subtaskID with
    | err e =>
      rw [hctx] at h hp1
      simp only [Option.some.injEq, Prod.mk.injEq] at h
      obtain ⟨_, h2, h3⟩ := h
      subst h2 h3
      exact Or.inl hp1
    | ok executionContext =>
      rw [hctx] at h hp1
      simp only at h
      exact agentLoop_persisted env agent chainID taskID subtaskID executionContext hkeep fuel
        chain [] _ err chain1 log1 hp1 h
  · intro executionContext chain0 seen0 log0 hp0
    obtain ⟨out, seg, hiter, _, hinv⟩ :=
      iteration_inv env agent chainID taskID subtaskID executionContext chain0 seen0 log0
    exact ⟨out, seg, hiter, hinv hkeep hp0⟩

theorem performAgentChain_persisted_witness :
    SummarizerKeepsChainOnError twoPassEnv ∧
    Persisted twoPassEnv [] emptyChainLog ∧
    performAgentChain twoPassEnv 2 primaryAgent 7 none none [] emptyChainLog =
      some (none,
        [toolCallsMessage [mkCall "c1" "search" "q"],
         toolMessage (mkCall "c1" "search" "q") "search" "done",
         toolCallsMessage [mkCall "c2" "finish" "r"],
         toolMessage (mkCall "c2" "finish" "r") "finish" "done"],
        ((performAgentChain twoPassEnv 2 primaryAgent 7 none none [] emptyChainLog).map
          (fun r => r.2.2)).getD []) ∧
    (Persisted twoPassEnv
        [toolCallsMessage [mkCall "c1" "search" "q"],
         toolMessage (mkCall "c1" "search" "q") "search" "done",
         toolCallsMessage [mkCall "c2" "finish" "r"],
         toolMessage (mkCall "c2" "finish" "r") "finish" "done"]
        (((performAgentChain twoPassEnv 2 primaryAgent 7 none none [] emptyChainLog).map
          (fun r => r.2.2)).getD []) ∨
      WriteFailed twoPassEnv 7 none
        [toolCallsMessage [mkCall "c1" "search" "q"],
         toolMessage (mkCall "c1" "search" "q") "search" "done",
         toolCallsMessage [mkCall "c2" "finish" "r"],
         toolMessage (mkCall "c2" "finish" "r") "finish" "done"]
        (((performAgentChain twoPassEnv 2 primaryAgent 7 none none [] emptyChainLog).map
          (fun r => r.2.2)).getD [])) :=
  have hkeep : SummarizerKeepsChainOnError twoPassEnv := by
    intro summarize hs log chain _
    have : failingSummarizer = summarize := Option.some.inj hs
    rw [← this]
    rfl
  have hp : Persisted twoPassEnv [] emptyChainLog := ⟨"", by decide, by decide⟩
  ⟨hkeep, hp, by decide,
    (performAgentChain_persisted twoPassEnv 2 primaryAgent 7 none none [] emptyChainLog none
      _ _ hkeep hp (by decide)).1⟩

/-! ## C16: the loop stops on a barrier tool only after the executor has run it -/

theorem mem_unflagged (ds : List (ToolCall × Bool)) (c : ToolCall) (h : (c, false) ∈ ds) :
    (c.ID, funcNameOf c) ∈ unflagged ds := by
  unfold unflagged
  exact List.mem_map.2 ⟨(c, false), List.mem_filter.2 ⟨h, rfl⟩, rfl⟩

theorem unflagged_mem (ds : List (ToolCall × Bool)) (e : String × String)
    (h : e ∈ unflagged ds) : ∃ d ∈ ds, e = (d.1.ID, funcNameOf d.1) := by
  unfold unflagged at h
  obtain ⟨d, hd, rfl⟩ := List.mem_map.1 h
  exact ⟨d, (List.mem_filter.1 hd).1, rfl⟩

theorem flagsOf_mem (env : Env) (seen calls : List ToolCall) (d : ToolCall × Bool)
    (h : d ∈ flagsOf env seen calls) : d.1 ∈ calls := by
  rw [← flagsOf_fst env calls seen]
  exact List.mem_map.2 ⟨d, h, rfl⟩

/-- A detector that flags only repeats does not flag the first tool call that names a barrier
tool, when it has been shown no such tool call before. -/
theorem first_barrier_unflagged (env : Env) (hdet : DetectorFlagsRepeats env) :
    ∀ (calls seen : List ToolCall),
      (∀ p ∈ seen, env.IsBarrierFunction (funcNameOf p) = false) →
      calls.any (fun c => env.IsBarrierFunction (funcNameOf c)) = true →
      ∃ c, (c, false) ∈ flagsOf env seen calls ∧ env.IsBarrierFunction (funcNameOf c) = true := by
  intro calls
  induction calls with
  | nil => intro seen _ h; simp at h
  | cons c rest ih =>
    intro seen hseen h
    cases hb : env.IsBarrierFunction (funcNameOf c) with
    | true =>
      have hd : env.detect seen c = false := by
        cases hdc : env.detect seen c with
        | false => rfl
        | true =>
          obtain ⟨p, hp, hname⟩ := hdet seen c hdc
          have := hseen p hp
          rw [hname, hb] at this
          cases this
      refine ⟨c, ?_, hb⟩
      simp only [flagsOf, hd, List.mem_cons, true_or]
    | false =>
      have hrest : rest.any (fun c => env.IsBarrierFunction (funcNameOf c)) = true := by
        simpa [List.any_cons, hb] using h
      have hseen1 : ∀ p ∈ seen ++ [c], env.IsBarrierFunction (funcNameOf p) = false := by
        intro p hp
        rcases List.mem_append.1 hp with hp | hp
        · exact hseen p hp
        · simp only [List.mem_singleton] at hp
          subst hp
          exact hb
      obtain ⟨c1, hc1, hb1⟩ := ih (seen ++ [c]) hseen1 hrest
      exact ⟨c1, by simp only [flagsOf, List.mem_cons]; exact Or.inr hc1, hb1⟩

/-- A detector that flags only repeats does not flag the first tool call of a function, when
it has been shown no tool call of that function before. -/
theorem first_named_unflagged (env : Env) (hdet : DetectorFlagsRepeats env) (name : String) :
    ∀ (calls seen : List ToolCall),
      (∀ p ∈ seen, funcNameOf p ≠ name) →
      (∃ c ∈ calls, funcNameOf c = name) →
      ∃ c, (c, false) ∈ flagsOf env seen calls ∧ funcNameOf c = name := by
  intro calls
  induction calls with
  | nil => intro seen _ h; obtain ⟨c, hc, _⟩ := h; simp at hc
  | cons c rest ih =>
    intro seen hseen h
    by_cases hn : funcNameOf c = name
    · have hd : env.detect seen c = false := by
        cases hdc : env.detect seen c with
        | false => rfl
        | true =>
          obtain ⟨p, hp, hname⟩ := hdet seen c hdc
          exact absurd (hname.trans hn) (hseen p hp)
      refine ⟨c, ?_, hn⟩
      simp only [flagsOf, hd, List.mem_cons, true_or]
    · have hrest : ∃ d ∈ rest, funcNameOf d = name := by
        obtain ⟨d, hd, hdn⟩ := h
        rcases List.mem_cons.1 hd with hd | hd
        · subst hd; exact absurd hdn hn
        · exact ⟨d, hd, hdn⟩
      have hseen1 : ∀ p ∈ seen ++ [c], funcNameOf p ≠ name := by
        intro p hp
        rcases List.mem_append.1 hp with hp | hp
        · exact hseen p hp
        · simp only [List.mem_singleton] at hp
          subst hp
          exact hn
      obtain ⟨c1, hc1, hn1⟩ := ih (seen ++ [c]) hseen1 hrest
      exact ⟨c1, by simp only [flagsOf, List.mem_cons]; exact Or.inr hc1, hn1⟩

/-- The tool phase under a detector that flags only repeats, started when no tool call shown
before names a barrier tool, and ended without error: `wantToStop` is set exactly when the
executor has run a barrier tool with success in this tool phase. -/
theorem toolPhase_barrier_iff (env : Env) (hdet : DetectorFlagsRepeats env) (chainID : Int)
    (chain : Chain) (result : callResult) (seen : List ToolCall) (log : Log) (st : toolState)
    (hseen : ∀ p ∈ seen, env.IsBarrierFunction (funcNameOf p) = false)
    (hsome : ∀ c ∈ result.funcCalls, c.FunctionCall.isSome = true)
    (h : toolPhase env chainID chain result seen false log = some (none, st)) :
    ∃ seg, st.log = log ++ seg ∧
      (st.wantToStop = true ↔ BarrierExecuted env seg) ∧
      (st.wantToStop = false → ∀ p ∈ st.seen, env.IsBarrierFunction (funcNameOf p) = false) ∧
      llmResults seg = [] ∧ summarizerCalls seg = [] ∧
      (∀ c ∈ result.funcCalls, env.IsBarrierFunction (funcNameOf c) = true →
        ∃ e ∈ executedCalls seg, e.2 = funcNameOf c) := by
  obtain ⟨seg, g1, _, _, _, _, g6, g7⟩ :=
    toolPhase_ok env chainID chain result seen false log st hsome h
  obtain ⟨seg2, e1, e2, e3, e4⟩ :=
    toolPhase_executed env chainID chain result seen false log st hsome h
  have hseg : seg2 = seg := List.append_cancel_left (e1.symm.trans g1)
  subst hseg
  simp only [Bool.false_or] at g7
  refine ⟨seg2, g1, ⟨?_, ?_⟩, ?_, (tool_projections seg2 g6).1, (tool_projections seg2 g6).2,
    ?_⟩
  rotate_left 3
  · intro c hc hb
    have hnames : ∀ p ∈ seen, funcNameOf p ≠ funcNameOf c := by
      intro p hp hname
      have := hseen p hp
      rw [hname, hb] at this
      cases this
    obtain ⟨c1, hc1, hn1⟩ := first_named_unflagged env hdet (funcNameOf c) result.funcCalls seen
      hnames ⟨c, hc, rfl⟩
    refine ⟨(c1.ID, funcNameOf c1), ?_, hn1⟩
    rw [e3]
    exact mem_unflagged _ c1 hc1
  · intro hstop
    rw [g7] at hstop
    obtain ⟨c, hc, hb⟩ := first_barrier_unflagged env hdet result.funcCalls seen hseen hstop
    refine ⟨(c.ID, funcNameOf c), ?_, hb⟩
    rw [e3]
    exact mem_unflagged _ c hc
  · rintro ⟨e, he, hb⟩
    rw [e3] at he
    obtain ⟨d, hd, rfl⟩ := unflagged_mem _ e he
    rw [g7, List.any_eq_true]
    exact ⟨d.1, flagsOf_mem env seen result.funcCalls d hd, hb⟩
  · intro hgo p hp
    rw [e4] at hp
    rcases List.mem_append.1 hp with hp | hp
    · exact hseen p hp
    · rw [g7] at hgo
      cases hb : env.IsBarrierFunction (funcNameOf p) with
      | false => rfl
      | true =>
        have : result.funcCalls.any (fun c => env.IsBarrierFunction (funcNameOf c)) = true :=
          List.any_eq_true.2 ⟨p, hp, hb⟩
        rw [this] at hgo
        cases hgo

/-- Line 173 returns nil when `wantToStop` is set. -/
theorem afterTools_stop (env : Env) (chainID : Int) (st : toolState)
    (h : st.wantToStop = true) :
    afterTools env chainID st = (iterOutcome.ret none st.chain, st.log) := by
  unfold afterTools
  rw [if_pos h]

/-- When `wantToStop` is not set, lines 172-185 go on to the next pass with the detector as
it is, or return the error of a chain write; they do not return nil. -/
theorem afterTools_go (env : Env) (chainID : Int) (st : toolState)
    (h : st.wantToStop = false) :
    (∃ c, (afterTools env chainID st).1 = iterOutcome.next c st.seen) ∨
    (∃ e c, (afterTools env chainID st).1 = iterOutcome.ret (some e) c) := by
  unfold afterTools
  rw [if_neg (by rw [h]; simp)]
  cases env.summarizer with
  | none => exact Or.inl ⟨st.chain, rfl⟩
  | some summarize =>
    simp only
    cases (summarize st.log st.chain).2 with
    | some e => exact Or.inl ⟨_, rfl⟩
    | none =>
      simp only
      rcases updateMsgChain env chainID (summarize st.log st.chain).1
        (st.log ++ [Event.SummarizeChain st.chain (summarize st.log st.chain).1 none]) with
        ⟨uerr, log3⟩
      cases uerr with
      | some e => exact Or.inr ⟨e, _, rfl⟩
      | none => exact Or.inl ⟨_, rfl⟩

/-- The first half of a pass makes `performAgentChain` return nil only through the final step
of the assistant. -/
theorem callPhase_inl_none (env : Env) (agent : ProviderOptionsType) (chainID : Int)
    (taskID subtaskID : Option Int) (executionContext : String) (chain : Chain) (log : Log)
    (chain1 : Chain) (log1 : Log)
    (h : callPhase env agent chainID taskID subtaskID executionContext chain log =
      some (Sum.inl (none, chain1), log1)) :
    agent = ProviderOptionsType.OptionsTypeAssistant ∧
    ∃ result log2, result.funcCalls = [] ∧
      processAssistantResult env chainID chain result log2 = (none, chain1, log1) := by
  unfold callPhase at h
  rcases hCW : callWithRetries env chain agent log with ⟨callRes, logA⟩
  rw [hCW] at h
  cases callRes with
  | err e => simp at h
  | ok result =>
    simp only at h
    rcases hU : updateMsgChainUsage env chainID result.info logA with ⟨uerr, logB⟩
    rw [hU] at h
    cases uerr with
    | some e => simp at h
    | none =>
      simp only at h
      by_cases hlen : result.funcCalls.length = 0
      · rw [if_pos hlen] at h
        by_cases hag : agent = ProviderOptionsType.OptionsTypeAssistant
        · rw [if_pos hag] at h
          rcases hPA : processAssistantResult env chainID chain result logB with
            ⟨err, chainP, logP⟩
          rw [hPA] at h
          simp only [Option.some.injEq, Prod.mk.injEq, Sum.inl.injEq] at h
          obtain ⟨⟨h1, h2⟩, h3⟩ := h
          subst h1 h2 h3
          exact ⟨hag, result, logB, List.length_eq_zero.1 hlen, hPA⟩
        · rw [if_neg hag] at h
          rcases hPR : performReflector env agent chainID taskID subtaskID
            (chain ++ [TextParts ChatMessageType.ChatMessageTypeAI result.content])
            (getLastHumanMessage env chain) result.content executionContext 1 logB with
            _ | ⟨out, logR⟩
          · rw [hPR] at h
            simp at h
          · rw [hPR] at h
            cases out with
            | err e => simp at h
            | ok r => simp at h
      · rw [if_neg hlen] at h
        simp at h

/-- One pass of the loop under a detector that flags only repeats, started when no tool call
shown before names a barrier tool: when the pass makes `performAgentChain` return nil, either
the executor has run a barrier tool with success in the tool phase of the pass, or the pass
is the final step of the assistant; and when the pass goes on to the next one, still no tool
call shown names a barrier tool. -/
theorem iteration_barrier_only (env : Env) (hdet : DetectorFlagsRepeats env)
    (agent : ProviderOptionsType) (chainID : Int) (taskID subtaskID : Option Int)
    (executionContext : String) (chain : Chain) (seen : List ToolCall) (log : Log)
    (hseen : ∀ p ∈ seen, env.IsBarrierFunction (funcNameOf p) = false) :
    ∃ out seg,
      iteration env agent chainID taskID subtaskID executionContext chain seen log =
        some (out, log ++ seg) ∧
      (∀ c, out = iterOutcome.ret none c →
        (∃ mid segT, seg = mid ++ segT ∧ llmResults segT = [] ∧ BarrierExecuted env segT) ∨
        (agent = ProviderOptionsType.OptionsTypeAssistant ∧
          ∃ result log2, result.funcCalls = [] ∧
            processAssistantResult env chainID chain result log2 = (none, c, log ++ seg))) ∧
      (∀ c seen1, out = iterOutcome.next c seen1 →
        ∀ p ∈ seen1, env.IsBarrierFunction (funcNameOf p) = false) := by
  unfold iteration
  obtain ⟨outC, segC, hC, _, _⟩ :=
    callPhase_inv env agent chainID taskID subtaskID executionContext chain log
  rw [hC]
  rcases outC with ⟨err, chainC⟩ | result
  · refine ⟨iterOutcome.ret err chainC, segC, rfl, ?_, ?_⟩
    · intro c hc
      simp only [iterOutcome.ret.injEq] at hc
      obtain ⟨h1, h2⟩ := hc
      subst h1 h2
      exact Or.inr (callPhase_inl_none env agent chainID taskID subtaskID executionContext
        chain log chainC (log ++ segC) hC)
    · intro c seen1 hc
      cases hc
  · simp only
    obtain ⟨_, hsome⟩ := callPhase_result env agent chainID taskID subtaskID executionContext
      chain log result (log ++ segC) hC
    unfold runTools
    obtain ⟨terr, st, segT, hT, hlogT, _, _, _⟩ :=
      toolPhase_inv env chainID chain result seen false (log ++ segC)
    rw [hT]
    cases terr with
    | some e =>
      refine ⟨iterOutcome.ret (some e) st.chain, segC ++ segT, ?_, ?_, ?_⟩
      · simp only [hlogT, List.append_assoc]
      · intro c hc
        simp at hc
      · intro c seen1 hc
        cases hc
    | none =>
      simp only
      obtain ⟨segB, hB1, hB2, hB3, hB4, _, _⟩ := toolPhase_barrier_iff env hdet chainID chain
        result seen (log ++ segC) st hseen hsome hT
      have hsegB : segB = segT := List.append_cancel_left (hB1.symm.trans hlogT)
      subst hsegB
      obtain ⟨segA, hA, _, _⟩ := afterTools_inv env chainID st
      refine ⟨(afterTools env chainID st).1, segC ++ (segB ++ segA), ?_, ?_, ?_⟩
      · rw [← List.append_assoc, ← List.append_assoc, ← hlogT, ← hA]
      · intro c hc
        cases hstop : st.wantToStop with
        | true =>
          rw [afterTools_stop env chainID st hstop] at hc hA
          simp only at hA
          have hnil : segA = [] := by
            have : st.log ++ [] = st.log ++ segA := by simpa using hA
            exact (List.append_cancel_left this).symm
          subst hnil
          exact Or.inl ⟨segC, segB, by simp, hB4, hB2.1 hstop⟩
        | false =>
          rcases afterTools_go env chainID st hstop with ⟨c1, h1⟩ | ⟨e, c1, h1⟩
          · rw [h1] at hc
            cases hc
          · rw [h1] at hc
            simp at hc
      · intro c seen1 hc
        cases hstop : st.wantToStop with
        | true =>
          rw [afterTools_stop env chainID st hstop] at hc
          cases hc
        | false =>
          rcases afterTools_go env chainID st hstop with ⟨c1, h1⟩ | ⟨e, c1, h1⟩
          · rw [h1] at hc
            simp only [iterOutcome.next.injEq] at hc
            rw [← hc.2]
            exact hB3 hstop
          · rw [h1] at hc
            cases hc

/-- The loop of `performAgentChain` under a detector that flags only repeats, started when no
tool call shown before names a barrier tool: it returns nil only after a tool phase in which
the executor has run a barrier tool with success, or through the final step of the
assistant. -/
theorem agentLoop_barrier_only (env : Env) (hdet : DetectorFlagsRepeats env)
    (agent : ProviderOptionsType) (chainID : Int) (taskID subtaskID : Option Int)
    (executionContext : String) :
    ∀ (fuel : Nat) (chain : Chain) (seen : List ToolCall) (log : Log) (chain1 : Chain)
      (log1 : Log),
      (∀ p ∈ seen, env.IsBarrierFunction (funcNameOf p) = false) →
      agentLoop env agent chainID taskID subtaskID executionContext fuel chain seen log =
        some (none, chain1, log1) →
      (∃ mid seg, log1 = log ++ mid ++ seg ∧ llmResults seg = [] ∧ BarrierExecuted env seg) ∨
      (agent = ProviderOptionsType.OptionsTypeAssistant ∧
        ∃ chain0 result log2, result.funcCalls = [] ∧
          processAssistantResult env chainID chain0 result log2 = (none, chain1, log1)) := by
  intro fuel
  induction fuel with
  | zero =>
    intro chain seen log chain1 log1 _ h
    simp [agentLoop] at h
  | succ n ih =>
    intro chain seen log chain1 log1 hseen h
    obtain ⟨out, seg, hiter, hret, hnext⟩ := iteration_barrier_only env hdet agent chainID taskID
      subtaskID executionContext chain seen log hseen
    rw [agentLoop, hiter] at h
    cases out with
    | ret err0 chain0 =>
      simp only [Option.some.injEq, Prod.mk.injEq] at h
      obtain ⟨h1, h2, h3⟩ := h
      subst h1 h2 h3
      rcases hret chain0 rfl with ⟨mid, segT, hseg, hllm, hbar⟩ | ⟨hag, result, log2, hno, hPA⟩
      · exact Or.inl ⟨mid, segT, by rw [hseg]; simp, hllm, hbar⟩
      · exact Or.inr ⟨hag, chain, result, log2, hno, hPA⟩
    | next chain0 seen0 =>
      simp only at h
      rcases ih chain0 seen0 (log ++ seg) chain1 log1 (hnext chain0 seen0 rfl) h with
        ⟨mid, segT, hlog, hllm, hbar⟩ | hass
      · exact Or.inl ⟨seg ++ mid, segT, by rw [hlog]; simp, hllm, hbar⟩
      · exact Or.inr hass

/-- C16: let the repetition detector flag a tool call only when it has been shown a tool call
of the same function before. Whenever `performAgentChain` returns nil, either the return is
the final step of the assistant (line 100), or it is the return of line 173 and the executor
has run a barrier tool with success in the tool phase just before it (after the last LLM
call). And in every pass that starts when no tool call shown to the detector names a barrier
tool, as every pass of `performAgentChain` does, and whose tool phase ends without error:
`wantToStop` is set exactly when the executor has run a barrier tool with success in this
tool phase, and for every tool call of the result that names a barrier tool, flagged or not,
the executor has run that tool with success in this tool phase; when it has run no barrier
tool, whatever the detector flagged, line 173 does not return and the pass goes on to the
summarizer and the next LLM call (or returns the error of a chain write). Line 163 sets
`wantToStop` by the name of the function also for a tool call the detector flagged, but under
this detector a flagged call of a barrier tool comes after an executed one in the same tool
phase. -/
theorem barrier_stop_needs_execution (env : Env) (fuel : Nat) (agent : ProviderOptionsType)
    (chainID : Int) (taskID subtaskID : Option Int) (chain : Chain) (log : Log)
    (chain1 : Chain) (log1 : Log)
    (hdet : DetectorFlagsRepeats env)
    (h : performAgentChain env fuel agent chainID taskID subtaskID chain log =
      some (none, chain1, log1)) :
    ((∃ mid seg, log1 = log ++ mid ++ seg ∧ llmResults seg = [] ∧ BarrierExecuted env seg) ∨
      (agent = ProviderOptionsType.OptionsTypeAssistant ∧
        ∃ chain0 result log2, result.funcCalls = [] ∧
          processAssistantResult env chainID chain0 result log2 = (none, chain1, log1))) ∧
    (∀ (executionContext : String) (chain0 : Chain) (seen : List ToolCall) (log0 : Log)
        (result : callResult) (log2 : Log) (st : toolState),
      (∀ p ∈ seen, env.IsBarrierFunction (funcNameOf p) = false) →
      callPhase env agent chainID taskID subtaskID executionContext chain0 log0 =
        some (Sum.inr result, log2) →
      toolPhase env chainID chain0 result seen false log2 = some (none, st) →
      ∃ seg, st.log = log2 ++ seg ∧
        (st.wantToStop = true ↔ BarrierExecuted env seg) ∧
        (∀ c ∈ result.funcCalls, env.IsBarrierFunction (funcNameOf c) = true →
          ∃ e ∈ executedCalls seg, e.2 = funcNameOf c) ∧
        (¬ BarrierExecuted env seg →
          iteration env agent chainID taskID subtaskID executionContext chain0 seen log0 =
            some (afterTools env chainID st) ∧
          ((∃ c, (afterTools env chainID st).1 = iterOutcome.next c st.seen) ∨
            (∃ e c, (afterTools env chainID st).1 = iterOutcome.ret (some e) c)) ∧
          (∀ p ∈ st.seen, env.IsBarrierFunction (funcNameOf p) = false))) := by
  refine ⟨?_, ?_⟩
  · unfold performAgentChain at h
    simp only at h
    cases hctx : env.getExecutionContext log taskID subtaskID with
    | err e =>
      rw [hctx] at h
      simp at h
    | ok executionContext =>
      rw [hctx] at h
      simp only at h
      rcases agentLoop_barrier_only env hdet agent chainID taskID subtaskID executionContext
        fuel chain [] _ chain1 log1 (by simp) h with ⟨mid, seg, hlog, hllm, hbar⟩ | hass
      · exact Or.inl ⟨Event.GetExecutionContext taskID subtaskID (Res.ok executionContext) ::
          mid, seg, by rw [hlog]; simp, hllm, hbar⟩
      · exact Or.inr hass
  · intro executionContext chain0 seen log0 result log2 st hseen hcall htools
    obtain ⟨_, hsome⟩ := callPhase_result env agent chainID taskID subtaskID executionContext
      chain0 log0 result log2 hcall
    obtain ⟨seg, h1, h2, h3, _, _, h6⟩ := toolPhase_barrier_iff env hdet chainID chain0 result
      seen log2 st hseen hsome htools
    refine ⟨seg, h1, h2, h6, ?_⟩
    intro hno
    have hstop : st.wantToStop = false := by
      cases hw : st.wantToStop with
      | false => rfl
      | true => exact absurd (h2.1 hw) hno
    refine ⟨?_, afterTools_go env chainID st hstop, h3 hstop⟩
    unfold iteration
    rw [hcall]
    simp only
    unfold runTools
    rw [htools]

theorem barrier_stop_needs_execution_witness :
    DetectorFlagsRepeats repeatedBarrierEnv ∧
    performAgentChain repeatedBarrierEnv 3 primaryAgent 7 none none [] [] =
      some (none,
        [toolCallsMessage [mkCall "c1" "finish" "r", mkCall "c2" "finish" "r"],
         toolMessage (mkCall "c1" "finish" "r") "finish" "done",
         toolMessage (mkCall "c2" "finish" "r") "finish"
           "tool call \x27finish\x27 is repeating, please try another tool"],
        ((performAgentChain repeatedBarrierEnv 3 primaryAgent 7 none none [] []).map
          (fun r => r.2.2)).getD []) ∧
    detections (((performAgentChain repeatedBarrierEnv 3 primaryAgent 7 none none [] []).map
        (fun r => r.2.2)).getD []) =
      [(mkCall "c1" "finish" "r", false), (mkCall "c2" "finish" "r", true)] ∧
    executedCalls (((performAgentChain repeatedBarrierEnv 3 primaryAgent 7 none none [] []).map
        (fun r => r.2.2)).getD []) = [("c1", "finish")] ∧
    ((∃ mid seg,
        ((performAgentChain repeatedBarrierEnv 3 primaryAgent 7 none none [] []).map
          (fun r => r.2.2)).getD [] = [] ++ mid ++ seg ∧
        llmResults seg = [] ∧ BarrierExecuted repeatedBarrierEnv seg) ∨
      (primaryAgent = ProviderOptionsType.OptionsTypeAssistant ∧
        ∃ chain0 result log2, result.funcCalls = [] ∧
          processAssistantResult repeatedBarrierEnv 7 chain0 result log2 =
            (none,
              [toolCallsMessage [mkCall "c1" "finish" "r", mkCall "c2" "finish" "r"],
               toolMessage (mkCall "c1" "finish" "r") "finish" "done",
               toolMessage (mkCall "c2" "finish" "r") "finish"
                 "tool call \x27finish\x27 is repeating, please try another tool"],
              ((performAgentChain repeatedBarrierEnv 3 primaryAgent 7 none none [] []).map
                (fun r => r.2.2)).getD []))) :=
  have hdet : DetectorFlagsRepeats repeatedBarrierEnv := by
    intro seen c h
    have h1 : seen.any (fun s => s.FunctionCall == c.FunctionCall) = true := h
    obtain ⟨p, hp, heq⟩ := List.any_eq_true.1 h1
    have heq1 : p.FunctionCall = c.FunctionCall := by simpa using heq
    exact ⟨p, hp, by simp [funcNameOf, heq1]⟩
  ⟨hdet, by decide, by decide, by decide,
    (barrier_stop_needs_execution repeatedBarrierEnv 3 primaryAgent 7 none none [] [] _ _ hdet
      (by decide)).1⟩

/-! ## C18: what the failed attempts leave in the result -/

theorem foldl_fillChoice_thinking_none (choices : List ContentChoice) :
    ∀ s, (∀ c ∈ choices, c.ReasoningContent = "") →
      (choices.foldl fillChoice s).result.thinking = s.result.thinking := by
  induction choices with
  | nil => intro s _; rfl
  | cons c rest ih =>
    intro s h
    rw [List.foldl_cons, ih _ (fun d hd => h d (List.mem_cons_of_mem _ hd))]
    simp [fillChoice, h c (List.mem_cons_self _ _)]

/-- When some choice carries generation info, the info after the loop over the choices does
not depend on the info before. -/
theorem foldl_fillChoice_info_congr (choices : List ContentChoice) :
    ∀ (s t : fillState), (∃ c ∈ choices, c.GenerationInfo ≠ none) →
      (choices.foldl fillChoice s).result.info = (choices.foldl fillChoice t).result.info := by
  induction choices with
  | nil => intro s t h; obtain ⟨c, hc, _⟩ := h; simp at hc
  | cons c rest ih =>
    intro s t h
    rw [List.foldl_cons, List.foldl_cons]
    by_cases hrest : ∃ d ∈ rest, d.GenerationInfo ≠ none
    · exact ih _ _ hrest
    · have hall : ∀ d ∈ rest, d.GenerationInfo = none := by
        intro d hd
        by_contra hne
        exact hrest ⟨d, hd, hne⟩
      rw [foldl_fillChoice_info_none rest _ hall, foldl_fillChoice_info_none rest _ hall]
      obtain ⟨d, hd, hne⟩ := h
      rcases List.mem_cons.1 hd with hd | hd
      · subst hd
        cases hg : d.GenerationInfo with
        | none => exact absurd hg hne
        | some i => simp [fillChoice, hg]
      · exact absurd (hall d hd) hne

/-- When some choice carries reasoning, the reasoning after the loop over the choices does
not depend on the reasoning before. -/
theorem foldl_fillChoice_thinking_congr (choices : List ContentChoice) :
    ∀ (s t : fillState), (∃ c ∈ choices, c.ReasoningContent ≠ "") →
      (choices.foldl fillChoice s).result.thinking =
        (choices.foldl fillChoice t).result.thinking := by
  induction choices with
  | nil => intro s t h; obtain ⟨c, hc, _⟩ := h; simp at hc
  | cons c rest ih =>
    intro s t h
    rw [List.foldl_cons, List.foldl_cons]
    by_cases hrest : ∃ d ∈ rest, d.ReasoningContent ≠ ""
    · exact ih _ _ hrest
    · have hall : ∀ d ∈ rest, d.ReasoningContent = "" := by
        intro d hd
        by_contra hne
        exact hrest ⟨d, hd, hne⟩
      rw [foldl_fillChoice_thinking_none rest _ hall,
        foldl_fillChoice_thinking_none rest _ hall]
      obtain ⟨d, hd, hne⟩ := h
      rcases List.mem_cons.1 hd with hd | hd
      · subst hd
        simp [fillChoice, hne]
      · exact absurd (hall d hd) hne

/-- The info and the reasoning `fillResult` leaves are those of the loop over the choices. -/
theorem fillResult_info_thinking (result : callResult) (r : ContentResponse)
    (hne : r.Choices ≠ []) :
    (fillResult result (some r)).2.info =
      (r.Choices.foldl fillChoice ⟨"", [], result⟩).result.info ∧
    (fillResult result (some r)).2.thinking =
      (r.Choices.foldl fillChoice ⟨"", [], result⟩).result.thinking := by
  rw [fillResult_some result r hne]
  split <;> exact ⟨rfl, rfl⟩

/-- Lines 407-421 leave the reasoning as it is unless a stream sink is installed and the
result holds both tool calls and content. -/
theorem finishCall_thinking (env : Env) (result : callResult) (log : Log)
    (h : env.streamCb = none ∨ result.funcCalls = [] ∨ result.content = "") :
    (finishCall env result log).1.thinking = result.thinking := by
  unfold finishCall
  cases hcb : env.streamCb with
  | none => rfl
  | some cb =>
    simp only
    split
    · split
      · rename_i hboth
        rcases h with h | h | h
        · rw [hcb] at h; cases h
        · rw [h] at hboth; simp at hboth
        · exact absurd h hboth.2
      · rfl
    · rfl

/-- C18, as the code has it: let `callWithRetries` return a result. The LLM was then called
some times without success and a last time with a response that `fillResult` accepts. The
tool calls and the content returned are those `fillResult` assembles from this response
starting from the empty `callResult`. The info returned is that one too when some choice of
the response carries generation info, and so is the reasoning when some choice carries
reasoning and lines 416-419 do not clear it (no stream sink, or no tool call, or no
content). -/
theorem callWithRetries_result_fields (env : Env) (chain : Chain) (agent : ProviderOptionsType)
    (log : Log) (result : callResult) (log1 : Log)
    (h : callWithRetries env chain agent log = (Res.ok result, log1)) :
    ∃ seg fails r,
      log1 = log ++ seg ∧
      llmResults seg = fails ++ [Res.ok (some r)] ∧
      (∀ a ∈ fails, attemptError a ≠ none) ∧
      attemptError (Res.ok (some r)) = none ∧
      result.funcCalls = (fillResult callResult.zero (some r)).2.funcCalls ∧
      result.content = (fillResult callResult.zero (some r)).2.content ∧
      ((∃ c ∈ r.Choices, c.GenerationInfo ≠ none) →
        result.info = (fillResult callResult.zero (some r)).2.info) ∧
      ((∃ c ∈ r.Choices, c.ReasoningContent ≠ "") →
        (env.streamCb = none ∨ result.funcCalls = [] ∨ result.content = "") →
        result.thinking = (fillResult callResult.zero (some r)).2.thinking) := by
  obtain ⟨raw, log0, hA, hF⟩ := callWithRetries_ok env chain agent log result log1 h
  obtain ⟨seg0, seg1, hlog, hlog0, hllm, _⟩ := callWithRetries_trace env chain agent log
  obtain ⟨seg, hseg, _, hcases⟩ :=
    callAttempts_trace env chain agent maxRetriesToCallAgentChain [] callResult.zero log rfl
  have hsegeq : seg = seg0 := by
    rw [hlog0] at hseg
    exact (List.append_cancel_left hseg).symm
  rw [hA] at hcases
  have hfields := finishCall_fields env raw log0
  rw [hF] at hfields
  rw [h] at hlog
  simp only at hlog
  rcases hcases with ⟨raw1, fails, last, rin, h1, h2, h3, h4, h5, _⟩ | ⟨ce, waits, h1, _⟩ |
    ⟨h1, _⟩
  · simp only [Res.ok.injEq] at h1
    subst h1
    have hacc : (fillResult rin last).1 = none := by rw [h5]
    obtain ⟨r, hr, hne⟩ := fillResult_ok_choices rin last hacc
    subst hr
    obtain ⟨g1, g2, _⟩ := fillResult_fields_congr rin (some r) raw h4 h5
    have hfill := fillResult_info_thinking rin r hne
    have hzero := fillResult_info_thinking callResult.zero r hne
    rw [h5] at hfill
    simp only at hfill
    refine ⟨seg0 ++ seg1, fails, r, hlog, ?_, h3, ?_, ?_, ?_, ?_, ?_⟩
    · rw [hllm, ← hsegeq]
      exact h2
    · have := fillResult_error_congr rin (some r) h4
      rw [hacc] at this
      exact this.symm
    · rw [hfields.1]
      exact g1
    · rw [hfields.2.1]
      exact g2
    · intro hinfo
      rw [hfields.2.2, hfill.1, hzero.1]
      exact foldl_fillChoice_info_congr r.Choices _ _ hinfo
    · intro hthink hkeep
      have hk : env.streamCb = none ∨ raw.funcCalls = [] ∨ raw.content = "" := by
        rw [← hfields.1, ← hfields.2.1]
        exact hkeep
      have hfin := finishCall_thinking env raw log0 hk
      rw [hF] at hfin
      simp only at hfin
      rw [hfin, hfill.2, hzero.2]
      exact foldl_fillChoice_thinking_congr r.Choices _ _ hthink
  · simp at h1
  · simp at h1

theorem callWithRetries_result_fields_witness :
    ∃ result log1,
      callWithRetries freshEnv [] primaryAgent [] = (Res.ok result, log1) ∧
      llmResults log1 = [Res.ok (some staleResponse), Res.ok (some freshResponse)] ∧
      result.info = some [("tokens", "3")] ∧
      result.thinking = "new thought" ∧
      ∃ seg fails r,
        log1 = [] ++ seg ∧
        llmResults seg = fails ++ [Res.ok (some r)] ∧
        (∀ a ∈ fails, attemptError a ≠ none) ∧
        attemptError (Res.ok (some r)) = none ∧
        result.funcCalls = (fillResult callResult.zero (some r)).2.funcCalls ∧
        result.content = (fillResult callResult.zero (some r)).2.content ∧
        ((∃ c ∈ r.Choices, c.GenerationInfo ≠ none) →
          result.info = (fillResult callResult.zero (some r)).2.info) ∧
        ((∃ c ∈ r.Choices, c.ReasoningContent ≠ "") →
          (freshEnv.streamCb = none ∨ result.funcCalls = [] ∨ result.content = "") →
          result.thinking = (fillResult callResult.zero (some r)).2.thinking) :=
  ⟨_, _, rfl, by decide, by decide, by decide,
    callWithRetries_result_fields freshEnv [] primaryAgent [] _ _ rfl⟩

/-- C18 does not hold as stated: the LLM first answers with a response that has no text and
no tool call but carries generation info and reasoning, which `fillResult` refuses, and then
with a text that carries neither. The result returned holds the info and the reasoning of
the refused response, where `fillResult` would give none from the accepted response
alone. -/
theorem callWithRetries_result_fields_counterexample :
    ∃ result log1,
      callWithRetries staleEnv [] primaryAgent [] = (Res.ok result, log1) ∧
      llmResults log1 = [Res.ok (some staleResponse), Res.ok (some textResponse)] ∧
      attemptError (Res.ok (some staleResponse)) ≠ none ∧
      attemptError (Res.ok (some textResponse)) = none ∧
      result.info = some [("tokens", "9")] ∧
      (fillResult callResult.zero (some textResponse)).2.info = none ∧
      result.thinking = "old thought" ∧
      (fillResult callResult.zero (some textResponse)).2.thinking = "" ∧
      result.content = "hello" := by
  refine ⟨_, _, rfl, ?_, ?_, ?_, ?_, ?_, ?_, ?_, ?_⟩ <;> decide

/-! ## C19: the chain of the loop after a reflection -/

/-- Every tool message built for the tool calls is the tool message of one of them. -/
theorem mem_toolMessages (calls : List ToolCall) :
    ∀ (obs : List String) (m : MessageContent), m ∈ toolMessages calls obs →
      ∃ c o, m = toolMessage c (funcNameOf c) o := by
  induction calls with
  | nil => intro obs m hm; simp [toolMessages] at hm
  | cons c rest ih =>
    intro obs m hm
    cases obs with
    | nil => simp [toolMessages] at hm
    | cons o more =>
      simp only [toolMessages, List.zipWith_cons_cons, List.mem_cons] at hm
      rcases hm with hm | hm
      · exact ⟨c, o, hm⟩
      · exact ih more m hm

/-- C19: take a pass of the loop of `performAgentChain` in which the LLM answers with prose
and no tool call for an agent other than the assistant, the reflector is engaged and returns
a result with the tool calls c_1..c_n, and the tool phase ends without error. The reflection
writes no chain, and the tool phase runs on the chain of the loop as it was before the pass:
the chains written afterwards are obtained from it by appending one ai message whose parts
are c_1..c_n and then the tool messages, one at a time, and the chain of the loop ends up as
the last of them. None of the messages appended is a text message, so neither the prose nor
an advice of the reflector is among them: these are in the chain the reflector handed to the
LLM, which extends the chain of the loop by the prose and ends with an advice as human
message. -/
theorem reflector_leaves_chain (env : Env) (agent : ProviderOptionsType) (chainID : Int)
    (taskID subtaskID : Option Int) (executionContext : String) (chain : Chain)
    (seen : List ToolCall) (log : Log) (result0 : callResult) (log1 log2 : Log)
    (result : callResult) (log3 : Log) (st : toolState)
    (hcall : callWithRetries env chain agent log = (Res.ok result0, log1))
    (husage : updateMsgChainUsage env chainID result0.info log1 = (none, log2))
    (hno : result0.funcCalls = [])
    (hagent : agent ≠ ProviderOptionsType.OptionsTypeAssistant)
    (hreflect : performReflector env agent chainID taskID subtaskID
      (chain ++ [TextParts ChatMessageType.ChatMessageTypeAI result0.content])
      (getLastHumanMessage env chain) result0.content executionContext 1 log2 =
        some (Res.ok result, log3))
    (htools : toolPhase env chainID chain result seen false log3 = some (none, st)) :
    iteration env agent chainID taskID subtaskID executionContext chain seen log =
      some (afterTools env chainID st) ∧
    result.funcCalls ≠ [] ∧
    (∃ segR, log3 = log2 ++ segR ∧ chainWrites segR = []) ∧
    (∃ chain1 advice before after,
      (chain ++ [TextParts ChatMessageType.ChatMessageTypeAI result0.content]) <+: chain1 ∧
      callWithRetries env (chain1 ++ [TextParts ChatMessageType.ChatMessageTypeHuman advice])
        agent before = (Res.ok result, after)) ∧
    ∃ seg, st.log = log3 ++ seg ∧
      (observations seg).length = result.funcCalls.length ∧
      st.chain = chain ++ toolCallsMessage result.funcCalls ::
        toolMessages result.funcCalls (observations seg) ∧
      (chainWrites seg).map (fun w => (w.1, Res.ok w.2.1, w.2.2)) =
        (appendSteps chain (toolCallsMessage result.funcCalls ::
          toolMessages result.funcCalls (observations seg))).map
            (fun c => (chainID, env.jsonMarshal c, none)) ∧
      (toolCallsMessage result.funcCalls).Parts = result.funcCalls.map ContentPart.ToolCall ∧
      (∀ m ∈ toolCallsMessage result.funcCalls ::
          toolMessages result.funcCalls (observations seg),
        ∀ role text, m ≠ TextParts role text) := by
  have hlen : result0.funcCalls.length = 0 := by rw [hno]; rfl
  have hphase : callPhase env agent chainID taskID subtaskID executionContext chain log =
      some (Sum.inr result, log3) := by
    unfold callPhase
    rw [hcall]
    simp only
    rw [husage]
    simp only
    rw [if_pos hlen, if_neg hagent, hreflect]
  obtain ⟨hne, hsome⟩ := callPhase_result env agent chainID taskID subtaskID executionContext
    chain log result log3 hphase
  obtain ⟨seg, g1, _, g3, g4, g5, _, _⟩ :=
    toolPhase_ok env chainID chain result seen false log3 st hsome htools
  obtain ⟨out, segR, hR, _, hwR, _⟩ := performReflector_seg env agent chainID taskID subtaskID
    (chain ++ [TextParts ChatMessageType.ChatMessageTypeAI result0.content])
    (getLastHumanMessage env chain) result0.content executionContext 1 log2
  rw [hreflect] at hR
  simp only [Option.some.injEq, Prod.mk.injEq] at hR
  have hsrc := performReflectorFuel_source env agent chainID taskID subtaskID
    (getLastHumanMessage env chain) executionContext _
    (chain ++ [TextParts ChatMessageType.ChatMessageTypeAI result0.content])
    result0.content 1 log2 result log3 hreflect
  refine ⟨?_, hne, ⟨segR, hR.2, hwR⟩, hsrc.2, seg, g1, g3, g4, g5, rfl, ?_⟩
  · unfold iteration
    rw [hphase]
    simp only
    unfold runTools
    rw [htools]
  · intro m hm role text heq
    rcases List.mem_cons.1 hm with hm | hm
    · subst hm
      have hparts := congrArg MessageContent.Parts heq
      simp only [toolCallsMessage, TextParts] at hparts
      cases hcalls : result.funcCalls with
      | nil => exact hne hcalls
      | cons c rest =>
        rw [hcalls] at hparts
        simp at hparts
    · obtain ⟨c, o, hmk⟩ := mem_toolMessages _ _ m hm
      rw [hmk] at heq
      have hparts := congrArg MessageContent.Parts heq
      simp [toolMessage, TextParts] at hparts

theorem reflector_leaves_chain_witness :
    callWithRetries reflectEnv [] primaryAgent [] = (Res.ok proseResult, reflectStartLog) ∧
    performReflector reflectEnv primaryAgent 7 none none
        ([] ++ [TextParts ChatMessageType.ChatMessageTypeAI proseResult.content])
        (getLastHumanMessage reflectEnv []) proseResult.content "context" 1
        (reflectStartLog ++ [Event.UpdateMsgChainUsage 7 0 0 none]) =
      some (Res.ok reflectResult, reflectPassLog) ∧
    toolPhase reflectEnv 7 [] reflectResult [] false reflectPassLog =
      some (none, reflectState) ∧
    iteration reflectEnv primaryAgent 7 none none "context" [] [] [] =
      some (afterTools reflectEnv 7 reflectState) ∧
    reflectState.chain =
      [toolCallsMessage [mkCall "c1" "search" "q"],
       toolMessage (mkCall "c1" "search" "q") "search" "done"] :=
  ⟨by decide, by decide, by decide,
    (reflector_leaves_chain reflectEnv primaryAgent 7 none none "context" [] [] []
      proseResult reflectStartLog (reflectStartLog ++ [Event.UpdateMsgChainUsage 7 0 0 none])
      reflectResult reflectPassLog reflectState (by decide) (by decide) rfl (by decide)
      (by decide) (by decide)).1,
    rfl⟩

end Performer
